import Mathlib

/-!
# Gomoku: board, win detection, scoring agent and match runner

A shallow embedding of `src/main.cpp`.

* `int` values are integers; every `int` result that the source computes from
  unbounded operands goes through `wrapInt`, the 32-bit two's-complement wrap.
* A `float` that the scoring code computes is a value of `Flt`, IEEE-754
  binary32: a finite number, `+INFINITY`, `-INFINITY` or NaN; every addition
  and multiplication rounds its exact result to binary32 (to nearest, ties to
  even) and overflows to an infinity, `0 * INFINITY` and
  `INFINITY - INFINITY` are NaN, and a comparison with a NaN is false.
* The 82 parameters an agent stores are finite `float`s, kept as the rational
  numbers they are; mutation and parsing are modelled over exact numbers.
* A C++ exception is an `Except.error` result; every operation that can throw
  returns its result together with the state it leaves behind.
-/

namespace Gomoku

/-- 32-bit two's-complement wrap of an `int` result. -/
def wrapInt (v : Int) : Int := (v + 2147483648) % 4294967296 - 2147483648

/-- The `std::runtime_error`s of the program. `illegalMove x y` is
"cannot make this move (x, y)"; `outOfFuel` is not an error of the program,
it marks a loop model that was given too few iterations. -/
inductive GameError where
  | illegalMove (x y : Int)
  | outOfFuel
deriving DecidableEq, Repr

/-- `class Board`: `char storage[size*size]`. -/
structure Board where
  storage : Fin 361 → Char

namespace Board

/-- `static const int size = 19`. -/
def size : Int := 19

def checkCoord (x : Int) : Bool := decide (0 ≤ x) && decide (x < size)

def checkPos (pos : Int) : Bool := decide (0 ≤ pos) && decide (pos < size * size)

def checkCoords (x y : Int) : Bool := checkCoord x && checkCoord y

def flatten (x y : Int) : Int := wrapInt (y * size + x)

/-- The read `storage[pos]`. Every read of the program is at a position that
passed `checkPos` or at coordinates that passed `checkCoords`; outside the
array the model reads the null character. -/
def cell (b : Board) (pos : Int) : Char :=
  if h : 0 ≤ pos ∧ pos < 361 then b.storage ⟨pos.toNat, by omega⟩ else Char.ofNat 0

/-- The write `storage[pos] = s` (no effect outside the array). -/
def set (b : Board) (pos : Int) (s : Char) : Board :=
  if h : 0 ≤ pos ∧ pos < 361 then
    ⟨Function.update b.storage ⟨pos.toNat, by omega⟩ s⟩
  else b

/-- The loop `for (k = ...; k < 5; ++k)` of `checkForWin` along one direction:
`fuel` iterations are left, `k` is the loop variable and `inRow` the running
count. `true` is the `return true` inside the loop. -/
def scanLine (b : Board) (s : Char) (x y dx dy : Int) : Nat → Int → Nat → Bool
  | 0, _, _ => false
  | fuel + 1, k, inRow =>
    let nx := wrapInt (x + dx * k)
    let ny := wrapInt (y + dy * k)
    if !checkCoords nx ny then
      scanLine b s x y dx dy fuel (k + 1) inRow
    else
      let pos := flatten nx ny
      if b.cell pos = s then
        if inRow + 1 = 5 then true
        else scanLine b s x y dx dy fuel (k + 1) (inRow + 1)
      else scanLine b s x y dx dy fuel (k + 1) 0

/-- `Board::checkForWin`. The loops over `dx` and `dy` run over `-1, 0, 1`,
the `dy` loop stopping at the first `dy` with `dy <= dx && dy <= 0` false;
`k` runs over the nine values `-4 .. 4`. -/
def checkForWin (b : Board) (x y : Int) : Bool :=
  let s := b.cell (flatten x y)
  if s = '.' then false
  else
    [-1, 0, 1].any fun dx =>
      ([-1, 0, 1].takeWhile fun dy => decide (dy ≤ dx) && decide (dy ≤ 0)).any fun dy =>
        if dx = 0 ∧ dy = 0 then false
        else scanLine b s x y dx dy 9 (-4) 0

/-- `Board::makeMove`: the result (or the exception) and the board afterwards. -/
def makeMove (b : Board) (s : Char) (x y : Int) : Except GameError Bool × Board :=
  let pos := flatten x y
  if !checkPos pos || b.cell pos != '.' then
    (.error (.illegalMove x y), b)
  else
    let b' := b.set pos s
    (.ok (b'.checkForWin x y), b')

/-- `Board::at`. -/
def at' (b : Board) (x y : Int) : Char :=
  let pos := flatten x y
  if !checkPos pos then '-' else b.cell pos

/-- `Board::clear`: the loop `for (i = 0; i < size * size; ++i) storage[i] = '.'`. -/
def clear (b : Board) : Board :=
  (List.range 361).foldl (fun b (i : Nat) => b.set (i : Int) '.') b

/-- `Board::Board()`: zero-initialised storage, then `clear()`. -/
def new : Board := clear ⟨fun _ => Char.ofNat 0⟩

end Board

/-- A value of the C++ type `float` (IEEE-754 binary32): a finite number, an
infinity or a NaN. The two zeros are one value and the NaNs are one value: the
scoring code only adds, multiplies and compares, and none of these tells two
zeros or two NaNs apart. -/
inductive Flt where
  | fin (q : ℚ)
  | pinf
  | ninf
  | nan
deriving DecidableEq

/-- The integer nearest to a rational `x ≥ 0`, the even one of the two when
`x` lies halfway. -/
def roundHalfEven (x : ℚ) : ℤ :=
  if x - ⌊x⌋ < 1 / 2 then ⌊x⌋
  else if 1 / 2 < x - ⌊x⌋ then ⌊x⌋ + 1
  else if ⌊x⌋ % 2 = 0 then ⌊x⌋ else ⌊x⌋ + 1

namespace Flt

/-- The binary32 value of an exact result `q`: round to nearest, ties to
even, with 24 significant bits and the least exponent `-126` (results below
the normal range round to multiples of `2 ^ (-149)`); a rounded magnitude of
`2 ^ 128` or more, that is above `FLT_MAX`, is an infinity. -/
def round (q : ℚ) : Flt :=
  if q = 0 then fin 0
  else if 2 ^ 128 ≤ (roundHalfEven (|q| / 2 ^ (max (Int.log 2 |q|) (-126) - 23)) : ℚ) *
      2 ^ (max (Int.log 2 |q|) (-126) - 23) then
    (if 0 < q then pinf else ninf)
  else if 0 < q then
    fin ((roundHalfEven (|q| / 2 ^ (max (Int.log 2 |q|) (-126) - 23)) : ℚ) *
      2 ^ (max (Int.log 2 |q|) (-126) - 23))
  else
    fin (-((roundHalfEven (|q| / 2 ^ (max (Int.log 2 |q|) (-126) - 23)) : ℚ) *
      2 ^ (max (Int.log 2 |q|) (-126) - 23)))

/-- The `float` sum `x + y`. -/
def add : Flt → Flt → Flt
  | nan, _ => nan
  | _, nan => nan
  | fin a, fin b => round (a + b)
  | fin _, pinf => pinf
  | fin _, ninf => ninf
  | pinf, fin _ => pinf
  | ninf, fin _ => ninf
  | pinf, pinf => pinf
  | ninf, ninf => ninf
  | pinf, ninf => nan
  | ninf, pinf => nan

/-- The `float` product `x * y`. -/
def mul : Flt → Flt → Flt
  | nan, _ => nan
  | _, nan => nan
  | fin a, fin b => round (a * b)
  | fin a, pinf => if a = 0 then nan else if 0 < a then pinf else ninf
  | fin a, ninf => if a = 0 then nan else if 0 < a then ninf else pinf
  | pinf, fin b => if b = 0 then nan else if 0 < b then pinf else ninf
  | ninf, fin b => if b = 0 then nan else if 0 < b then ninf else pinf
  | pinf, pinf => pinf
  | ninf, ninf => pinf
  | pinf, ninf => ninf
  | ninf, pinf => ninf

/-- The comparison `x < y` of two `float`s (`y > x`): false when an operand
is NaN. -/
def lt : Flt → Flt → Bool
  | fin a, fin b => decide (a < b)
  | fin _, pinf => true
  | ninf, fin _ => true
  | ninf, pinf => true
  | _, _ => false

/-- The comparison `x <= y` of two `float`s: false when an operand is NaN. -/
def le : Flt → Flt → Bool
  | fin a, fin b => decide (a ≤ b)
  | fin _, pinf => true
  | ninf, fin _ => true
  | ninf, pinf => true
  | pinf, pinf => true
  | ninf, ninf => true
  | _, _ => false

end Flt

/-- `class NN5Player`: the 82 parameters and the two marks set by `init`. The
parameters are finite `float`s; the scoring code reads a parameter `q` as
`Flt.round q`, which is `q` itself when `q` is a binary32 value. -/
structure NN5Player where
  w : Fin 3 → Fin 25 → ℚ
  a : Fin 3 → ℚ
  wr : Fin 3 → ℚ
  ar : ℚ
  s : Char
  opposite : Char

namespace NN5Player

/-- `NN5Player::init`. -/
def init (p : NN5Player) (s : Char) : NN5Player :=
  { p with s := s, opposite := if s = 'x' then 'o' else 'x' }

/-- The local array `char map[3] = { '.', s, opposite }` of `makeMove`. -/
def map (p : NN5Player) (i : Fin 3) : Char :=
  match i with
  | 0 => '.'
  | 1 => p.s
  | 2 => p.opposite

/-- The index `dy * size + dx` into `w[i]`. -/
def widx (dy dx : Fin 5) : Fin 25 := ⟨dy.val * 5 + dx.val, by omega⟩

/-- The value of `r` for channel `i` at candidate `(x, y)` after the `dy`/`dx`
loops and the rectifier; `match` is the `int` `0` or `1`, converted to
`float` for the product. -/
def channel (p : NN5Player) (b : Board) (x y : Int) (i : Fin 3) : Flt :=
  let r := (List.finRange 5).foldl (fun r dy =>
    (List.finRange 5).foldl (fun r dx =>
      let mtch : Flt :=
        if b.at' (x + (dx.val : Int) - 5 / 2) (y + (dy.val : Int) - 5 / 2) = p.map i
        then Flt.fin 1 else Flt.fin 0
      Flt.add r (Flt.mul (Flt.round (p.w i (widx dy dx))) mtch)) r) (Flt.round (p.a i))
  if Flt.lt r (Flt.fin 0) = true then Flt.fin 0 else r

/-- The value of `rr` for candidate `(x, y)`. -/
def score (p : NN5Player) (b : Board) (x y : Int) : Flt :=
  (List.finRange 3).foldl
    (fun rr i => Flt.add rr (Flt.mul (Flt.round (p.wr i)) (p.channel b x y i)))
    (Flt.round p.ar)

end NN5Player

/-- The locals `maxr`, `xr`, `yr` of `NN5Player::makeMove`. -/
structure Best where
  maxr : Flt
  xr : Int
  yr : Int

namespace NN5Player

/-- The body of the two cell loops of `makeMove` for the cell `(x, y)`. -/
def visit (p : NN5Player) (b : Board) (st : Best) (x y : Nat) : Best :=
  if b.at' x y ≠ '.' then st
  else
    let rr := p.score b x y
    if Flt.lt st.maxr rr = true then ⟨rr, x, y⟩ else st

/-- The two cell loops of `makeMove` (`x` outer, `y` inner), started from
`maxr = -INFINITY`, `xr = 9`, `yr = 9`. -/
def scan (p : NN5Player) (b : Board) : Best :=
  (List.range 19).foldl (fun st x =>
    (List.range 19).foldl (fun st y => p.visit b st x y) st) ⟨Flt.ninf, 9, 9⟩

/-- `NN5Player::makeMove`. -/
def makeMove (p : NN5Player) (b : Board) : Except GameError Bool × Board :=
  let best := p.scan b
  b.makeMove p.s best.xr best.yr

end NN5Player

/-- `struct NN5`. -/
structure NN5 where
  pet : NN5Player
  score : Int

/-- The state `playGame` works on: the board and the two entries passed by
reference, and a ghost log `placed` of the successful placements in order,
each with the mark placed and the result `Board::makeMove` returned. -/
structure GameState where
  board : Board
  p1 : NN5
  p2 : NN5
  placed : List (Char × Bool)

/-- The loop of `playGame`; `i` is the loop variable and `fuel` bounds the
number of iterations. -/
def playLoop : Nat → Int → GameState → Except GameError Unit × GameState
  | 0, _, st => (.error .outOfFuel, st)
  | fuel + 1, i, st =>
    if i < Board.size * Board.size then
      match st.p1.pet.makeMove st.board with
      | (.error e, b) => (.error e, { st with board := b })
      | (.ok res, b) =>
        let st := { st with board := b, placed := st.placed ++ [(st.p1.pet.s, res)] }
        let i := i + 1
        if res = true then
          (.ok (), { st with p1 := { st.p1 with score := st.p1.score + 3 },
                             p2 := { st.p2 with score := st.p2.score - 5 } })
        else if i = Board.size * Board.size then (.ok (), st)
        else
          match st.p2.pet.makeMove st.board with
          | (.error e, b) => (.error e, { st with board := b })
          | (.ok res, b) =>
            let st := { st with board := b, placed := st.placed ++ [(st.p2.pet.s, res)] }
            if res = true then
              (.ok (), { st with p1 := { st.p1 with score := st.p1.score - 5 },
                                 p2 := { st.p2 with score := st.p2.score + 3 } })
            else playLoop fuel (i + 1) st
    else (.ok (), st)

/-- `playGame`. The loop variable starts at `0` and grows by two in every
iteration that does not return, so `361` iterations are more than the loop
can make. -/
def playGame (board : Board) (p1 p2 : NN5) : Except GameError Unit × GameState :=
  let p1 := { p1 with pet := p1.pet.init 'x' }
  let p2 := { p2 with pet := p2.pet.init 'o' }
  playLoop 361 0 ⟨board, p1, p2, []⟩

/-- A sequence of `Board::makeMove` calls `(s, x, y)` on one board, failed
calls included: the board after the last call. -/
def Board.makeMoves (b : Board) (moves : List (Char × Int × Int)) : Board :=
  moves.foldl (fun b m => (b.makeMove m.1 m.2.1 m.2.2).2) b

/-- Cell `(x, y)` lies inside the grid and holds `s` (the cell of column `x`
and row `y` is `storage[y * 19 + x]`). -/
def Board.holds (b : Board) (x y : Int) (s : Char) : Prop :=
  0 ≤ x ∧ x < 19 ∧ 0 ≤ y ∧ y < 19 ∧ b.cell (y * 19 + x) = s

/-- The four line directions of the specification. -/
def winDirections : List (Int × Int) := [(1, 0), (0, 1), (1, 1), (1, -1)]

/-- Five consecutive in-grid cells along the direction `(dx, dy)`, at the
offsets `a, ..., a + 4` from `(x, y)` with `-4 ≤ a ≤ 0` (so that `(x, y)`,
offset `0`, is one of them), all hold `s`. -/
def Board.runAlong (b : Board) (s : Char) (x y dx dy : Int) : Prop :=
  ∃ a : Int, -4 ≤ a ∧ a ≤ 0 ∧
    ∀ i : Int, a ≤ i → i < a + 5 → b.holds (x + dx * i) (y + dy * i) s

/-- Some direction of the specification has five consecutive in-grid cells
through `(x, y)` that all hold `s`. -/
def Board.fiveThrough (b : Board) (s : Char) (x y : Int) : Prop :=
  ∃ d ∈ winDirections, b.runAlong s x y d.1 d.2

instance (b : Board) (x y : Int) (s : Char) : Decidable (b.holds x y s) := by
  unfold Board.holds; infer_instance

/-- The board with every cell Empty. -/
def emptyBoard : Board := ⟨fun _ => '.'⟩

deriving instance DecidableEq for Except

/-- The score of candidate `(x, y)` as the specification words it: channel
`c` sums `w[c][dy+2][dx+2]` over the offsets `(dx, dy)` of the 5×5 window
whose target `(x + dx, y + dy)` lies inside the grid and holds the state of
channel `c`. -/
def specChannelSum (p : NN5Player) (b : Board) (x y : Int) (c : Fin 3) : ℚ :=
  ∑ dy : Fin 5, ∑ dx : Fin 5,
    if b.holds (x + (dx.val : Int) - 2) (y + (dy.val : Int) - 2) (p.map c)
    then p.w c (NN5Player.widx dy dx) else 0

/-- The score `ar + Σ_c wr[c] * max(0, a[c] + S_c)` of the specification. -/
def specScore (p : NN5Player) (b : Board) (x y : Int) : ℚ :=
  p.ar + ∑ c : Fin 3, p.wr c * max 0 (p.a c + specChannelSum p b x y c)

/-- An agent whose only non-zero window weight is `w[0][2 * 5 + 1]`, the
weight of the Empty channel for the offset `(-1, 0)`, with `wr[0] = 1`. -/
def edgeAgent : NN5Player where
  w := fun c k => if c = 0 ∧ k = 11 then 1 else 0
  a := fun _ => 0
  wr := fun c => if c = 0 then 1 else 0
  ar := 0
  s := 'x'
  opposite := 'o'

/-- The scan of `scanLine` over abstract cell tests: `g k` says that the cell
at offset `k` is inside the grid, `m k` that it holds the mark. -/
def scanAbs (g m : Int → Bool) : Nat → Int → Nat → Bool
  | 0, _, _ => false
  | fuel + 1, k, c =>
    if !g k then scanAbs g m fuel (k + 1) c
    else if m k then (if c + 1 = 5 then true else scanAbs g m fuel (k + 1) (c + 1))
    else scanAbs g m fuel (k + 1) 0

/-- Invariant of the cell loops of `NN5Player::makeMove`, `P` being the set
of cells visited so far: either no visited Empty cell has a score that
compares greater than `-INFINITY` and the locals still have their initial
values, or the locals hold a visited Empty cell and its score, a score that
compares greater than `-INFINITY`; no visited Empty cell compares greater, and
every Empty cell visited before it whose score is not a NaN compares less. -/
def ScanInv (p : NN5Player) (b : Board) (P : Nat → Nat → Prop) (st : Best) : Prop :=
  (st = ⟨Flt.ninf, 9, 9⟩ ∧
    ∀ x y, P x y → b.at' x y = '.' → Flt.lt Flt.ninf (p.score b x y) = false) ∨
  (∃ xr yr : Nat, P xr yr ∧ b.at' xr yr = '.' ∧
    Flt.lt Flt.ninf (p.score b xr yr) = true ∧
    st = ⟨p.score b xr yr, xr, yr⟩ ∧
    ∀ x y : Nat, P x y → b.at' x y = '.' →
      Flt.lt (p.score b xr yr) (p.score b x y) = false ∧
      ((x < xr ∨ (x = xr ∧ y < yr)) → p.score b x y ≠ Flt.nan →
        Flt.lt (p.score b x y) (p.score b xr yr) = true))

/-- The number of Empty cells of a board. -/
def Board.emptyCount (b : Board) : Nat :=
  (Finset.univ.filter fun q : Fin 361 => b.storage q = '.').card

/-- The mark of the placement number `k` of a match (`k = 0` is the first). -/
def turnMark (k : Nat) : Char := if k % 2 = 0 then 'x' else 'o'

/-- The marks of a log of placements alternate, `'x'` first. -/
def Alternates (l : List (Char × Bool)) : Prop :=
  l.map Prod.fst = (List.range l.length).map turnMark

/-- What a returning run of the loop of `playGame` does to the scores, by the
one placement that reported a win, if any. -/
def Outcome (st st' : GameState) : Prop :=
  (∃ pre, st'.placed = pre ++ [(st.p1.pet.s, true)] ∧ (∀ e ∈ pre, e.2 = false) ∧
    st'.p1.score = st.p1.score + 3 ∧ st'.p2.score = st.p2.score - 5) ∨
  (∃ pre, st'.placed = pre ++ [(st.p2.pet.s, true)] ∧ (∀ e ∈ pre, e.2 = false) ∧
    st'.p1.score = st.p1.score - 5 ∧ st'.p2.score = st.p2.score + 3) ∨
  ((∀ e ∈ st'.placed, e.2 = false) ∧
    st'.p1.score = st.p1.score ∧ st'.p2.score = st.p2.score)

/-- The score change of a returned match with entries `p1` (first, mark `'x'`)
and `p2` (second, mark `'o'`), read off the final state `st`: `(+3, -5)` and
the last placement, by `'x'`, is the only one that reported a win; `(-5, +3)`
and the last placement, by `'o'`, is the only one that reported a win;
`(0, 0)` and no placement reported a win. -/
def ScoreChange (p1 p2 : NN5) (st : GameState) : Prop :=
  (∃ pre, st.placed = pre ++ [('x', true)] ∧ (∀ e ∈ pre, e.2 = false) ∧
    st.p1.score = p1.score + 3 ∧ st.p2.score = p2.score - 5) ∨
  (∃ pre, st.placed = pre ++ [('o', true)] ∧ (∀ e ∈ pre, e.2 = false) ∧
    st.p1.score = p1.score - 5 ∧ st.p2.score = p2.score + 3) ∨
  ((∀ e ∈ st.placed, e.2 = false) ∧ st.p1.score = p1.score ∧ st.p2.score = p2.score)

/-- The board rotated by 90 degrees: the content of cell `(x, y)` moves to
cell `(18 - y, x)`. -/
def Board.rot90 (b : Board) : Board :=
  ⟨fun q => b.storage ⟨19 * (18 - q.val % 19) + q.val / 19, by omega⟩⟩

/-- The board rotated by 180 degrees: the content of cell `(x, y)` moves to
cell `(18 - x, 18 - y)`. -/
def Board.rot180 (b : Board) : Board :=
  ⟨fun q => b.storage ⟨360 - q.val, by omega⟩⟩

/-- The board mirrored at the diagonal: the content of cell `(x, y)` moves to
cell `(y, x)`. -/
def Board.mirror (b : Board) : Board :=
  ⟨fun q => b.storage ⟨19 * (q.val % 19) + q.val / 19, by omega⟩⟩

/-- `NN5Player::randf` for the value `v` that `rand()` returned; `M` is
`RAND_MAX`. -/
def NN5Player.randf (M : Nat) (v : Nat) : ℚ := ((v : ℚ) / (M : ℚ) - 1 / 2) / 10

/-- `NN5Player::chanceOrZero(x, prob)` for the value `v` that `rand()`
returned. -/
def NN5Player.chanceOrZero (M : Nat) (x prob : ℚ) (v : Nat) : ℚ :=
  if (v : ℚ) / (M : ℚ) ≤ prob then x else 0

/-- The term `chanceOrZero(randf() * scale, prob)` of `mutateFrom` for the
parameter number `k` in assignment order: the argument `randf() * scale` is
evaluated first, so the parameter uses the draws `2 * k` (value) and
`2 * k + 1` (gate) of the call's sequence `rng` of `rand()` results. -/
def NN5Player.perturb (M : Nat) (rng : Nat → Nat) (k : Nat) (scale prob : ℚ) : ℚ :=
  NN5Player.chanceOrZero M (NN5Player.randf M (rng (2 * k)) * scale) prob (rng (2 * k + 1))

/-- `NN5Player::mutateFrom(other, ac, wc, prob)` on the object `self`: the
parameters are assigned in the order `ar`, then for each channel `i`: `a[i]`,
`wr[i]`, `w[i][0..24]`; the marks of `self` are not touched. -/
def NN5Player.mutateFrom (self other : NN5Player) (ac wc prob : ℚ) (M : Nat)
    (rng : Nat → Nat) : NN5Player :=
  { self with
    ar := other.ar + NN5Player.perturb M rng 0 ac prob
    a := fun i => other.a i + NN5Player.perturb M rng (1 + 27 * i.val) ac prob
    wr := fun i => other.wr i + NN5Player.perturb M rng (2 + 27 * i.val) wc prob
    w := fun i j => other.w i j + NN5Player.perturb M rng (3 + 27 * i.val + j.val) wc prob }

/-- The regeneration loop of `main`: task `i` runs
`pets[i + size / 2].pet.mutateFrom(pets[i].pet, 10, 10, 0.02)` with its own
sequence `rngs i` of `rand()` results; the tasks are run in index order. -/
def regenerate (M : Nat) (rngs : Nat → Nat → Nat) (pets : List NN5) : List NN5 :=
  (List.range (pets.length / 2)).foldl (fun ps i =>
    match ps[i + pets.length / 2]?, ps[i]? with
    | some child, some parent =>
      ps.set (i + pets.length / 2)
        { child with pet := child.pet.mutateFrom parent.pet 10 10 (1 / 50) M (rngs i) }
    | _, _ => ps) pets

/-- A sequence of `rand()` results whose first value is `RAND_MAX = 32767`
and whose other values are `0`. -/
def zeroGateDraws (n : Nat) : Nat := if n = 0 then 32767 else 0

/-- A sequence of `rand()` results that are all `1`. -/
def unitDraws (_ : Nat) : Nat := 1

/-- Two agents have the same 82 parameters. -/
def NN5Player.sameParams (p q : NN5Player) : Prop :=
  p.ar = q.ar ∧ p.a = q.a ∧ p.wr = q.wr ∧ p.w = q.w

/-- Every parameter of `c` is within `da` (for `ar`, `a[i]`) or `dw` (for
`wr[i]`, `w[i][j]`) of the corresponding parameter of `p`. -/
def NN5Player.within (c p : NN5Player) (da dw : ℚ) : Prop :=
  |c.ar - p.ar| ≤ da ∧ (∀ i, |c.a i - p.a i| ≤ da) ∧
  (∀ i, |c.wr i - p.wr i| ≤ dw) ∧ ∀ i j, |c.w i j - p.w i j| ≤ dw

/-- A whitespace-separated token of the input of the seed parser: `num q`
is text that converts to the `float` `q`; `bad v` is text whose conversion
fails, `v` being the value the failed extraction stores (since C++11: `0` for
text that is not a number, the largest `float` of the sign for a number out
of range). -/
inductive Token where
  | num (q : ℚ)
  | bad (v : ℚ)
deriving DecidableEq

/-- The input stream of the seed parser: the tokens still to be read and the
stream's fail state. -/
structure IStream where
  tokens : List Token
  failed : Bool

/-- The extraction `istream >> v` into a `float` that holds `old`. On a stream
in fail state, or at the end of the input, the stream is (left) in fail state
and the variable keeps its value. A token that converts is consumed and
stored. A token that does not convert sets the fail state and stores the
value of the failed conversion (how much of its text is consumed is not
tracked: the token stays). -/
def IStream.read (st : IStream) (old : ℚ) : ℚ × IStream :=
  if st.failed then (old, st)
  else
    match st.tokens with
    | [] => (old, { st with failed := true })
    | Token.num t :: ts => (t, { st with tokens := ts })
    | Token.bad v :: _ => (v, { st with failed := true })

/-- The inner loop of `NN5Player::NN5Player(std::istream&)` for channel `i`:
`istream >> w[i][j]` for `j = 0 .. 24`. -/
def NN5Player.parseWeights (i : Fin 3) (acc : NN5Player × IStream) : NN5Player × IStream :=
  (List.finRange 25).foldl (fun (acc : NN5Player × IStream) j =>
    let r := acc.2.read (acc.1.w i j)
    ({ acc.1 with w := Function.update acc.1.w i (Function.update (acc.1.w i) j r.1) }, r.2))
    acc

/-- The body of the outer loop of the constructor for channel `i`:
`istream >> a[i]; istream >> wr[i];` and the inner loop. -/
def NN5Player.parseChannel (acc : NN5Player × IStream) (i : Fin 3) : NN5Player × IStream :=
  let ra := acc.2.read (acc.1.a i)
  let p1 : NN5Player := { acc.1 with a := Function.update acc.1.a i ra.1 }
  let rw := ra.2.read (p1.wr i)
  let p2 : NN5Player := { p1 with wr := Function.update p1.wr i rw.1 }
  NN5Player.parseWeights i (p2, rw.2)

/-- `NN5Player::NN5Player(std::istream&)`. The constructor initialises no
member, so the new object starts from indeterminate values, `init`. -/
def NN5Player.parse (init : NN5Player) (st : IStream) : NN5Player × IStream :=
  let r := st.read init.ar
  (List.finRange 3).foldl NN5Player.parseChannel ({ init with ar := r.1 }, r.2)

/-- `operator<<(std::ostream&, NN5Player&)`: the numbers written, in order. -/
def NN5Player.dump (p : NN5Player) : List ℚ :=
  (List.finRange 3).foldl (fun out i =>
    (List.finRange 25).foldl (fun out j => out ++ [p.w i j]) (out ++ [p.a i] ++ [p.wr i]))
    [p.ar]

/-- The seeding loop of `main`: one population entry with score `0` per saved
token sequence, whatever the state of the stream after parsing. -/
def seedPets (init : NN5Player) (saved : List (List Token)) : List NN5 :=
  saved.foldl (fun pets toks => pets ++ [⟨(NN5Player.parse init ⟨toks, false⟩).1, 0⟩]) []

/-- The 82 parameters of an agent. -/
inductive Slot where
  | ar
  | a (i : Fin 3)
  | wr (i : Fin 3)
  | w (i : Fin 3) (j : Fin 25)
deriving DecidableEq

/-- The slots of channel `i` in the order of the specification. -/
def slotsOf (i : Fin 3) : List Slot :=
  [Slot.a i, Slot.wr i] ++ (List.finRange 25).map (Slot.w i)

/-- The 82 slots in the order of the specification: `ar`, then for each
channel `a`, `wr` and the 25 weights. -/
def slots : List Slot := [Slot.ar] ++ slotsOf 0 ++ slotsOf 1 ++ slotsOf 2

/-- The value of a parameter. -/
def NN5Player.get (p : NN5Player) : Slot → ℚ
  | .ar => p.ar
  | .a i => p.a i
  | .wr i => p.wr i
  | .w i j => p.w i j

/-- The agent with one parameter replaced. -/
def NN5Player.put (p : NN5Player) (s : Slot) (v : ℚ) : NN5Player :=
  match s with
  | .ar => { p with ar := v }
  | .a i => { p with a := Function.update p.a i v }
  | .wr i => { p with wr := Function.update p.wr i v }
  | .w i j => { p with w := Function.update p.w i (Function.update (p.w i) j v) }

/-- Reading the slots of a list in order from a stream. -/
def readSlots (ss : List Slot) (acc : NN5Player × IStream) : NN5Player × IStream :=
  ss.foldl (fun acc s => ((acc.1.put s (acc.2.read (acc.1.get s)).1),
    (acc.2.read (acc.1.get s)).2)) acc

/-- Replacing the parameters of a list of slot-value pairs in order. -/
def NN5Player.putAll (p : NN5Player) (zs : List (Slot × ℚ)) : NN5Player :=
  zs.foldl (fun p z => p.put z.1 z.2) p

/-- The comparator of the ranking step:
`[](const NN5& a, const NN5& b){ return a.score > b.score; }`. -/
def byScore (a b : NN5) : Bool := decide (a.score > b.score)

/-- A comparator is a strict weak ordering, the requirement of `std::sort` on
its comparator: irreflexive, transitive, and with a transitive
incomparability. -/
def StrictWeakOrder (comp : NN5 → NN5 → Bool) : Prop :=
  (∀ a, comp a a = false) ∧
  (∀ a b c, comp a b = true → comp b c = true → comp a c = true) ∧
  (∀ a b c, comp a b = false → comp b a = false → comp b c = false → comp c b = false →
    comp a c = false ∧ comp c a = false)

/-- What the C++ standard promises of `std::sort(first, last, comp)`, a
library function outside the repository: for a comparator that is a strict
weak ordering the range afterwards is a permutation of the range before and
is sorted with respect to `comp`, no element being `comp`-before one that
precedes it. Nothing is promised about the order of equivalent elements. -/
def StdSortContract (sort : (NN5 → NN5 → Bool) → List NN5 → List NN5) : Prop :=
  ∀ comp, StrictWeakOrder comp → ∀ l,
    (sort comp l).Perm l ∧ (sort comp l).Pairwise (fun a b => comp b a = false)

/-- The ranking step of `main`:
`sort(pets.begin(), pets.end(), [](a, b){ return a.score > b.score; })`. -/
def rank (sort : (NN5 → NN5 → Bool) → List NN5 → List NN5) (pets : List NN5) : List NN5 :=
  sort byScore pets

/-- Insertion sort with a comparator, an implementation of the contract of
`std::sort` that keeps equivalent elements in their order. -/
def insertionSortBy (comp : NN5 → NN5 → Bool) (l : List NN5) : List NN5 :=
  l.insertionSort (fun a b => comp b a = false)

/-- Insertion sort of the reversed range, an implementation of the contract
of `std::sort` that reverses the order of equivalent elements. -/
def reversingSortBy (comp : NN5 → NN5 → Bool) (l : List NN5) : List NN5 :=
  l.reverse.insertionSort (fun a b => comp b a = false)

/-- Two entries of equal score with different agents. -/
def tiedPets : List NN5 := [⟨edgeAgent, 0⟩, ⟨{ edgeAgent with ar := 1 }, 0⟩]

/-- Ghost record of one match: the index of the entry that moved first, the
index of the entry that moved second, the log of the placements of the match,
the index of the board it was played on and that board as it was when the
match started. -/
structure MatchRecord where
  first : Nat
  second : Nat
  placed : List (Char × Bool)
  board : Nat
  start : Board

/-- The state of `main` during training: the boards, the population, and a
ghost log of the matches played, in order. -/
structure Trainer where
  boards : List Board
  pets : List NN5
  log : List MatchRecord

/-- The task `(i, j)` of the tournament:
`if (i == j) return; playGame(boards[j], pets[i], pets[j]);` with the
exception, if any, kept for `get()`. -/
def Trainer.task (t : Trainer) (i j : Nat) : Except GameError Unit × Trainer :=
  if i = j then (.ok (), t)
  else
    match t.boards[j]?, t.pets[i]?, t.pets[j]? with
    | some b, some p1, some p2 =>
      ((playGame b p1 p2).1,
        { boards := t.boards.set j (playGame b p1 p2).2.board
          pets := (t.pets.set i (playGame b p1 p2).2.p1).set j (playGame b p1 p2).2.p2
          log := t.log ++ [⟨i, j, (playGame b p1 p2).2.placed, j, b⟩] })
    | _, _, _ => (.ok (), t)

/-- The loop that starts the tasks `(i, 0), (i, 1), ...` of round `i`, the
tasks of the group run one after the other in index order: the results the
futures hold and the state afterwards. -/
def Trainer.spawn (t : Trainer) (i : Nat) : List (Except GameError Unit) × Trainer :=
  (List.range t.pets.length).foldl
    (fun acc j => (acc.1 ++ [(acc.2.task i j).1], (acc.2.task i j).2)) ([], t)

/-- The loop `games[j].get(); boards[j].clear();` over the futures from
index `j` on: `get()` rethrows the exception of a task. -/
def Trainer.join : List (Except GameError Unit) → Nat → Trainer → Except GameError Unit × Trainer
  | [], _, t => (.ok (), t)
  | .error e :: _, _, t => (.error e, t)
  | .ok _ :: rs, j, t =>
    Trainer.join rs (j + 1)
      (match t.boards[j]? with
        | some b => { t with boards := t.boards.set j b.clear }
        | none => t)

/-- One iteration of the loop over `i` of the tournament. -/
def Trainer.round (t : Trainer) (i : Nat) : Except GameError Unit × Trainer :=
  Trainer.join (t.spawn i).1 0 (t.spawn i).2

/-- The loop over `i` of the tournament, for the values of `i` in a list. -/
def Trainer.rounds (t : Trainer) : List Nat → Except GameError Unit × Trainer
  | [] => (.ok (), t)
  | i :: is =>
    match t.round i with
    | (.error e, t') => (.error e, t')
    | (.ok _, t') => Trainer.rounds t' is

/-- The loop `pets[i].score = 0`. -/
def Trainer.resetScores (t : Trainer) : Trainer :=
  { t with pets := (List.range t.pets.length).foldl (fun (ps : List NN5) (i : Nat) =>
      match ps[i]? with
      | some p => ps.set i { p with score := 0 }
      | none => ps) t.pets }

/-- The tournament phase of one generation. -/
def Trainer.tournament (t : Trainer) : Except GameError Unit × Trainer :=
  t.resetScores.rounds (List.range t.pets.length)

/-- The first entry of a logged match won: its mark's placement reported a
win. -/
def MatchRecord.firstWon (m : MatchRecord) : Bool := decide (('x', true) ∈ m.placed)

/-- The second entry of a logged match won. -/
def MatchRecord.secondWon (m : MatchRecord) : Bool := decide (('o', true) ∈ m.placed)

/-- The number of logged matches that entry `k` won. -/
def wins (ms : List MatchRecord) (k : Nat) : Nat :=
  ms.countP fun m => (decide (m.first = k) && m.firstWon) || (decide (m.second = k) && m.secondWon)

/-- The number of logged matches that entry `k` lost. -/
def losses (ms : List MatchRecord) (k : Nat) : Nat :=
  ms.countP fun m => (decide (m.first = k) && m.secondWon) || (decide (m.second = k) && m.firstWon)

/-- The number of logged matches that entry `k` played. -/
def played (ms : List MatchRecord) (k : Nat) : Nat :=
  ms.countP fun m => decide (m.first = k) || decide (m.second = k)

/-- The number of logged matches with entry `a` first and entry `b` second. -/
def pairCount (ms : List MatchRecord) (a b : Nat) : Nat :=
  ms.countP fun m => decide (m.first = a) && decide (m.second = b)

/-- The score of the entry at index `k` (`0` outside the population). -/
def scoreAt (pets : List NN5) (k : Nat) : Int := ((pets[k]?).map NN5.score).getD 0

/-- `1` for `true`, `0` for `false`. -/
def ind (b : Bool) : Int := if b then 1 else 0

/-- Invariant of the tournament for a population of `N` entries and `N`
boards: every score is `3 * wins - 5 * losses` over the logged matches. -/
structure TInv (N : Nat) (t : Trainer) : Prop where
  hb : t.boards.length = N
  hp : t.pets.length = N
  hscore : ∀ k, k < N → scoreAt t.pets k = 3 * (wins t.log k : Int) - 5 * (losses t.log k : Int)
  hrec : ∀ m ∈ t.log, m.first < N ∧ m.second < N ∧ m.first ≠ m.second ∧
    ¬ (m.firstWon = true ∧ m.secondWon = true)

/-- The task `(a, b)` has been run when round `i` has run its tasks below
`m`: the pairs of the earlier rounds and the pairs `(i, b)` with `b < m`,
self-pairs excluded. -/
def procd (N i m a b : Nat) : Prop := a ≠ b ∧ b < N ∧ (a < i ∨ (a = i ∧ b < m))

instance (N i m a b : Nat) : Decidable (procd N i m a b) := by
  unfold procd; infer_instance

/-- The number of matches entry `k` has played when round `i` has run its
tasks below `m`. -/
def playedExp (N i m k : Nat) : Nat :=
  if k < i then N + i - 2 + (if k < m then 1 else 0)
  else if k = i then i + (if i < m then m - 1 else m)
  else i + (if k < m then 1 else 0)

/-- Invariant of the tournament when round `i` has run its tasks below `m`:
the scores, the matches logged for each pair and each entry, and the boards
from `m` on all-Empty. -/
structure RInv (N i m : Nat) (t : Trainer) : Prop where
  inv : TInv N t
  hpair : ∀ a b, pairCount t.log a b = if procd N i m a b then 1 else 0
  hplayed : ∀ k, k < N → played t.log k = playedExp N i m k
  hboards : ∀ j, m ≤ j → j < N → t.boards[j]? = some emptyBoard

/-- The ranking and regeneration steps of one generation: `std::sort` by
score, then the regeneration loop; `rngs i` is the sequence of `rand()`
results of regeneration task `i`. -/
def Trainer.breed (sort : (NN5 → NN5 → Bool) → List NN5 → List NN5) (M : Nat)
    (rngs : Nat → Nat → Nat) (t : Trainer) : Trainer :=
  { t with pets := regenerate M rngs (rank sort t.pets) }

/-- One iteration of the loop over `epoch` of `main`. -/
def Trainer.generation (sort : (NN5 → NN5 → Bool) → List NN5 → List NN5) (M : Nat)
    (rngs : Nat → Nat → Nat) (t : Trainer) : Except GameError Unit × Trainer :=
  match t.tournament with
  | (.error e, t') => (.error e, t')
  | (.ok _, t') => (.ok (), t'.breed sort M rngs)

/-- The loop over `epoch` of `main`, for the values of `epoch` in a list;
`rngs e i` is the sequence of `rand()` results of regeneration task `i` of
epoch `e`. -/
def Trainer.train (sort : (NN5 → NN5 → Bool) → List NN5 → List NN5) (M : Nat)
    (rngs : Nat → Nat → Nat → Nat) (t : Trainer) : List Nat → Except GameError Unit × Trainer
  | [] => (.ok (), t)
  | e :: es =>
    match t.generation sort M (rngs e) with
    | (.error err, t') => (.error err, t')
    | (.ok _, t') => Trainer.train sort M rngs t' es

/-- The exhibition match `playGame(boards[0], pets[0], pets[1])` followed by
`boards[0].clear()` (the printing of the board is left out). -/
def Trainer.exhibition (t : Trainer) : Except GameError Unit × Trainer :=
  match t.boards[0]?, t.pets[0]?, t.pets[1]? with
  | some b, some p1, some p2 =>
    ((playGame b p1 p2).1,
      { boards := t.boards.set 0
          (match (playGame b p1 p2).1 with
            | .ok _ => (playGame b p1 p2).2.board.clear
            | .error _ => (playGame b p1 p2).2.board)
        pets := (t.pets.set 0 (playGame b p1 p2).2.p1).set 1 (playGame b p1 p2).2.p2
        log := t.log ++ [⟨0, 1, (playGame b p1 p2).2.placed, 0, b⟩] })
  | _, _, _ => (.ok (), t)

/-- The part of `main` that follows the construction of the boards and of
the population: the 700 generations, then the exhibition match. -/
def Trainer.main (sort : (NN5 → NN5 → Bool) → List NN5 → List NN5) (M : Nat)
    (rngs : Nat → Nat → Nat → Nat) (t : Trainer) : Except GameError Unit × Trainer :=
  match t.train sort M rngs (List.range 700) with
  | (.error e, t') => (.error e, t')
  | (.ok _, t') => t'.exhibition

/-- The state of `main` when round `i` of the tournament of generation `g`
is about to start: `g` generations have been run, the scores have been reset
and the rounds `0, ..., i - 1` have been run. -/
def Trainer.roundStart (sort : (NN5 → NN5 → Bool) → List NN5 → List NN5) (M : Nat)
    (rngs : Nat → Nat → Nat → Nat) (t : Trainer) (g i : Nat) : Except GameError Unit × Trainer :=
  match t.train sort M rngs (List.range g) with
  | (.error e, t') => (.error e, t')
  | (.ok _, t') => t'.resetScores.rounds (List.range i)

/-- Invariant of the boards when the tasks below `m` of a round have been
run: as many boards as entries, the boards from `m` on all-Empty. -/
structure BInv (N m : Nat) (t : Trainer) : Prop where
  hb : t.boards.length = N
  hp : t.pets.length = N
  hboards : ∀ j, m ≤ j → j < N → t.boards[j]? = some emptyBoard

/-- The matches logged by the tasks below `m` of round `i`: each has entry
`i` first, another entry `j < m` second, was played on board `j` and started
on an all-Empty board; no board was used by two of them. -/
def RoundLog (i m : Nat) (L : List MatchRecord) : Prop :=
  (∀ r ∈ L, r.first = i ∧ r.second ≠ i ∧ r.second < m ∧ r.board = r.second ∧
    r.start = emptyBoard) ∧
  (L.map MatchRecord.board).Nodup

/-- Every logged match was played on the board of its second entry and
started on an all-Empty board. -/
def Tidy (L : List MatchRecord) : Prop :=
  ∀ r ∈ L, r.board = r.second ∧ r.start = emptyBoard

/-- Sequences of `rand()` results that are all `1`, for every epoch and
task. -/
def unitStreams (_ _ : Nat) : Nat → Nat := unitDraws

/-- An agent with all 82 parameters zero: every candidate scores `0`. -/
def zeroAgent : NN5Player where
  w := fun _ _ => 0
  a := fun _ => 0
  wr := fun _ => 0
  ar := 0
  s := 'x'
  opposite := 'o'

/-- An agent whose only non-zero window weight is `w[1][2 * 5 + 1]`, the
weight of the Self channel for the offset `(-1, 0)`, with `wr[1] = 1`: a
candidate scores `1` if `Board::at` reads the agent's mark to its left and
`0` otherwise. -/
def rowAgent : NN5Player where
  w := fun c k => if c = 1 ∧ k = 11 then 1 else 0
  a := fun _ => 0
  wr := fun c => if c = 1 then 1 else 0
  ar := 0
  s := 'x'
  opposite := 'o'

/-- The board after the mark `s` is written to the cell `(x, y)`. -/
def Board.put (b : Board) (s : Char) (x y : Nat) : Board := b.set ((y : Int) * 19 + x) s

/-- The content of the storage position `q` of the board whose marks are
listed in `l` (position and mark, the latest first); a position that is not
listed is Empty. -/
def look : List (Nat × Char) → Nat → Char
  | [], _ => '.'
  | (k, c) :: l, q => if q = k then c else look l q

/-- The board whose marks are listed in `l`. -/
def Board.ofMarks (l : List (Nat × Char)) : Board := ⟨fun q => look l q.val⟩

/-- For scores that are `1` on the candidates `f` marks and `0` on the
others, on the board of the marks `l`: every Empty cell scores at most what
`(xr, yr)` scores, and every Empty cell scanned before `(xr, yr)` scores
less. -/
def firstBest (l : List (Nat × Char)) (f : Nat → Nat → Bool) (xr yr : Nat) : Bool :=
  (List.range 19).all fun x => (List.range 19).all fun y =>
    look l (y * 19 + x) != '.' ||
      ((!f x y || f xr yr) &&
        (!decide (x < xr ∨ (x = xr ∧ y < yr)) || (!f x y && f xr yr)))

/-- The candidates that score `1` for the parameters of `rowAgent` and the
mark `s` on the board of the marks `l`: the storage position before the
candidate's holds `s`. -/
def leftMark (l : List (Nat × Char)) (s : Char) (x y : Nat) : Bool :=
  decide (y * 19 + x ≠ 0) && (look l (y * 19 + x - 1) == s)

/-- No candidate: the candidates that score `1` for the parameters of
`zeroAgent`. -/
def noCell (_ _ : Nat) : Bool := false

/-- A population of two entries, `rowAgent` and `zeroAgent`, with two
all-Empty boards. -/
def duelTrainer : Trainer :=
  ⟨[emptyBoard, emptyBoard], [⟨rowAgent, 0⟩, ⟨zeroAgent, 0⟩], []⟩

/-- The `float` `2 ^ 127`, about `1.7e38`: finite, and its double is above
`FLT_MAX`. -/
def big : ℚ := 2 ^ 127

/-- An agent of finite parameters whose score is `-INFINITY` for every
candidate on every board: `a[0] = 2 ^ 127`, `wr[0] = -1`, `ar = -2 ^ 127` and
all other parameters `0`, so that `rr = ar + wr[0] * a[0]` overflows. -/
def sinkAgent : NN5Player where
  w := fun _ _ => 0
  a := fun c => if c = 0 then big else 0
  wr := fun c => if c = 0 then -1 else 0
  ar := -big
  s := 'x'
  opposite := 'o'

/-- The board whose only mark is an `'x'` on the cell `(9, 9)`. -/
def centreBoard : Board := emptyBoard.set 180 'x'

/-- The values the extractions store when they read the tokens `l` from a
stream that has not failed: the leading tokens that convert, then the value
of the failed conversion if a token that does not convert follows. -/
def readValues : List Token → List ℚ
  | [] => []
  | Token.num q :: ts => q :: readValues ts
  | Token.bad v :: _ => [v]

/-- The stream after `n` extractions from the tokens `l` and no fail state. -/
def afterReads : Nat → List Token → IStream
  | 0, l => ⟨l, false⟩
  | _ + 1, [] => ⟨[], true⟩
  | n + 1, Token.num _ :: ts => afterReads n ts
  | _ + 1, Token.bad v :: ts => ⟨Token.bad v :: ts, true⟩

/-- Some logged match of two different entries of a population of `N` has
no placement that reported a win. -/
def NoWin (N : Nat) (L : List MatchRecord) : Prop :=
  ∃ m ∈ L, m.first < N ∧ m.second < N ∧ m.first ≠ m.second ∧
    m.firstWon = false ∧ m.secondWon = false

/-- A population of two entries with the agent `sinkAgent`, two all-Empty
boards. -/
def sinkTrainer : Trainer := ⟨[emptyBoard, emptyBoard], [⟨sinkAgent, 0⟩, ⟨sinkAgent, 0⟩], []⟩

/-! ## Machine integers and storage -/

theorem wrapInt_id {v : Int} (h1 : -2147483648 ≤ v) (h2 : v < 2147483648) :
    wrapInt v = v := by
  unfold wrapInt; omega

theorem Board.flatten_id {x y : Int} (hx1 : -1000 ≤ x) (hx2 : x < 1000)
    (hy1 : -1000 ≤ y) (hy2 : y < 1000) : Board.flatten x y = y * 19 + x := by
  unfold Board.flatten Board.size
  exact wrapInt_id (by omega) (by omega)

theorem Board.checkPos_iff (pos : Int) : Board.checkPos pos = true ↔ 0 ≤ pos ∧ pos < 361 := by
  simp [Board.checkPos, Board.size]

theorem Board.checkCoord_iff (x : Int) : Board.checkCoord x = true ↔ 0 ≤ x ∧ x < 19 := by
  simp [Board.checkCoord, Board.size]

theorem Board.checkCoords_iff (x y : Int) :
    Board.checkCoords x y = true ↔ (0 ≤ x ∧ x < 19) ∧ 0 ≤ y ∧ y < 19 := by
  simp [Board.checkCoords, Board.checkCoord_iff]

theorem Board.cell_set (b : Board) (pos q : Int) (s : Char) (hp : 0 ≤ pos ∧ pos < 361) :
    (b.set pos s).cell q = if q = pos then s else b.cell q := by
  unfold Board.set Board.cell
  rw [dif_pos hp]
  by_cases hq : 0 ≤ q ∧ q < 361
  · rw [dif_pos hq, dif_pos hq]
    by_cases hqp : q = pos
    · subst hqp; simp
    · rw [if_neg hqp]
      dsimp only
      rw [Function.update_noteq]
      intro h
      apply hqp
      have := congrArg Fin.val h
      simp at this
      omega
  · rw [dif_neg hq, dif_neg hq]
    have : q ≠ pos := by rintro rfl; exact hq hp
    rw [if_neg this]

/-! ## Win detection -/

theorem scanLine_eq_scanAbs (b : Board) (s : Char) (x y dx dy : Int) :
    ∀ fuel k c, b.scanLine s x y dx dy fuel k c =
      scanAbs (fun k => Board.checkCoords (wrapInt (x + dx * k)) (wrapInt (y + dy * k)))
        (fun k => decide (b.cell (Board.flatten (wrapInt (x + dx * k)) (wrapInt (y + dy * k))) = s))
        fuel k c := by
  intro fuel
  induction fuel with
  | zero => intro k c; rfl
  | succ n ih =>
    intro k c
    simp only [Board.scanLine, scanAbs, ih, decide_eq_true_eq]

theorem scanAbs_iff (g m : Int → Bool)
    (hconv : ∀ k1 k2 k3, -4 ≤ k1 → k1 < k2 → k2 < k3 → k3 ≤ 4 →
      g k1 = true → g k3 = true → g k2 = true) :
    ∀ (fuel : Nat) (k : Int) (c : Nat), k + (fuel : Int) = 5 → -4 ≤ k → c ≤ 4 →
      (0 < c → ∃ k', -4 ≤ k' ∧ k' < k ∧ g k' = true) →
      (scanAbs g m fuel k c = true ↔
        ∃ a : Int, k - (c : Int) ≤ a ∧ a ≤ 0 ∧
          ∀ i, k ≤ i → a ≤ i → i < a + 5 → g i = true ∧ m i = true) := by
  intro fuel
  induction fuel with
  | zero =>
    intro k c hk _ hc _
    simp only [scanAbs, Bool.false_eq_true, false_iff]
    rintro ⟨a, h1, h2, _⟩
    omega
  | succ n ih =>
    intro k c hk hk4 hc hI
    by_cases hg : g k = true
    · by_cases hm : m k = true
      · by_cases h5 : c + 1 = 5
        · simp only [scanAbs, hg, hm, h5, Bool.not_true, Bool.false_eq_true, if_false, if_true,
            true_iff]
          refine ⟨k - 4, by omega, by omega, ?_⟩
          intro i h1 _ h3
          have : i = k := by omega
          subst this
          exact ⟨hg, hm⟩
        · simp only [scanAbs, hg, hm, h5, Bool.not_true, Bool.false_eq_true, if_false, if_true]
          rw [ih (k + 1) (c + 1) (by omega) (by omega) (by omega) (fun _ => ⟨k, hk4, by omega, hg⟩)]
          constructor
          · rintro ⟨a, h1, h2, h3⟩
            refine ⟨a, by push_cast at h1; omega, h2, ?_⟩
            intro i hi1 hi2 hi3
            by_cases hik : i = k
            · subst hik; exact ⟨hg, hm⟩
            · exact h3 i (by omega) hi2 hi3
          · rintro ⟨a, h1, h2, h3⟩
            refine ⟨a, by push_cast; omega, h2, ?_⟩
            intro i hi1 hi2 hi3
            exact h3 i (by omega) hi2 hi3
      · simp only [scanAbs, hg, hm, Bool.not_true, Bool.false_eq_true, if_false]
        rw [ih (k + 1) 0 (by omega) (by omega) (by omega) (fun h => absurd h (by omega))]
        constructor
        · rintro ⟨a, h1, h2, h3⟩
          refine ⟨a, by push_cast at h1; omega, h2, ?_⟩
          intro i hi1 hi2 hi3
          exact h3 i (by push_cast at h1; omega) hi2 hi3
        · rintro ⟨a, h1, h2, h3⟩
          have hak : k < a := by
            by_contra hle
            exact hm (h3 k (le_refl k) (by omega) (by omega)).2
          refine ⟨a, by push_cast; omega, h2, ?_⟩
          intro i hi1 hi2 hi3
          exact h3 i (by omega) hi2 hi3
    · simp only [scanAbs, hg, Bool.not_false, if_true]
      rw [ih (k + 1) c (by omega) (by omega) hc
        (fun h => let ⟨k', h0, h1, h2⟩ := hI h; ⟨k', h0, by omega, h2⟩)]
      constructor
      · rintro ⟨a, h1, h2, h3⟩
        have hak : k < a := by
          by_contra hle
          have hc0 : 0 < c := by omega
          obtain ⟨k', hk0, hk1, hk2⟩ := hI hc0
          have hg1 := (h3 (k + 1) (le_refl _) (by omega) (by omega)).1
          exact hg (hconv k' k (k + 1) hk0 hk1 (by omega) (by omega) hk2 hg1)
        refine ⟨a, by omega, h2, ?_⟩
        intro i hi1 hi2 hi3
        exact h3 i (by omega) hi2 hi3
      · rintro ⟨a, h1, h2, h3⟩
        have hak : k < a := by
          by_contra hle
          exact hg (h3 k (le_refl k) (by omega) (by omega)).1
        refine ⟨a, by omega, h2, ?_⟩
        intro i hi1 hi2 hi3
        exact h3 i (by omega) hi2 hi3

theorem lin_wrap (x d i : Int) (hx : 0 ≤ x ∧ x < 19) (hd : d = -1 ∨ d = 0 ∨ d = 1)
    (hi : -4 ≤ i ∧ i ≤ 4) :
    wrapInt (x + d * i) = x + d * i ∧ -4 ≤ x + d * i ∧ x + d * i ≤ 22 := by
  rcases hd with rfl | rfl | rfl <;>
    exact ⟨wrapInt_id (by omega) (by omega), by omega, by omega⟩

theorem lin_convex (x d k1 k2 k3 : Int) (hd : d = -1 ∨ d = 0 ∨ d = 1)
    (h12 : k1 < k2) (h23 : k2 < k3)
    (h1 : 0 ≤ x + d * k1 ∧ x + d * k1 < 19) (h3 : 0 ≤ x + d * k3 ∧ x + d * k3 < 19) :
    0 ≤ x + d * k2 ∧ x + d * k2 < 19 := by
  rcases hd with rfl | rfl | rfl <;> omega

/-- Along a direction with components in `-1 .. 1` through an in-grid cell,
the scan of the nine offsets `-4 .. 4` reports a win exactly when five
consecutive in-grid cells of the window hold the mark. -/
theorem Board.scanLine_iff (b : Board) (s : Char) (x y dx dy : Int)
    (hx : 0 ≤ x ∧ x < 19) (hy : 0 ≤ y ∧ y < 19)
    (hdx : dx = -1 ∨ dx = 0 ∨ dx = 1) (hdy : dy = -1 ∨ dy = 0 ∨ dy = 1) :
    b.scanLine s x y dx dy 9 (-4) 0 = true ↔ b.runAlong s x y dx dy := by
  unfold Board.runAlong
  have hw : ∀ i : Int, -4 ≤ i → i ≤ 4 →
      wrapInt (x + dx * i) = x + dx * i ∧ wrapInt (y + dy * i) = y + dy * i ∧
      Board.flatten (x + dx * i) (y + dy * i) = (y + dy * i) * 19 + (x + dx * i) := by
    intro i h1 h2
    obtain ⟨a1, a2, a3⟩ := lin_wrap x dx i hx hdx ⟨h1, h2⟩
    obtain ⟨b1, b2, b3⟩ := lin_wrap y dy i hy hdy ⟨h1, h2⟩
    exact ⟨a1, b1, Board.flatten_id (by omega) (by omega) (by omega) (by omega)⟩
  rw [scanLine_eq_scanAbs, scanAbs_iff _ _ ?_ 9 (-4) 0 (by norm_num) (by norm_num) (by norm_num)
    (fun h => absurd h (by norm_num))]
  · constructor
    · rintro ⟨a, h1, h2, h3⟩
      refine ⟨a, by simpa using h1, h2, ?_⟩
      intro i hi1 hi2
      have h1' : -4 ≤ a := by simpa using h1
      obtain ⟨hg, hm⟩ := h3 i (by omega) hi1 hi2
      obtain ⟨e1, e2, e3⟩ := hw i (by omega) (by omega)
      simp only [e1, e2, e3, decide_eq_true_eq] at hg hm
      rw [Board.checkCoords_iff] at hg
      exact ⟨hg.1.1, hg.1.2, hg.2.1, hg.2.2, hm⟩
    · rintro ⟨a, h1, h2, h3⟩
      refine ⟨a, by simpa using h1, h2, ?_⟩
      intro i _ hi1 hi2
      obtain ⟨g1, g2, g3, g4, hm⟩ := h3 i hi1 hi2
      obtain ⟨e1, e2, e3⟩ := hw i (by omega) (by omega)
      simp only [e1, e2, e3, decide_eq_true_eq]
      rw [Board.checkCoords_iff]
      exact ⟨⟨⟨g1, g2⟩, g3, g4⟩, hm⟩
  · intro k1 k2 k3 h1 h12 h23 h3 g1 g3
    obtain ⟨a1, a2, _⟩ := hw k1 (by omega) (by omega)
    obtain ⟨b1, b2, _⟩ := hw k2 (by omega) (by omega)
    obtain ⟨c1, c2, _⟩ := hw k3 (by omega) (by omega)
    simp only [a1, a2, c1, c2, b1, b2, Board.checkCoords_iff] at g1 g3 ⊢
    exact ⟨lin_convex x dx k1 k2 k3 hdx h12 h23 g1.1 g3.1,
      lin_convex y dy k1 k2 k3 hdy h12 h23 g1.2 g3.2⟩

/-- On a cell that holds a mark, `checkForWin` is the disjunction of the scans
along the four directions the loops visit. -/
theorem Board.checkForWin_eq (b : Board) (x y : Int)
    (hs : b.cell (Board.flatten x y) ≠ '.') :
    b.checkForWin x y =
      (b.scanLine (b.cell (Board.flatten x y)) x y (-1) (-1) 9 (-4) 0 ||
        (b.scanLine (b.cell (Board.flatten x y)) x y 0 (-1) 9 (-4) 0 ||
          (b.scanLine (b.cell (Board.flatten x y)) x y 1 (-1) 9 (-4) 0 ||
            b.scanLine (b.cell (Board.flatten x y)) x y 1 0 9 (-4) 0))) := by
  simp [Board.checkForWin, hs, List.takeWhile]

theorem Board.runAlong_neg (b : Board) (s : Char) (x y dx dy : Int) :
    b.runAlong s x y (-dx) (-dy) ↔ b.runAlong s x y dx dy := by
  have key : ∀ ex ey : Int, b.runAlong s x y (-ex) (-ey) → b.runAlong s x y ex ey := by
    rintro ex ey ⟨a, h1, h2, h3⟩
    refine ⟨-a - 4, by omega, by omega, ?_⟩
    intro i hi1 hi2
    have := h3 (-i) (by omega) (by omega)
    have e1 : x + -ex * -i = x + ex * i := by ring
    have e2 : y + -ey * -i = y + ey * i := by ring
    rwa [e1, e2] at this
  constructor
  · exact key dx dy
  · intro h
    apply key (-dx) (-dy)
    simpa using h

theorem Board.fiveThrough_iff (b : Board) (s : Char) (x y : Int) :
    b.fiveThrough s x y ↔
      (b.runAlong s x y (-1) (-1) ∨ b.runAlong s x y 0 (-1) ∨
        b.runAlong s x y 1 (-1) ∨ b.runAlong s x y 1 0) := by
  have e1 : b.runAlong s x y (-1) (-1) ↔ b.runAlong s x y 1 1 := b.runAlong_neg s x y 1 1
  have e2 : b.runAlong s x y 0 (-1) ↔ b.runAlong s x y 0 1 := by
    have := b.runAlong_neg s x y 0 1
    simpa using this
  rw [e1, e2]
  simp only [Board.fiveThrough, winDirections, List.mem_cons, List.mem_singleton,
    List.not_mem_nil, or_false, exists_eq_or_imp, exists_eq_left]
  tauto

/-- C1. On an Empty in-grid cell `(x, y)` and for a mark `s` other than Empty,
`Board::makeMove(s, x, y)` succeeds, and it returns `true` if and only if, on
the board after the placement, some direction among (1,0), (0,1), (1,1),
(1,-1) has five consecutive in-grid cells, one of them `(x, y)`, that all
hold `s`. -/
theorem Board.makeMove_reports_win_iff (b : Board) (s : Char) (x y : Int)
    (hempty : b.holds x y '.') (hs : s ≠ '.') :
    ∃ r : Bool, (b.makeMove s x y).1 = .ok r ∧
      (r = true ↔ (b.makeMove s x y).2.fiveThrough s x y) := by
  obtain ⟨hx1, hx2, hy1, hy2, hc⟩ := hempty
  have hf : Board.flatten x y = y * 19 + x :=
    Board.flatten_id (by omega) (by omega) (by omega) (by omega)
  have hp : 0 ≤ y * 19 + x ∧ y * 19 + x < 361 := by omega
  have hpos : Board.checkPos (y * 19 + x) = true := (Board.checkPos_iff _).2 hp
  have hmk : b.makeMove s x y =
      (.ok ((b.set (y * 19 + x) s).checkForWin x y), b.set (y * 19 + x) s) := by
    simp [Board.makeMove, hf, hpos, hc]
  have hcell : (b.set (y * 19 + x) s).cell (Board.flatten x y) = s := by
    rw [hf, Board.cell_set _ _ _ _ hp, if_pos rfl]
  refine ⟨(b.set (y * 19 + x) s).checkForWin x y, by rw [hmk], ?_⟩
  rw [hmk, Board.checkForWin_eq _ _ _ (by rw [hcell]; exact hs), hcell, Board.fiveThrough_iff]
  simp only [Bool.or_eq_true]
  rw [Board.scanLine_iff _ s x y (-1) (-1) ⟨hx1, hx2⟩ ⟨hy1, hy2⟩ (by decide) (by decide),
    Board.scanLine_iff _ s x y 0 (-1) ⟨hx1, hx2⟩ ⟨hy1, hy2⟩ (by decide) (by decide),
    Board.scanLine_iff _ s x y 1 (-1) ⟨hx1, hx2⟩ ⟨hy1, hy2⟩ (by decide) (by decide),
    Board.scanLine_iff _ s x y 1 0 ⟨hx1, hx2⟩ ⟨hy1, hy2⟩ (by decide) (by decide)]

theorem Board.makeMove_reports_win_iff_witness :
    emptyBoard.holds 2 2 '.' ∧ 'x' ≠ '.' ∧
      ∃ r : Bool, (emptyBoard.makeMove 'x' 2 2).1 = .ok r ∧
        (r = true ↔ (emptyBoard.makeMove 'x' 2 2).2.fiveThrough 'x' 2 2) :=
  ⟨by decide, by decide, Board.makeMove_reports_win_iff emptyBoard 'x' 2 2 (by decide) (by decide)⟩

/-! ## Placement -/

theorem Board.storage_set (b : Board) (pos : Int) (s : Char) (q : Fin 361) :
    (b.set pos s).storage q = if (q.val : Int) = pos then s else b.storage q := by
  unfold Board.set
  by_cases hp : 0 ≤ pos ∧ pos < 361
  · rw [dif_pos hp]
    dsimp only
    by_cases hq : (q.val : Int) = pos
    · rw [if_pos hq]
      have : q = ⟨pos.toNat, by omega⟩ := by
        apply Fin.ext
        simp only
        omega
      rw [this, Function.update_same]
    · rw [if_neg hq, Function.update_noteq]
      intro h
      apply hq
      have := congrArg Fin.val h
      simp only at this
      omega
  · rw [dif_neg hp]
    have : (q.val : Int) ≠ pos := by
      intro h
      apply hp
      have := q.isLt
      omega
    rw [if_neg this]

theorem Board.cell_eq_storage (b : Board) (q : Fin 361) : b.cell (q.val : Int) = b.storage q := by
  unfold Board.cell
  have h : 0 ≤ (q.val : Int) ∧ (q.val : Int) < 361 := by
    have := q.isLt
    omega
  rw [dif_pos h]
  congr 1

theorem Board.makeMove_ok (b : Board) (s : Char) (x y : Int)
    (hp : Board.checkPos (Board.flatten x y) = true) (hc : b.cell (Board.flatten x y) = '.') :
    b.makeMove s x y =
      (.ok ((b.set (Board.flatten x y) s).checkForWin x y), b.set (Board.flatten x y) s) := by
  simp [Board.makeMove, hp, hc]

theorem Board.makeMove_error (b : Board) (s : Char) (x y : Int)
    (h : ¬ (Board.checkPos (Board.flatten x y) = true ∧ b.cell (Board.flatten x y) = '.')) :
    b.makeMove s x y = (.error (.illegalMove x y), b) := by
  unfold Board.makeMove
  by_cases hp : Board.checkPos (Board.flatten x y) = true
  · have hc : b.cell (Board.flatten x y) ≠ '.' := fun hc => h ⟨hp, hc⟩
    simp [hp, hc]
  · simp [hp]

theorem Board.makeMove_keeps_marked (b : Board) (s : Char) (x y : Int) (q : Fin 361)
    (hq : b.storage q ≠ '.') : (b.makeMove s x y).2.storage q = b.storage q := by
  by_cases h : Board.checkPos (Board.flatten x y) = true ∧ b.cell (Board.flatten x y) = '.'
  · rw [Board.makeMove_ok b s x y h.1 h.2]
    dsimp only
    rw [Board.storage_set]
    by_cases hqp : (q.val : Int) = Board.flatten x y
    · exfalso
      apply hq
      rw [← Board.cell_eq_storage, hqp]
      exact h.2
    · rw [if_neg hqp]
  · rw [Board.makeMove_error b s x y h]

theorem Board.makeMoves_keeps_marked (moves : List (Char × Int × Int)) :
    ∀ (b : Board) (q : Fin 361), b.storage q ≠ '.' →
      (b.makeMoves moves).storage q = b.storage q := by
  induction moves with
  | nil => intro b q _; rfl
  | cons m ms ih =>
    intro b q hq
    have h1 := Board.makeMove_keeps_marked b m.1 m.2.1 m.2.2 q hq
    show (Board.makeMoves (b.makeMove m.1 m.2.1 m.2.2).2 ms).storage q = b.storage q
    rw [ih _ q (by rw [h1]; exact hq), h1]

theorem Board.clear_loop (n : Nat) :
    ∀ (b : Board) (q : Fin 361),
      ((List.range n).foldl (fun b (i : Nat) => b.set (i : Int) '.') b).storage q =
        if q.val < n then '.' else b.storage q := by
  induction n with
  | zero => intro b q; simp
  | succ n ih =>
    intro b q
    rw [List.range_succ, List.foldl_append]
    simp only [List.foldl_cons, List.foldl_nil]
    rw [Board.storage_set, ih]
    by_cases h1 : q.val = n
    · simp [h1]
    · have : ¬ ((q.val : Int) = (n : Int)) := by omega
      rw [if_neg this]
      by_cases h2 : q.val < n
      · rw [if_pos h2, if_pos (by omega)]
      · rw [if_neg h2, if_neg (by omega)]

theorem Board.clear_storage (b : Board) (q : Fin 361) : b.clear.storage q = '.' := by
  unfold Board.clear
  rw [Board.clear_loop, if_pos q.isLt]

theorem Board.clear_eq (b : Board) : b.clear = emptyBoard := by
  cases h : b.clear with
  | mk st =>
    unfold emptyBoard
    congr 1
    funext q
    have := Board.clear_storage b q
    rw [h] at this
    exact this

/-- C10. `Board::makeMove` never changes a non-Empty cell. A successful
`makeMove(s, x, y)` found its target cell Empty, leaves `s` in it and leaves
every other cell as it was; a failed one leaves the whole board as it was; so
through any sequence of `makeMove` calls a cell that holds a mark keeps it;
`clear()` makes every cell Empty. -/
theorem Board.makeMove_never_overwrites (b : Board) (s : Char) (x y : Int)
    (moves : List (Char × Int × Int)) :
    (∀ r, (b.makeMove s x y).1 = .ok r →
      b.cell (Board.flatten x y) = '.' ∧
      (b.makeMove s x y).2.cell (Board.flatten x y) = s ∧
      ∀ q : Fin 361, (q.val : Int) ≠ Board.flatten x y →
        (b.makeMove s x y).2.storage q = b.storage q) ∧
    (∀ e, (b.makeMove s x y).1 = .error e → (b.makeMove s x y).2 = b) ∧
    (∀ q : Fin 361, b.storage q ≠ '.' → (b.makeMoves moves).storage q = b.storage q) ∧
    (∀ q : Fin 361, b.clear.storage q = '.') := by
  refine ⟨?_, ?_, Board.makeMoves_keeps_marked moves b, Board.clear_storage b⟩
  · intro r hr
    by_cases h : Board.checkPos (Board.flatten x y) = true ∧ b.cell (Board.flatten x y) = '.'
    · have hp := (Board.checkPos_iff _).1 h.1
      rw [Board.makeMove_ok b s x y h.1 h.2]
      refine ⟨h.2, ?_, ?_⟩
      · dsimp only
        rw [Board.cell_set _ _ _ _ hp, if_pos rfl]
      · intro q hq
        dsimp only
        rw [Board.storage_set, if_neg hq]
    · rw [Board.makeMove_error b s x y h] at hr
      cases hr
  · intro e _
    by_cases h : Board.checkPos (Board.flatten x y) = true ∧ b.cell (Board.flatten x y) = '.'
    · rename_i he
      rw [Board.makeMove_ok b s x y h.1 h.2] at he
      cases he
    · rw [Board.makeMove_error b s x y h]

/-- C2 (the code at the failing input). On the all-Empty board
`makeMove('x', 19, 0)`, whose `x` is outside `[0, 19)`, does not fail: the
flattened position `19` passes `checkPos`, the call returns `false` and the
mark lands in cell `(0, 1)`. -/
theorem Board.makeMove_accepts_out_of_grid :
    Board.checkCoords 19 0 = false ∧
    (emptyBoard.makeMove 'x' 19 0).1 = .ok false ∧
    (emptyBoard.makeMove 'x' 19 0).2.holds 0 1 'x' := by
  decide

/-- C9 (the code at the failing input). `at(19, 0)` and `at(-1, 2)` are out of
the grid, and `Board::at` answers with the content of the cells `(0, 1)` and
`(18, 1)` instead of the sentinel. -/
theorem Board.at_reads_neighbouring_row :
    Board.checkCoords 19 0 = false ∧ Board.checkCoords (-1) 2 = false ∧
    emptyBoard.at' 19 0 = '.' ∧
    (emptyBoard.makeMove 'x' 0 1).2.at' 19 0 = 'x' ∧
    (emptyBoard.makeMove 'o' 18 1).2.at' (-1) 2 = 'o' := by
  decide

/-! ## `float` arithmetic -/

theorem roundHalfEven_intCast (n : ℤ) : roundHalfEven (n : ℚ) = n := by
  unfold roundHalfEven
  simp

theorem Flt.round_zero : Flt.round 0 = Flt.fin 0 := by
  unfold Flt.round
  rw [if_pos rfl]

/-- The rounded magnitude of a power of two is the power of two. -/
theorem Flt.round_magnitude (q : ℚ) (k : ℕ) (hq : |q| = 2 ^ k) :
    (roundHalfEven (|q| / 2 ^ (max (Int.log 2 |q|) (-126) - 23)) : ℚ) *
      2 ^ (max (Int.log 2 |q|) (-126) - 23) = 2 ^ k := by
  have hlog : Int.log 2 ((2 : ℚ) ^ k) = (k : ℤ) := by
    have := Int.log_zpow (R := ℚ) (b := 2) (by norm_num) (k : ℤ)
    simpa using this
  have hmax : max (k : ℤ) (-126) = (k : ℤ) := by omega
  have hd : (2 : ℚ) ^ k / 2 ^ ((k : ℤ) - 23) = ((2 ^ 23 : ℤ) : ℚ) := by
    rw [zpow_sub₀ (by norm_num), zpow_natCast]
    field_simp
    norm_num
  have hv : ((2 ^ 23 : ℤ) : ℚ) * 2 ^ ((k : ℤ) - 23) = 2 ^ k := by
    rw [zpow_sub₀ (by norm_num), zpow_natCast]
    field_simp
    norm_num
    ring
  rw [hq, hlog, hmax, hd, roundHalfEven_intCast, hv]

/-- A power of two in the binary32 range is a binary32 value. -/
theorem Flt.round_two_pow (k : ℕ) (hk : k < 128) : Flt.round (2 ^ k) = Flt.fin (2 ^ k) := by
  have hpos : (0 : ℚ) < 2 ^ k := by positivity
  have hlt : ¬ (2 : ℚ) ^ 128 ≤ 2 ^ k := by
    rw [not_le]
    exact pow_lt_pow_right₀ (by norm_num) hk
  unfold Flt.round
  rw [if_neg (ne_of_gt hpos), Flt.round_magnitude _ k (abs_of_pos hpos), if_neg hlt, if_pos hpos]

theorem Flt.round_neg_two_pow (k : ℕ) (hk : k < 128) :
    Flt.round (-2 ^ k) = Flt.fin (-2 ^ k) := by
  have hpos : (0 : ℚ) < 2 ^ k := by positivity
  have habs : |(-(2 : ℚ) ^ k)| = 2 ^ k := by rw [abs_neg, abs_of_pos hpos]
  have hlt : ¬ (2 : ℚ) ^ 128 ≤ 2 ^ k := by
    rw [not_le]
    exact pow_lt_pow_right₀ (by norm_num) hk
  unfold Flt.round
  rw [if_neg (by linarith), Flt.round_magnitude _ k habs, if_neg hlt, if_neg (by linarith)]

/-- The sum `-2 ^ 127 - 2 ^ 127` overflows to `-INFINITY`. -/
theorem Flt.round_neg_two_pow_128 : Flt.round (-2 ^ 128) = Flt.ninf := by
  have hpos : (0 : ℚ) < 2 ^ 128 := by positivity
  have habs : |(-(2 : ℚ) ^ 128)| = 2 ^ 128 := by rw [abs_neg, abs_of_pos hpos]
  unfold Flt.round
  rw [if_neg (by linarith), Flt.round_magnitude _ 128 habs, if_pos (le_refl _), if_neg (by linarith)]

theorem Flt.round_one : Flt.round 1 = Flt.fin 1 := by
  have := Flt.round_two_pow 0 (by norm_num)
  simpa using this

theorem Flt.round_neg_one : Flt.round (-1) = Flt.fin (-1) := by
  have := Flt.round_neg_two_pow 0 (by norm_num)
  simpa using this

theorem Flt.lt_irrefl (a : Flt) : Flt.lt a a = false := by
  cases a <;> simp [Flt.lt]

theorem Flt.lt_trans {a b c : Flt} (h1 : Flt.lt a b = true) (h2 : Flt.lt b c = true) :
    Flt.lt a c = true := by
  cases a <;> cases b <;> cases c <;> simp [Flt.lt] at h1 h2 ⊢
  exact h1.trans h2

/-- A value that compares greater than some value compares greater than
`-INFINITY`. -/
theorem Flt.above_of_lt {a b : Flt} (h : Flt.lt a b = true) : Flt.lt Flt.ninf b = true := by
  cases a <;> cases b <;> simp [Flt.lt] at h ⊢

/-- Nothing compares less than a NaN or `-INFINITY`. -/
theorem Flt.not_lt_of_not_above {c : Flt} (a : Flt) (h : Flt.lt Flt.ninf c = false) :
    Flt.lt a c = false := by
  cases a <;> cases c <;> simp [Flt.lt] at h ⊢

theorem Flt.eq_ninf_of_not_above {c : Flt} (h : Flt.lt Flt.ninf c = false)
    (hn : c ≠ Flt.nan) : c = Flt.ninf := by
  cases c <;> simp [Flt.lt] at h hn ⊢

theorem Flt.ne_nan_of_above {c : Flt} (h : Flt.lt Flt.ninf c = true) : c ≠ Flt.nan := by
  cases c <;> simp [Flt.lt] at h ⊢

/-- If `a < b` and `c` is a number that is not above `a`, then `c < b`. -/
theorem Flt.lt_of_lt_of_not_lt {a b c : Flt} (h1 : Flt.lt a b = true) (hn : c ≠ Flt.nan)
    (h2 : Flt.lt a c = false) : Flt.lt c b = true := by
  cases a <;> cases b <;> cases c <;> simp [Flt.lt] at h1 h2 hn ⊢
  exact h2.trans_lt h1

/-- For numbers, `¬ (a < c)` is `c <= a`. -/
theorem Flt.le_of_not_lt {a c : Flt} (ha : a ≠ Flt.nan) (hc : c ≠ Flt.nan)
    (h : Flt.lt a c = false) : Flt.le c a = true := by
  cases a <;> cases c <;> simp [Flt.lt, Flt.le] at h ha hc ⊢
  exact h

/-! ## Move selection -/

theorem Board.at_inGrid (b : Board) (x y : Int) (hx : 0 ≤ x ∧ x < 19) (hy : 0 ≤ y ∧ y < 19) :
    b.at' x y = b.cell (y * 19 + x) := by
  have hf : Board.flatten x y = y * 19 + x :=
    Board.flatten_id (by omega) (by omega) (by omega) (by omega)
  have hp : Board.checkPos (y * 19 + x) = true := (Board.checkPos_iff _).2 (by omega)
  simp [Board.at', hf, hp]

theorem Board.holds_iff_at (b : Board) (x y : Nat) (hx : x < 19) (hy : y < 19) (s : Char) :
    b.holds x y s ↔ b.at' x y = s := by
  rw [Board.at_inGrid b x y (by omega) (by omega)]
  unfold Board.holds
  constructor
  · exact fun h => h.2.2.2.2
  · exact fun h => ⟨by omega, by omega, by omega, by omega, h⟩

theorem scanInv_congr (p : NN5Player) (b : Board) (P Q : Nat → Nat → Prop) (st : Best)
    (h : ∀ x y, P x y ↔ Q x y) (hP : ScanInv p b P st) : ScanInv p b Q st := by
  have : P = Q := funext fun x => funext fun y => propext (h x y)
  rw [← this]
  exact hP

theorem scanInv_visit (p : NN5Player) (b : Board) (P : Nat → Nat → Prop) (st : Best)
    (x0 y0 : Nat) (h : ScanInv p b P st)
    (hord : ∀ x y, P x y → x < x0 ∨ (x = x0 ∧ y < y0)) :
    ScanInv p b (fun x y => P x y ∨ (x = x0 ∧ y = y0)) (p.visit b st x0 y0) := by
  unfold NN5Player.visit
  by_cases he : b.at' x0 y0 = '.'
  · rw [if_neg (not_not.2 he)]
    dsimp only
    by_cases hgt : Flt.lt st.maxr (p.score b x0 y0) = true
    · rw [if_pos hgt]
      refine Or.inr ⟨x0, y0, Or.inr ⟨rfl, rfl⟩, he, Flt.above_of_lt hgt, rfl, ?_⟩
      intro x y hxy hemp
      rcases hxy with hP | ⟨rfl, rfl⟩
      · rcases h with ⟨_, hn⟩ | ⟨xr, yr, _, _, _, hst, hmax⟩
        · have hno := hn x y hP hemp
          refine ⟨Flt.not_lt_of_not_above _ hno, fun _ hnan => ?_⟩
          rw [Flt.eq_ninf_of_not_above hno hnan]
          exact Flt.above_of_lt hgt
        · rw [hst] at hgt
          have hle := (hmax x y hP hemp).1
          refine ⟨?_, fun _ hnan => Flt.lt_of_lt_of_not_lt hgt hnan hle⟩
          by_contra hc
          have hc' : Flt.lt (p.score b x0 y0) (p.score b x y) = true := by
            simpa using hc
          rw [Flt.lt_trans hgt hc'] at hle
          cases hle
      · exact ⟨Flt.lt_irrefl _, fun hlt => by omega⟩
    · rw [if_neg hgt]
      have hgt' : Flt.lt st.maxr (p.score b x0 y0) = false := by simpa using hgt
      rcases h with ⟨hst, hn⟩ | ⟨xr, yr, hPr, her, hel, hst, hmax⟩
      · refine Or.inl ⟨hst, ?_⟩
        intro x y hxy hemp
        rcases hxy with hP | ⟨rfl, rfl⟩
        · exact hn x y hP hemp
        · rw [hst] at hgt'
          exact hgt'
      · refine Or.inr ⟨xr, yr, Or.inl hPr, her, hel, hst, ?_⟩
        intro x y hxy hemp
        rcases hxy with hP | ⟨rfl, rfl⟩
        · exact hmax x y hP hemp
        · rw [hst] at hgt'
          refine ⟨hgt', fun hlt => ?_⟩
          have := hord xr yr hPr
          omega
  · rw [if_pos he]
    rcases h with ⟨hst, hn⟩ | ⟨xr, yr, hPr, her, hel, hst, hmax⟩
    · refine Or.inl ⟨hst, ?_⟩
      intro x y hxy hemp
      rcases hxy with hP | ⟨rfl, rfl⟩
      · exact hn x y hP hemp
      · exact absurd hemp he
    · refine Or.inr ⟨xr, yr, Or.inl hPr, her, hel, hst, ?_⟩
      intro x y hxy hemp
      rcases hxy with hP | ⟨rfl, rfl⟩
      · exact hmax x y hP hemp
      · exact absurd hemp he

theorem scanInv_inner (p : NN5Player) (b : Board) (x : Nat) (st0 : Best)
    (h0 : ScanInv p b (fun x' y' => x' < x ∧ y' < 19) st0) :
    ∀ n : Nat, n ≤ 19 →
      ScanInv p b (fun x' y' => (x' < x ∧ y' < 19) ∨ (x' = x ∧ y' < n))
        ((List.range n).foldl (fun st y => p.visit b st x y) st0) := by
  intro n
  induction n with
  | zero =>
    intro _
    apply scanInv_congr p b _ _ _ _ h0
    intro x' y'
    constructor
    · exact fun h => Or.inl h
    · rintro (h | h)
      · exact h
      · omega
  | succ n ih =>
    intro hn
    rw [List.range_succ, List.foldl_append, List.foldl_cons, List.foldl_nil]
    have step := scanInv_visit p b _ _ x n (ih (by omega)) (by
      intro x' y' h
      omega)
    apply scanInv_congr p b _ _ _ _ step
    intro x' y'
    constructor <;> intro h <;> omega

theorem scanInv_outer (p : NN5Player) (b : Board) :
    ∀ m : Nat, m ≤ 19 →
      ScanInv p b (fun x' y' => x' < m ∧ y' < 19)
        ((List.range m).foldl (fun st x =>
          (List.range 19).foldl (fun st y => p.visit b st x y) st) ⟨Flt.ninf, 9, 9⟩) := by
  intro m
  induction m with
  | zero =>
    intro _
    refine Or.inl ⟨rfl, ?_⟩
    intro x y h
    omega
  | succ m ih =>
    intro hm
    rw [List.range_succ m, List.foldl_append, List.foldl_cons, List.foldl_nil]
    have step := scanInv_inner p b m _ (ih (by omega)) 19 (le_refl _)
    apply scanInv_congr p b _ _ _ _ step
    intro x' y'
    constructor <;> intro h <;> omega

theorem NN5Player.scan_inv (p : NN5Player) (b : Board) :
    ScanInv p b (fun x y => x < 19 ∧ y < 19) (p.scan b) :=
  scanInv_outer p b 19 (le_refl _)

theorem Board.exists_empty_coords (b : Board) (h : ∃ q : Fin 361, b.storage q = '.') :
    ∃ x y : Nat, x < 19 ∧ y < 19 ∧ b.at' x y = '.' := by
  obtain ⟨q, hq⟩ := h
  refine ⟨q.val % 19, q.val / 19, Nat.mod_lt _ (by norm_num), ?_, ?_⟩
  · have := q.isLt
    omega
  · have hlt := q.isLt
    rw [Board.at_inGrid b _ _ (by omega) (by omega)]
    have e : ((q.val / 19 : Nat) : Int) * 19 + ((q.val % 19 : Nat) : Int) = (q.val : Int) := by
      omega
    rw [e, Board.cell_eq_storage]
    exact hq

theorem Board.storage_of_at (b : Board) (x y : Nat) (hx : x < 19) (hy : y < 19) :
    b.at' x y = b.storage ⟨y * 19 + x, by omega⟩ := by
  rw [Board.at_inGrid b x y (by omega) (by omega)]
  have := Board.cell_eq_storage b ⟨y * 19 + x, by omega⟩
  rw [← this]
  congr 1

/-- What the cell loops leave in the locals when some Empty cell has a score
that compares greater than `-INFINITY`. -/
theorem NN5Player.scan_found (p : NN5Player) (b : Board)
    (h : ∃ x y : Nat, x < 19 ∧ y < 19 ∧ b.at' x y = '.' ∧
      Flt.lt Flt.ninf (p.score b x y) = true) :
    ∃ xr yr : Nat, xr < 19 ∧ yr < 19 ∧ b.at' xr yr = '.' ∧
      Flt.lt Flt.ninf (p.score b xr yr) = true ∧
      p.scan b = ⟨p.score b xr yr, xr, yr⟩ ∧
      ∀ x y : Nat, x < 19 ∧ y < 19 → b.at' x y = '.' →
        Flt.lt (p.score b xr yr) (p.score b x y) = false ∧
        ((x < xr ∨ (x = xr ∧ y < yr)) → p.score b x y ≠ Flt.nan →
          Flt.lt (p.score b x y) (p.score b xr yr) = true) := by
  rcases p.scan_inv b with ⟨_, hn⟩ | ⟨xr, yr, hP, he, hel, hst, hmax⟩
  · obtain ⟨x, y, hx, hy, hxy, hgt⟩ := h
    rw [hn x y ⟨hx, hy⟩ hxy] at hgt
    cases hgt
  · exact ⟨xr, yr, hP.1, hP.2, he, hel, hst, hmax⟩

/-- What the cell loops leave in the locals when no Empty cell has a score
that compares greater than `-INFINITY`: the initial values. -/
theorem NN5Player.scan_none (p : NN5Player) (b : Board)
    (h : ∀ x y : Nat, x < 19 → y < 19 → b.at' x y = '.' →
      Flt.lt Flt.ninf (p.score b x y) = false) :
    p.scan b = ⟨Flt.ninf, 9, 9⟩ := by
  rcases p.scan_inv b with ⟨hst, _⟩ | ⟨xr, yr, hP, he, hel, _, _⟩
  · exact hst
  · rw [h xr yr hP.1 hP.2 he] at hel
    cases hel

/-- When the loops selected the Empty in-grid cell `(xr, yr)`,
`NN5Player::makeMove` is the placement of the mark on it. -/
theorem NN5Player.makeMove_found (p : NN5Player) (b : Board) (xr yr : Nat)
    (hx : xr < 19) (hy : yr < 19) (he : b.at' xr yr = '.')
    (hst : (p.scan b).xr = xr ∧ (p.scan b).yr = yr) :
    p.makeMove b =
      (.ok ((b.set ((yr : Int) * 19 + xr) p.s).checkForWin xr yr),
        b.set ((yr : Int) * 19 + xr) p.s) := by
  have hf : Board.flatten xr yr = (yr : Int) * 19 + xr :=
    Board.flatten_id (by omega) (by omega) (by omega) (by omega)
  have hc : b.cell (Board.flatten xr yr) = '.' := by
    rw [hf, ← Board.at_inGrid b xr yr (by omega) (by omega)]
    exact he
  have hp : Board.checkPos (Board.flatten xr yr) = true := by
    rw [hf]
    exact (Board.checkPos_iff _).2 (by omega)
  unfold NN5Player.makeMove
  dsimp only
  rw [hst.1, hst.2, Board.makeMove_ok b p.s xr yr hp hc, hf]

/-- When no Empty cell has a score that compares greater than `-INFINITY`,
`NN5Player::makeMove` is `Board::makeMove` at the default cell `(9, 9)`. -/
theorem NN5Player.makeMove_default (p : NN5Player) (b : Board)
    (h : ∀ x y : Nat, x < 19 → y < 19 → b.at' x y = '.' →
      Flt.lt Flt.ninf (p.score b x y) = false) :
    p.makeMove b = b.makeMove p.s 9 9 := by
  unfold NN5Player.makeMove
  dsimp only
  rw [p.scan_none b h]

theorem Board.at_centre (b : Board) :
    b.at' ((9 : Nat) : Int) ((9 : Nat) : Int) = b.storage 180 :=
  Board.storage_of_at b 9 9 (by norm_num) (by norm_num)

/-- `Board::makeMove` at the default cell `(9, 9)` when the cell is occupied. -/
theorem Board.makeMove_centre_occupied (b : Board) (s : Char) (h : b.storage 180 ≠ '.') :
    b.makeMove s 9 9 = (.error (.illegalMove 9 9), b) := by
  apply Board.makeMove_error
  rintro ⟨_, hc⟩
  apply h
  have e : Board.flatten 9 9 = ((⟨180, by norm_num⟩ : Fin 361).val : Int) := by decide
  rw [e, Board.cell_eq_storage] at hc
  exact hc

/-- The two outcomes of `NN5Player::makeMove`: IllegalMove at the default
cell `(9, 9)` with the board as it was, or the placement of the mark on an
Empty in-grid cell. -/
theorem NN5Player.makeMove_cases (p : NN5Player) (b : Board) :
    (p.makeMove b = (.error (.illegalMove 9 9), b) ∧ b.storage 180 ≠ '.' ∧
      ∀ x y : Nat, x < 19 → y < 19 → b.at' x y = '.' →
        Flt.lt Flt.ninf (p.score b x y) = false) ∨
    ∃ xr yr : Nat, xr < 19 ∧ yr < 19 ∧ b.at' xr yr = '.' ∧
      (p.scan b).xr = xr ∧ (p.scan b).yr = yr ∧
      p.makeMove b =
        (.ok ((b.set ((yr : Int) * 19 + xr) p.s).checkForWin xr yr),
          b.set ((yr : Int) * 19 + xr) p.s) := by
  rcases p.scan_inv b with ⟨hst, hn⟩ | ⟨xr, yr, hP, he, _, hst, _⟩
  · by_cases hc : b.storage 180 = '.'
    · refine Or.inr ⟨9, 9, by norm_num, by norm_num, ?_, by rw [hst]; rfl, by rw [hst]; rfl, ?_⟩
      · exact (Board.at_centre b).trans hc
      · exact p.makeMove_found b 9 9 (by norm_num) (by norm_num)
          ((Board.at_centre b).trans hc) (by rw [hst]; exact ⟨rfl, rfl⟩)
    · refine Or.inl ⟨?_, hc, fun x y hx hy => hn x y ⟨hx, hy⟩⟩
      unfold NN5Player.makeMove
      dsimp only
      rw [hst]
      exact Board.makeMove_centre_occupied b p.s hc
  · exact Or.inr ⟨xr, yr, hP.1, hP.2, he, by rw [hst], by rw [hst],
      p.makeMove_found b xr yr hP.1 hP.2 he (by rw [hst]; exact ⟨rfl, rfl⟩)⟩

/-! ### Scores of particular agents -/

theorem Flt.add_fin_fin (a b : ℚ) : Flt.add (Flt.fin a) (Flt.fin b) = Flt.round (a + b) := rfl

theorem Flt.mul_fin_fin (a b : ℚ) : Flt.mul (Flt.fin a) (Flt.fin b) = Flt.round (a * b) := rfl

/-- The product of a finite `float` and a `match` value. -/
theorem Flt.mul_fin_ite (a : ℚ) (c : Prop) [Decidable c] :
    Flt.mul (Flt.fin a) (if c then Flt.fin 1 else Flt.fin 0) =
      if c then Flt.round a else Flt.fin 0 := by
  by_cases h : c
  · rw [if_pos h, if_pos h, Flt.mul_fin_fin, mul_one]
  · rw [if_neg h, if_neg h, Flt.mul_fin_fin, mul_zero, Flt.round_zero]

theorem Flt.lt_fin_fin_false {a b : ℚ} (h : ¬ a < b) :
    Flt.lt (Flt.fin a) (Flt.fin b) = false := by
  simp [Flt.lt, h]

theorem big_pos : 0 < big := by
  unfold big
  positivity

theorem Flt.round_big : Flt.round big = Flt.fin big :=
  Flt.round_two_pow 127 (by norm_num)

theorem Flt.round_neg_big : Flt.round (-big) = Flt.fin (-big) :=
  Flt.round_neg_two_pow 127 (by norm_num)

/-- The sum `-2 ^ 127 + -2 ^ 127` overflows. -/
theorem Flt.round_neg_big_twice : Flt.round (-big + -big) = Flt.ninf := by
  have e : -big + -big = -2 ^ 128 := by
    unfold big
    norm_num
  rw [e]
  exact Flt.round_neg_two_pow_128

theorem edgeAgent_at : emptyBoard.at' (-1) 1 = '.' := by decide

/-- The code's score of `edgeAgent` for the candidate `(0, 1)` on the
all-Empty board. -/
theorem edgeAgent_score : edgeAgent.score emptyBoard 0 1 = Flt.fin 1 := by
  have h10 : ¬ (1 : ℚ) < 0 := by norm_num
  simp [NN5Player.score, NN5Player.channel, List.finRange, edgeAgent, NN5Player.widx,
    NN5Player.map, edgeAgent_at, Flt.mul_fin_ite, Flt.add_fin_fin, Flt.mul_fin_fin,
    Flt.round_zero, Flt.round_one, Flt.lt, h10]

/-- A channel all of whose window weights are `0` and whose `a` is a
binary32 value `v`: the loops leave `r = v`, and the rectifier follows. -/
theorem NN5Player.channel_flat (p : NN5Player) (b : Board) (x y : Int) (i : Fin 3) (v : ℚ)
    (hw : ∀ k, p.w i k = 0) (ha : p.a i = v) (hv : Flt.round v = Flt.fin v) :
    p.channel b x y i =
      if Flt.lt (Flt.fin v) (Flt.fin 0) = true then Flt.fin 0 else Flt.fin v := by
  have hstep : ∀ (dy dx : Fin 5),
      Flt.add (Flt.fin v) (Flt.mul (Flt.round (p.w i (NN5Player.widx dy dx)))
        (if b.at' (x + (dx.val : Int) - 5 / 2) (y + (dy.val : Int) - 5 / 2) = p.map i
          then Flt.fin 1 else Flt.fin 0)) = Flt.fin v := by
    intro dy dx
    rw [hw, Flt.round_zero, Flt.mul_fin_ite, Flt.round_zero, ite_self, Flt.add_fin_fin,
      add_zero, hv]
  have hinner : ∀ dy : Fin 5,
      (List.finRange 5).foldl (fun r dx =>
        Flt.add r (Flt.mul (Flt.round (p.w i (NN5Player.widx dy dx)))
          (if b.at' (x + (dx.val : Int) - 5 / 2) (y + (dy.val : Int) - 5 / 2) = p.map i
            then Flt.fin 1 else Flt.fin 0))) (Flt.fin v) = Flt.fin v :=
    fun dy => List.foldl_fixed' (hstep dy) _
  unfold NN5Player.channel
  dsimp only
  rw [ha, hv, List.foldl_fixed' hinner]

theorem finRange_three : List.finRange 3 = [0, 1, 2] := rfl

/-- The loop over the three channels, written out. -/
theorem NN5Player.score_eq (p : NN5Player) (b : Board) (x y : Int) :
    p.score b x y =
      Flt.add (Flt.add (Flt.add (Flt.round p.ar)
        (Flt.mul (Flt.round (p.wr 0)) (p.channel b x y 0)))
        (Flt.mul (Flt.round (p.wr 1)) (p.channel b x y 1)))
        (Flt.mul (Flt.round (p.wr 2)) (p.channel b x y 2)) := by
  unfold NN5Player.score
  rw [finRange_three]
  rfl

theorem sinkAgent_channel_zero (b : Board) (x y : Int) :
    sinkAgent.channel b x y 0 = Flt.fin big := by
  rw [NN5Player.channel_flat sinkAgent b x y 0 big (fun _ => rfl) rfl Flt.round_big,
    Flt.lt_fin_fin_false (not_lt.2 big_pos.le)]
  rfl

theorem sinkAgent_channel_other (b : Board) (x y : Int) (i : Fin 3) (hi : i ≠ 0) :
    sinkAgent.channel b x y i = Flt.fin 0 := by
  have ha : sinkAgent.a i = 0 := by
    show (if i = 0 then big else 0) = 0
    rw [if_neg hi]
  rw [NN5Player.channel_flat sinkAgent b x y i 0 (fun _ => rfl) ha Flt.round_zero,
    Flt.lt_fin_fin_false (lt_irrefl 0)]
  rfl

/-- The score of `sinkAgent` is `-INFINITY` for every candidate on every
board. -/
theorem sinkAgent_score (b : Board) (x y : Int) : sinkAgent.score b x y = Flt.ninf := by
  have hwr0 : sinkAgent.wr 0 = -1 := rfl
  have hwr1 : sinkAgent.wr 1 = 0 := rfl
  have hwr2 : sinkAgent.wr 2 = 0 := rfl
  have har : sinkAgent.ar = -big := rfl
  rw [NN5Player.score_eq, hwr0, hwr1, hwr2, har, sinkAgent_channel_zero,
    sinkAgent_channel_other b x y 1 (by decide), sinkAgent_channel_other b x y 2 (by decide),
    Flt.round_neg_big, Flt.round_neg_one, Flt.round_zero, Flt.mul_fin_fin, Flt.mul_fin_fin,
    neg_one_mul, Flt.round_neg_big, Flt.add_fin_fin, Flt.round_neg_big_twice, mul_zero,
    Flt.round_zero]
  rfl

theorem Board.holds_centre (b : Board) : b.holds 9 9 '.' ↔ b.storage 180 = '.' := by
  have e : (9 : Int) * 19 + 9 = ((⟨180, by norm_num⟩ : Fin 361).val : Int) := by decide
  unfold Board.holds
  rw [e, Board.cell_eq_storage]
  constructor
  · exact fun h => h.2.2.2.2
  · exact fun h => ⟨by norm_num, by norm_num, by norm_num, by norm_num, h⟩

theorem emptyBoard_makeMove_centre :
    emptyBoard.makeMove 'x' 9 9 = (.ok false, centreBoard) := by
  have hf : Board.flatten 9 9 = 180 := by decide
  rw [Board.makeMove_ok emptyBoard 'x' 9 9 (by decide) (by decide), hf]
  have hw : (emptyBoard.set 180 'x').checkForWin 9 9 = false := by decide
  rw [hw]
  rfl

/-- C3 (amended). For every agent and every board on which some Empty cell
has a score that compares greater than `-INFINITY` (a score that is neither a
NaN nor `-INFINITY`), `NN5Player::makeMove` places the agent's mark on such a
cell `(xr, yr)`: no Empty cell's score compares greater than its score, its
score is at least the score of every Empty cell whose score is not a NaN, and
strictly greater than the score of every Empty cell scanned before it (`x`
ascending, then `y` ascending) whose score is not a NaN: the first maximiser.
The cell is `(p.scan b).xr, (p.scan b).yr`, a function of the board and of the
agent's parameters and marks. -/
theorem NN5Player.makeMove_first_maximiser (p : NN5Player) (b : Board)
    (h : ∃ x y : Nat, x < 19 ∧ y < 19 ∧ b.holds x y '.' ∧
      Flt.lt Flt.ninf (p.score b x y) = true) :
    ∃ xr yr : Nat, xr < 19 ∧ yr < 19 ∧ b.holds xr yr '.' ∧
      Flt.lt Flt.ninf (p.score b xr yr) = true ∧
      (p.scan b).xr = xr ∧ (p.scan b).yr = yr ∧
      (∃ r, (p.makeMove b).1 = .ok r) ∧
      (p.makeMove b).2 = b.set ((yr : Int) * 19 + xr) p.s ∧
      (∀ x y : Nat, x < 19 → y < 19 → b.holds x y '.' →
        Flt.lt (p.score b xr yr) (p.score b x y) = false) ∧
      (∀ x y : Nat, x < 19 → y < 19 → b.holds x y '.' → p.score b x y ≠ Flt.nan →
        Flt.le (p.score b x y) (p.score b xr yr) = true) ∧
      (∀ x y : Nat, x < 19 → y < 19 → b.holds x y '.' → p.score b x y ≠ Flt.nan →
        (x < xr ∨ (x = xr ∧ y < yr)) →
          Flt.lt (p.score b x y) (p.score b xr yr) = true) := by
  obtain ⟨x0, y0, hx0, hy0, hh0, hgt0⟩ := h
  obtain ⟨xr, yr, hx, hy, he, hel, hst, hmax⟩ :=
    p.scan_found b ⟨x0, y0, hx0, hy0, (b.holds_iff_at x0 y0 hx0 hy0 '.').1 hh0, hgt0⟩
  have hmk := p.makeMove_found b xr yr hx hy he (by rw [hst]; exact ⟨rfl, rfl⟩)
  refine ⟨xr, yr, hx, hy, (b.holds_iff_at xr yr hx hy '.').2 he, hel, by rw [hst], by rw [hst],
    ⟨_, by rw [hmk]⟩, by rw [hmk], ?_, ?_, ?_⟩
  · intro x y hx' hy' hh
    exact (hmax x y ⟨hx', hy'⟩ ((b.holds_iff_at x y hx' hy' '.').1 hh)).1
  · intro x y hx' hy' hh hn
    exact Flt.le_of_not_lt (Flt.ne_nan_of_above hel) hn
      (hmax x y ⟨hx', hy'⟩ ((b.holds_iff_at x y hx' hy' '.').1 hh)).1
  · intro x y hx' hy' hh hn hlt
    exact (hmax x y ⟨hx', hy'⟩ ((b.holds_iff_at x y hx' hy' '.').1 hh)).2 hlt hn

theorem NN5Player.makeMove_first_maximiser_witness :
    (∃ x y : Nat, x < 19 ∧ y < 19 ∧ emptyBoard.holds x y '.' ∧
      Flt.lt Flt.ninf (edgeAgent.score emptyBoard x y) = true) ∧
    ∃ xr yr : Nat, xr < 19 ∧ yr < 19 ∧ emptyBoard.holds xr yr '.' ∧
      Flt.lt Flt.ninf (edgeAgent.score emptyBoard xr yr) = true ∧
      (edgeAgent.scan emptyBoard).xr = xr ∧ (edgeAgent.scan emptyBoard).yr = yr ∧
      (∃ r, (edgeAgent.makeMove emptyBoard).1 = .ok r) ∧
      (edgeAgent.makeMove emptyBoard).2 = emptyBoard.set ((yr : Int) * 19 + xr) edgeAgent.s ∧
      (∀ x y : Nat, x < 19 → y < 19 → emptyBoard.holds x y '.' →
        Flt.lt (edgeAgent.score emptyBoard xr yr) (edgeAgent.score emptyBoard x y) = false) ∧
      (∀ x y : Nat, x < 19 → y < 19 → emptyBoard.holds x y '.' →
        edgeAgent.score emptyBoard x y ≠ Flt.nan →
        Flt.le (edgeAgent.score emptyBoard x y) (edgeAgent.score emptyBoard xr yr) = true) ∧
      (∀ x y : Nat, x < 19 → y < 19 → emptyBoard.holds x y '.' →
        edgeAgent.score emptyBoard x y ≠ Flt.nan →
        (x < xr ∨ (x = xr ∧ y < yr)) →
          Flt.lt (edgeAgent.score emptyBoard x y) (edgeAgent.score emptyBoard xr yr) = true) :=
  ⟨⟨0, 1, by decide, by decide, by decide, by rw [show edgeAgent.score emptyBoard
      ((0 : Nat) : Int) ((1 : Nat) : Int) = Flt.fin 1 from edgeAgent_score]; rfl⟩,
    NN5Player.makeMove_first_maximiser edgeAgent emptyBoard
      ⟨0, 1, by decide, by decide, by decide, by rw [show edgeAgent.score emptyBoard
        ((0 : Nat) : Int) ((1 : Nat) : Int) = Flt.fin 1 from edgeAgent_score]; rfl⟩⟩

/-- C3 (the claim fails as worded). The agent `sinkAgent` has finite
parameters, its score is `-INFINITY` for every candidate, and the all-Empty
board has Empty cells. `rr > maxr` is never true, the loops select nothing
and the mark goes to the default cell `(9, 9)`; the Empty cell `(0, 0)` is
scanned before `(9, 9)` and its score is not less: `(9, 9)` is not the first
maximiser. -/
theorem NN5Player.makeMove_default_not_first :
    (∃ q : Fin 361, emptyBoard.storage q = '.') ∧
    sinkAgent.makeMove emptyBoard = (.ok false, centreBoard) ∧
    (sinkAgent.scan emptyBoard).xr = 9 ∧ (sinkAgent.scan emptyBoard).yr = 9 ∧
    emptyBoard.holds 0 0 '.' ∧
    sinkAgent.score emptyBoard 0 0 = Flt.ninf ∧ sinkAgent.score emptyBoard 9 9 = Flt.ninf ∧
    Flt.lt (sinkAgent.score emptyBoard 0 0) (sinkAgent.score emptyBoard 9 9) = false := by
  have hnone : ∀ x y : Nat, x < 19 → y < 19 → emptyBoard.at' x y = '.' →
      Flt.lt Flt.ninf (sinkAgent.score emptyBoard x y) = false := by
    intro x y _ _ _
    rw [sinkAgent_score]
    rfl
  refine ⟨⟨0, rfl⟩, ?_, by rw [sinkAgent.scan_none emptyBoard hnone],
    by rw [sinkAgent.scan_none emptyBoard hnone], by decide, sinkAgent_score _ _ _,
    sinkAgent_score _ _ _, ?_⟩
  · rw [sinkAgent.makeMove_default emptyBoard hnone]
    exact emptyBoard_makeMove_centre
  · rw [sinkAgent_score, sinkAgent_score]
    rfl

/-- C7 (amended). `NN5Player::makeMove` raises IllegalMove if and only if no
Empty cell has a score that compares greater than `-INFINITY` and the default
cell `(9, 9)` is not Empty; the exception is the IllegalMove of `(9, 9)` and
the board is as it was. In particular the call succeeds when some Empty cell
has a score that compares greater than `-INFINITY`, and it raises IllegalMove
on a board with no Empty cell. -/
theorem NN5Player.makeMove_illegal_iff (p : NN5Player) (b : Board) :
    ((∃ e, (p.makeMove b).1 = .error e) ↔
      ((∀ x y : Nat, x < 19 → y < 19 → b.holds x y '.' →
          Flt.lt Flt.ninf (p.score b x y) = false) ∧
        ¬ b.holds 9 9 '.')) ∧
    ((∃ e, (p.makeMove b).1 = .error e) → p.makeMove b = (.error (.illegalMove 9 9), b)) ∧
    ((∃ x y : Nat, x < 19 ∧ y < 19 ∧ b.holds x y '.' ∧
        Flt.lt Flt.ninf (p.score b x y) = true) → ∃ r, (p.makeMove b).1 = .ok r) ∧
    ((¬ ∃ q : Fin 361, b.storage q = '.') →
      p.makeMove b = (.error (.illegalMove 9 9), b)) := by
  have hiff : (∃ e, (p.makeMove b).1 = .error e) ↔
      ((∀ x y : Nat, x < 19 → y < 19 → b.holds x y '.' →
          Flt.lt Flt.ninf (p.score b x y) = false) ∧
        ¬ b.holds 9 9 '.') := by
    constructor
    · rintro ⟨e, he⟩
      rcases p.makeMove_cases b with ⟨_, hc, hn⟩ | ⟨xr, yr, _, _, _, _, _, hmk⟩
      · refine ⟨fun x y hx hy hh => hn x y hx hy ((b.holds_iff_at x y hx hy '.').1 hh), ?_⟩
        rw [Board.holds_centre]
        exact hc
      · rw [hmk] at he
        cases he
    · rintro ⟨hn, hc⟩
      rw [Board.holds_centre] at hc
      rw [p.makeMove_default b
        (fun x y hx hy hh => hn x y hx hy ((b.holds_iff_at x y hx hy '.').2 hh)),
        Board.makeMove_centre_occupied b p.s hc]
      exact ⟨_, rfl⟩
  have herr : (∃ e, (p.makeMove b).1 = .error e) →
      p.makeMove b = (.error (.illegalMove 9 9), b) := by
    rintro ⟨e, he⟩
    rcases p.makeMove_cases b with ⟨h1, _, _⟩ | ⟨xr, yr, _, _, _, _, _, hmk⟩
    · exact h1
    · rw [hmk] at he
      cases he
  refine ⟨hiff, herr, ?_, ?_⟩
  · rintro ⟨x, y, hx, hy, hh, hgt⟩
    rcases p.makeMove_cases b with ⟨_, _, hn⟩ | ⟨xr, yr, _, _, _, _, _, hmk⟩
    · rw [hn x y hx hy ((b.holds_iff_at x y hx hy '.').1 hh)] at hgt
      cases hgt
    · exact ⟨_, by rw [hmk]⟩
  · intro h
    apply herr
    rw [hiff]
    constructor
    · intro x y hx hy hh
      exfalso
      apply h
      rw [Board.holds_iff_at b x y hx hy, Board.storage_of_at b x y hx hy] at hh
      exact ⟨_, hh⟩
    · rw [Board.holds_centre]
      intro hc
      exact h ⟨_, hc⟩

/-- C7 (the claim fails as worded). The board `centreBoard` has Empty cells
(all but `(9, 9)`) and `sinkAgent` has finite parameters, yet
`NN5Player::makeMove` raises the IllegalMove of the default cell `(9, 9)`:
every score is `-INFINITY`, so the loops select no cell. -/
theorem NN5Player.makeMove_illegal_with_empty_cells :
    (∃ q : Fin 361, centreBoard.storage q = '.') ∧
    centreBoard.holds 0 0 '.' ∧
    sinkAgent.score centreBoard 0 0 = Flt.ninf ∧
    sinkAgent.makeMove centreBoard = (.error (.illegalMove 9 9), centreBoard) := by
  refine ⟨⟨0, by decide⟩, by decide, sinkAgent_score _ _ _, ?_⟩
  rw [sinkAgent.makeMove_default centreBoard (fun x y _ _ _ => by
    rw [sinkAgent_score]
    rfl)]
  exact Board.makeMove_centre_occupied centreBoard 'x' (by decide)

/-- C8 (the code at the failing input). For `edgeAgent` on the all-Empty
board and the candidate `(0, 1)`, the offset `(-1, 0)` has its target `(-1, 1)`
outside the grid, yet `Board::at(-1, 1)` reads the Empty cell `(18, 0)` and the
weight is added: the code's score is `1`, the score of the specification `0`. -/
theorem NN5Player.score_counts_wrapped_cell :
    Board.checkCoords (0 + 1 - 2) (1 + 2 - 2) = false ∧
    edgeAgent.score emptyBoard 0 1 = Flt.fin 1 ∧ specScore edgeAgent emptyBoard 0 1 = 0 := by
  refine ⟨by decide, edgeAgent_score, ?_⟩
  simp [specScore, specChannelSum, Fin.sum_univ_succ, edgeAgent, NN5Player.widx,
    NN5Player.map, Board.holds]

/-! ## Match runner -/

theorem playLoop_zero (i : Int) (st : GameState) :
    playLoop 0 i st = (.error .outOfFuel, st) := rfl

theorem playGame_eq (board : Board) (p1 p2 : NN5) :
    playGame board p1 p2 =
      playLoop 361 0
        ⟨board, { p1 with pet := p1.pet.init 'x' }, { p2 with pet := p2.pet.init 'o' }, []⟩ :=
  rfl

theorem playLoop_succ (fuel : Nat) (i : Int) (st : GameState) :
    playLoop (fuel + 1) i st =
      if i < Board.size * Board.size then
        match st.p1.pet.makeMove st.board with
        | (.error e, b) => (.error e, { st with board := b })
        | (.ok res, b) =>
          if res = true then
            (.ok (), { board := b, p1 := { st.p1 with score := st.p1.score + 3 },
                       p2 := { st.p2 with score := st.p2.score - 5 },
                       placed := st.placed ++ [(st.p1.pet.s, res)] })
          else if i + 1 = Board.size * Board.size then
            (.ok (), { st with board := b, placed := st.placed ++ [(st.p1.pet.s, res)] })
          else
            match st.p2.pet.makeMove b with
            | (.error e, b2) =>
              (.error e, { st with board := b2, placed := st.placed ++ [(st.p1.pet.s, res)] })
            | (.ok res2, b2) =>
              if res2 = true then
                (.ok (), { board := b2, p1 := { st.p1 with score := st.p1.score - 5 },
                           p2 := { st.p2 with score := st.p2.score + 3 },
                           placed := st.placed ++ [(st.p1.pet.s, res)] ++ [(st.p2.pet.s, res2)] })
              else
                playLoop fuel (i + 1 + 1)
                  { st with board := b2,
                            placed := st.placed ++ [(st.p1.pet.s, res)] ++ [(st.p2.pet.s, res2)] }
      else (.ok (), st) := by
  rfl

theorem playLoop_done (fuel : Nat) (i : Int) (st : GameState) (hi : ¬ i < 361) :
    playLoop (fuel + 1) i st = (.ok (), st) := by
  simp [playLoop_succ, Board.size, hi]

theorem playLoop_err1 (fuel : Nat) (i : Int) (st : GameState) (hi : i < 361)
    (e : GameError) (b : Board) (h1 : st.p1.pet.makeMove st.board = (.error e, b)) :
    playLoop (fuel + 1) i st = (.error e, { st with board := b }) := by
  simp [playLoop_succ, Board.size, hi, h1]

theorem playLoop_win1 (fuel : Nat) (i : Int) (st : GameState) (hi : i < 361)
    (b : Board) (h1 : st.p1.pet.makeMove st.board = (.ok true, b)) :
    playLoop (fuel + 1) i st =
      (.ok (), { board := b, p1 := { st.p1 with score := st.p1.score + 3 },
                 p2 := { st.p2 with score := st.p2.score - 5 },
                 placed := st.placed ++ [(st.p1.pet.s, true)] }) := by
  simp [playLoop_succ, Board.size, hi, h1]

theorem playLoop_full (fuel : Nat) (i : Int) (st : GameState) (hi : i < 361)
    (b : Board) (h1 : st.p1.pet.makeMove st.board = (.ok false, b)) (hf : i + 1 = 361) :
    playLoop (fuel + 1) i st =
      (.ok (), { st with board := b, placed := st.placed ++ [(st.p1.pet.s, false)] }) := by
  simp [playLoop_succ, Board.size, hi, h1, hf]

theorem playLoop_err2 (fuel : Nat) (i : Int) (st : GameState) (hi : i < 361)
    (b : Board) (h1 : st.p1.pet.makeMove st.board = (.ok false, b)) (hf : ¬ i + 1 = 361)
    (e : GameError) (b2 : Board) (h2 : st.p2.pet.makeMove b = (.error e, b2)) :
    playLoop (fuel + 1) i st =
      (.error e, { st with board := b2, placed := st.placed ++ [(st.p1.pet.s, false)] }) := by
  simp [playLoop_succ, Board.size, hi, h1, hf, h2]

theorem playLoop_win2 (fuel : Nat) (i : Int) (st : GameState) (hi : i < 361)
    (b : Board) (h1 : st.p1.pet.makeMove st.board = (.ok false, b)) (hf : ¬ i + 1 = 361)
    (b2 : Board) (h2 : st.p2.pet.makeMove b = (.ok true, b2)) :
    playLoop (fuel + 1) i st =
      (.ok (), { board := b2, p1 := { st.p1 with score := st.p1.score - 5 },
                 p2 := { st.p2 with score := st.p2.score + 3 },
                 placed := st.placed ++ [(st.p1.pet.s, false)] ++ [(st.p2.pet.s, true)] }) := by
  simp [playLoop_succ, Board.size, hi, h1, hf, h2]

theorem playLoop_next (fuel : Nat) (i : Int) (st : GameState) (hi : i < 361)
    (b : Board) (h1 : st.p1.pet.makeMove st.board = (.ok false, b)) (hf : ¬ i + 1 = 361)
    (b2 : Board) (h2 : st.p2.pet.makeMove b = (.ok false, b2)) :
    playLoop (fuel + 1) i st =
      playLoop fuel (i + 1 + 1)
        { st with board := b2,
                  placed := st.placed ++ [(st.p1.pet.s, false)] ++ [(st.p2.pet.s, false)] } := by
  simp [playLoop_succ, Board.size, hi, h1, hf, h2]

theorem Board.emptyCount_pos_iff (b : Board) :
    0 < b.emptyCount ↔ ∃ q : Fin 361, b.storage q = '.' := by
  unfold Board.emptyCount
  rw [Finset.card_pos]
  constructor
  · rintro ⟨q, hq⟩
    exact ⟨q, (Finset.mem_filter.1 hq).2⟩
  · rintro ⟨q, hq⟩
    exact ⟨q, Finset.mem_filter.2 ⟨Finset.mem_univ q, hq⟩⟩

theorem Board.emptyCount_zero (b : Board) (h : b.emptyCount = 0) (q : Fin 361) :
    b.storage q ≠ '.' := by
  intro hq
  have := (b.emptyCount_pos_iff).2 ⟨q, hq⟩
  omega

theorem emptyBoard_emptyCount : emptyBoard.emptyCount = 361 := by
  unfold Board.emptyCount emptyBoard
  rw [Finset.filter_true_of_mem (fun _ _ => rfl), Finset.card_univ, Fintype.card_fin]

theorem Board.emptyCount_set (b : Board) (pos : Int) (s : Char)
    (hp : 0 ≤ pos ∧ pos < 361) (hc : b.cell pos = '.') (hs : s ≠ '.') :
    (b.set pos s).emptyCount + 1 = b.emptyCount := by
  have hq : b.storage ⟨pos.toNat, by omega⟩ = '.' := by
    rw [← Board.cell_eq_storage]
    simp only
    rw [Int.toNat_of_nonneg hp.1]
    exact hc
  have hfilter : (Finset.univ.filter fun q : Fin 361 => (b.set pos s).storage q = '.') =
      (Finset.univ.filter fun q : Fin 361 => b.storage q = '.').erase ⟨pos.toNat, by omega⟩ := by
    ext q
    simp only [Finset.mem_filter, Finset.mem_univ, true_and, Finset.mem_erase]
    rw [Board.storage_set]
    by_cases hqp : (q.val : Int) = pos
    · rw [if_pos hqp]
      constructor
      · intro h; exact absurd h hs
      · rintro ⟨hne, _⟩
        exfalso
        apply hne
        apply Fin.ext
        simp only
        omega
    · rw [if_neg hqp]
      constructor
      · intro h
        refine ⟨?_, h⟩
        intro heq
        apply hqp
        rw [heq]
        simp only
        omega
      · exact fun h => h.2
  have hmem : (⟨pos.toNat, by omega⟩ : Fin 361) ∈
      Finset.univ.filter fun q : Fin 361 => b.storage q = '.' :=
    Finset.mem_filter.2 ⟨Finset.mem_univ _, hq⟩
  unfold Board.emptyCount
  rw [hfilter, Finset.card_erase_of_mem hmem]
  have : 0 < (Finset.univ.filter fun q : Fin 361 => b.storage q = '.').card :=
    Finset.card_pos.2 ⟨_, hmem⟩
  omega

/-- The two outcomes of `NN5Player::makeMove` for an agent whose mark is not
the Empty character: IllegalMove at `(9, 9)` with the board as it was (no
Empty cell has a score that compares greater than `-INFINITY` and `(9, 9)` is
occupied), or a placement that leaves one Empty cell fewer. -/
theorem NN5Player.makeMove_step (p : NN5Player) (b : Board) (hs : p.s ≠ '.') :
    (p.makeMove b = (.error (.illegalMove 9 9), b) ∧ b.storage 180 ≠ '.' ∧
      ∀ x y : Nat, x < 19 → y < 19 → b.at' x y = '.' →
        Flt.lt Flt.ninf (p.score b x y) = false) ∨
    ∃ r b', p.makeMove b = (.ok r, b') ∧ b'.emptyCount + 1 = b.emptyCount := by
  rcases p.makeMove_cases b with h | ⟨xr, yr, hx, hy, he, _, _, hmk⟩
  · exact Or.inl h
  · refine Or.inr ⟨_, _, hmk, ?_⟩
    apply Board.emptyCount_set b _ _ (by omega) _ hs
    rw [← Board.at_inGrid b xr yr (by omega) (by omega)]
    exact he

theorem alternates_append (l : List (Char × Bool)) (r : Bool) (h : Alternates l) :
    Alternates (l ++ [(turnMark l.length, r)]) := by
  unfold Alternates at *
  rw [List.map_append, List.length_append, List.length_singleton, List.range_succ,
    List.map_append, h]
  rfl

theorem turnMark_even (k : Nat) (h : k % 2 = 0) : turnMark k = 'x' := by
  simp [turnMark, h]

theorem turnMark_odd (k : Nat) (h : k % 2 = 1) : turnMark k = 'o' := by
  simp [turnMark, h]

/-- The loop of `playGame` from a state in which `i` placements have been
made, none of them a win, `i` is even and the board has `361 - i` Empty
cells: it returns or raises the IllegalMove of the cell `(9, 9)`, within the
iterations it is given; if it raises, no placement reported a win and the
call of `NN5Player::makeMove` that raised was on a board with Empty cells,
none of them with a score that compares greater than `-INFINITY`. -/
theorem playLoop_runs :
    ∀ (fuel : Nat) (i : Int) (st : GameState),
      st.p1.pet.s = 'x' → st.p2.pet.s = 'o' →
      (st.placed.length : Int) = i → i % 2 = 0 →
      (st.board.emptyCount : Int) + i = 361 →
      Alternates st.placed → (∀ e ∈ st.placed, e.2 = false) →
      361 - i < 2 * (fuel : Int) →
      ((playLoop fuel i st).1 = .ok () ∨
        (playLoop fuel i st).1 = .error (.illegalMove 9 9)) ∧
      (playLoop fuel i st).2.placed.length ≤ 361 ∧
      Alternates (playLoop fuel i st).2.placed ∧
      ((playLoop fuel i st).1 = .ok () →
        (∀ e ∈ (playLoop fuel i st).2.placed, e.2 = false) →
        (playLoop fuel i st).2.placed.length = 361 ∧
        (playLoop fuel i st).2.board.emptyCount = 0) ∧
      ((playLoop fuel i st).1 = .error (.illegalMove 9 9) →
        (∀ e ∈ (playLoop fuel i st).2.placed, e.2 = false) ∧
        ∃ (pl : NN5Player) (b : Board), (pl = st.p1.pet ∨ pl = st.p2.pet) ∧
          0 < b.emptyCount ∧ pl.makeMove b = (.error (.illegalMove 9 9), b) ∧
          b.storage 180 ≠ '.' ∧
          ∀ x y : Nat, x < 19 → y < 19 → b.at' x y = '.' →
            Flt.lt Flt.ninf (pl.score b x y) = false) := by
  intro fuel
  induction fuel with
  | zero =>
    intro i st _ _ hlen _ _ _ _ hfuel
    exfalso
    have : (0 : Int) ≤ (st.placed.length : Int) := Int.natCast_nonneg _
    have h2 := Int.natCast_nonneg st.board.emptyCount
    omega
  | succ n ih =>
    intro i st hs1 hs2 hlen heven hcount halt hfalse hfuel
    have hi0 : 0 ≤ i := by rw [← hlen]; exact Int.natCast_nonneg _
    have hc0 := Int.natCast_nonneg st.board.emptyCount
    have hi : i < 361 := by omega
    have hlenN : st.placed.length % 2 = 0 := by omega
    have halt1 : ∀ r, Alternates (st.placed ++ [(st.p1.pet.s, r)]) := by
      intro r
      have := alternates_append st.placed r halt
      rwa [turnMark_even _ hlenN, ← hs1] at this
    have hfalse1 : ∀ e ∈ st.placed ++ [(st.p1.pet.s, false)], e.2 = false := by
      intro e he
      simp only [List.mem_append, List.mem_singleton] at he
      rcases he with he | rfl
      · exact hfalse e he
      · rfl
    rcases st.p1.pet.makeMove_step st.board (by rw [hs1]; decide) with
      ⟨hm1, hc1, hn1⟩ | ⟨r1, b1, hm1, hcount1⟩
    · rw [playLoop_err1 n i st hi _ _ hm1]
      dsimp only
      refine ⟨Or.inr rfl, by omega, halt, (fun h => by cases h), fun _ => ⟨hfalse, ?_⟩⟩
      exact ⟨st.p1.pet, st.board, Or.inl rfl, by omega, hm1, hc1, hn1⟩
    · cases r1 with
      | true =>
        rw [playLoop_win1 n i st hi b1 hm1]
        refine ⟨Or.inl rfl, ?_, halt1 true, ?_, fun h => by cases h⟩
        · simp only [List.length_append, List.length_singleton]
          omega
        · intro _ hall
          have := hall (st.p1.pet.s, true) (by simp)
          simp at this
      | false =>
        by_cases hf : i + 1 = 361
        · rw [playLoop_full n i st hi b1 hm1 hf]
          refine ⟨Or.inl rfl, ?_, halt1 false, ?_, fun h => by cases h⟩
          · simp only [List.length_append, List.length_singleton]
            omega
          · intro _ _
            simp only [List.length_append, List.length_singleton]
            constructor <;> omega
        · have halt2 : ∀ r,
              Alternates (st.placed ++ [(st.p1.pet.s, false)] ++ [(st.p2.pet.s, r)]) := by
            intro r
            have := alternates_append _ r (halt1 false)
            rwa [turnMark_odd _ (by
              simp only [List.length_append, List.length_singleton]
              omega), ← hs2] at this
          rcases st.p2.pet.makeMove_step b1 (by rw [hs2]; decide) with
            ⟨hm2, hc2, hn2⟩ | ⟨r2, b2, hm2, hcount2⟩
          · rw [playLoop_err2 n i st hi b1 hm1 hf _ _ hm2]
            dsimp only
            refine ⟨Or.inr rfl, ?_, halt1 false, (fun h => by cases h),
              fun _ => ⟨hfalse1, ?_⟩⟩
            · simp only [List.length_append, List.length_singleton]
              omega
            · exact ⟨st.p2.pet, b1, Or.inr rfl, by omega, hm2, hc2, hn2⟩
          · cases r2 with
            | true =>
              rw [playLoop_win2 n i st hi b1 hm1 hf b2 hm2]
              refine ⟨Or.inl rfl, ?_, halt2 true, ?_, fun h => by cases h⟩
              · simp only [List.length_append, List.length_singleton]
                omega
              · intro _ hall
                have := hall (st.p2.pet.s, true) (by simp)
                simp at this
            | false =>
              rw [playLoop_next n i st hi b1 hm1 hf b2 hm2]
              apply ih
              · exact hs1
              · exact hs2
              · simp only [List.length_append, List.length_singleton]
                push_cast
                omega
              · omega
              · simp only
                omega
              · exact halt2 false
              · intro e he
                simp only [List.mem_append, List.mem_singleton] at he
                rcases he with (he | rfl) | rfl
                · exact hfalse e he
                · rfl
                · rfl
              · omega

/-- A match started on the all-Empty board. -/
theorem playGame_on_empty (p1 p2 : NN5) :
    ((playGame emptyBoard p1 p2).1 = .ok () ∨
      (playGame emptyBoard p1 p2).1 = .error (.illegalMove 9 9)) ∧
    (playGame emptyBoard p1 p2).2.placed.length ≤ 361 ∧
    Alternates (playGame emptyBoard p1 p2).2.placed ∧
    ((playGame emptyBoard p1 p2).1 = .ok () →
      (∀ e ∈ (playGame emptyBoard p1 p2).2.placed, e.2 = false) →
      (playGame emptyBoard p1 p2).2.placed.length = 361 ∧
      ∀ q : Fin 361, (playGame emptyBoard p1 p2).2.board.storage q ≠ '.') ∧
    ((playGame emptyBoard p1 p2).1 = .error (.illegalMove 9 9) →
      (∀ e ∈ (playGame emptyBoard p1 p2).2.placed, e.2 = false) ∧
      ∃ (pl : NN5Player) (b : Board), (pl = p1.pet.init 'x' ∨ pl = p2.pet.init 'o') ∧
        (∃ q : Fin 361, b.storage q = '.') ∧
        pl.makeMove b = (.error (.illegalMove 9 9), b) ∧ ¬ b.holds 9 9 '.' ∧
        ∀ x y : Nat, x < 19 → y < 19 → b.holds x y '.' →
          Flt.lt Flt.ninf (pl.score b x y) = false) := by
  rw [playGame_eq]
  have h := playLoop_runs 361 0
    ⟨emptyBoard, { p1 with pet := p1.pet.init 'x' }, { p2 with pet := p2.pet.init 'o' }, []⟩
    rfl rfl rfl rfl (by simp only [emptyBoard_emptyCount]; norm_num) rfl
    (by intro e he; cases he) (by norm_num)
  refine ⟨h.1, h.2.1, h.2.2.1, ?_, ?_⟩
  · intro hok hall
    have h4 := h.2.2.2.1 hok hall
    exact ⟨h4.1, Board.emptyCount_zero _ h4.2⟩
  · intro herr
    obtain ⟨hnw, pl, b, hpl, hb, hmk, hc, hn⟩ := h.2.2.2.2 herr
    refine ⟨hnw, pl, b, hpl, (b.emptyCount_pos_iff).1 hb, hmk, ?_, ?_⟩
    · rw [Board.holds_centre]
      exact hc
    · intro x y hx hy hh
      exact hn x y hx hy ((b.holds_iff_at x y hx hy '.').1 hh)

/-- A match that raises an exception has no placement that reported a win. -/
theorem playGame_error_nowin (p1 p2 : NN5)
    (h : (playGame emptyBoard p1 p2).1 ≠ .ok ()) :
    ∀ e ∈ (playGame emptyBoard p1 p2).2.placed, e.2 = false := by
  rcases (playGame_on_empty p1 p2).1 with hok | herr
  · exact absurd hok h
  · exact ((playGame_on_empty p1 p2).2.2.2.2 herr).1

theorem centreBoard_occupied : centreBoard.storage 180 ≠ '.' := by decide

/-- An agent with the parameters of `sinkAgent` scores `-INFINITY`. -/
theorem NN5Player.score_of_sink (p : NN5Player) (h : p.sameParams sinkAgent) (b : Board)
    (x y : Int) : p.score b x y = Flt.ninf := by
  obtain ⟨har, ha, hwr, hw⟩ := h
  have hc0 : p.channel b x y 0 = Flt.fin big := by
    rw [NN5Player.channel_flat p b x y 0 big (fun k => by rw [hw]; rfl) (by rw [ha]; rfl)
      Flt.round_big, Flt.lt_fin_fin_false (not_lt.2 big_pos.le)]
    rfl
  have hc : ∀ i : Fin 3, i ≠ 0 → p.channel b x y i = Flt.fin 0 := by
    intro i hi
    have hai : p.a i = 0 := by
      rw [ha]
      show (if i = 0 then big else 0) = 0
      rw [if_neg hi]
    rw [NN5Player.channel_flat p b x y i 0 (fun k => by rw [hw]; rfl) hai Flt.round_zero,
      Flt.lt_fin_fin_false (lt_irrefl 0)]
    rfl
  have hwr0 : p.wr 0 = -1 := by rw [hwr]; rfl
  have hwr1 : p.wr 1 = 0 := by rw [hwr]; rfl
  have hwr2 : p.wr 2 = 0 := by rw [hwr]; rfl
  have har' : p.ar = -big := by rw [har]; rfl
  rw [NN5Player.score_eq, hwr0, hwr1, hwr2, har', hc0, hc 1 (by decide), hc 2 (by decide),
    Flt.round_neg_big, Flt.round_neg_one, Flt.round_zero, Flt.mul_fin_fin, Flt.mul_fin_fin,
    neg_one_mul, Flt.round_neg_big, Flt.add_fin_fin, Flt.round_neg_big_twice, mul_zero,
    Flt.round_zero]
  rfl

/-- The match of two agents with the parameters of `sinkAgent` on the
all-Empty board: the first places its mark on the default cell `(9, 9)`, the
second raises the IllegalMove of `(9, 9)`. -/
theorem playGame_sink (p1 p2 : NN5) (h1 : p1.pet.sameParams sinkAgent)
    (h2 : p2.pet.sameParams sinkAgent) :
    playGame emptyBoard p1 p2 =
      (.error (.illegalMove 9 9),
        ⟨centreBoard, { p1 with pet := p1.pet.init 'x' }, { p2 with pet := p2.pet.init 'o' },
          [('x', false)]⟩) := by
  have hm1 : (p1.pet.init 'x').makeMove emptyBoard = (.ok false, centreBoard) := by
    rw [(p1.pet.init 'x').makeMove_default emptyBoard (fun x y _ _ _ => by
      rw [NN5Player.score_of_sink (p1.pet.init 'x') h1]
      rfl)]
    exact emptyBoard_makeMove_centre
  have hm2 : (p2.pet.init 'o').makeMove centreBoard =
      (.error (.illegalMove 9 9), centreBoard) := by
    rw [(p2.pet.init 'o').makeMove_default centreBoard (fun x y _ _ _ => by
      rw [NN5Player.score_of_sink (p2.pet.init 'o') h2]
      rfl)]
    exact Board.makeMove_centre_occupied centreBoard _ centreBoard_occupied
  have hi : (0 : Int) < 361 := by norm_num
  have hf : ¬ (0 : Int) + 1 = 361 := by norm_num
  rw [playGame_eq]
  exact playLoop_err2 360 0
    ⟨emptyBoard, { p1 with pet := p1.pet.init 'x' }, { p2 with pet := p2.pet.init 'o' }, []⟩
    hi centreBoard hm1 hf _ _ hm2

theorem playLoop_outcome :
    ∀ (fuel : Nat) (i : Int) (st : GameState),
      (∀ e ∈ st.placed, e.2 = false) → (playLoop fuel i st).1 = .ok () →
      Outcome st (playLoop fuel i st).2 ∧
      (playLoop fuel i st).2.p1.pet = st.p1.pet ∧ (playLoop fuel i st).2.p2.pet = st.p2.pet := by
  intro fuel
  induction fuel with
  | zero =>
    intro i st _ h
    rw [playLoop_zero] at h
    cases h
  | succ n ih =>
    intro i st hfalse hok
    have hfalse1 : ∀ e ∈ st.placed ++ [(st.p1.pet.s, false)], e.2 = false := by
      intro e he
      simp only [List.mem_append, List.mem_singleton] at he
      rcases he with he | rfl
      · exact hfalse e he
      · rfl
    by_cases hi : i < 361
    · rcases hm1 : st.p1.pet.makeMove st.board with ⟨r1, b1⟩
      cases r1 with
      | error e =>
        rw [playLoop_err1 n i st hi e b1 hm1] at hok
        cases hok
      | ok res1 =>
        cases res1 with
        | true =>
          rw [playLoop_win1 n i st hi b1 hm1]
          exact ⟨Or.inl ⟨st.placed, rfl, hfalse, rfl, rfl⟩, rfl, rfl⟩
        | false =>
          by_cases hf : i + 1 = 361
          · rw [playLoop_full n i st hi b1 hm1 hf]
            exact ⟨Or.inr (Or.inr ⟨hfalse1, rfl, rfl⟩), rfl, rfl⟩
          · rcases hm2 : st.p2.pet.makeMove b1 with ⟨r2, b2⟩
            cases r2 with
            | error e =>
              rw [playLoop_err2 n i st hi b1 hm1 hf e b2 hm2] at hok
              cases hok
            | ok res2 =>
              cases res2 with
              | true =>
                rw [playLoop_win2 n i st hi b1 hm1 hf b2 hm2]
                exact ⟨Or.inr (Or.inl ⟨_, rfl, hfalse1, rfl, rfl⟩), rfl, rfl⟩
              | false =>
                rw [playLoop_next n i st hi b1 hm1 hf b2 hm2] at hok ⊢
                have hfalse2 : ∀ e ∈ st.placed ++ [(st.p1.pet.s, false)] ++
                    [(st.p2.pet.s, false)], e.2 = false := by
                  intro e he
                  simp only [List.mem_append, List.mem_singleton] at he
                  rcases he with (he | rfl) | rfl
                  · exact hfalse e he
                  · rfl
                  · rfl
                exact ih _ _ hfalse2 hok
    · rw [playLoop_done n i st hi]
      exact ⟨Or.inr (Or.inr ⟨hfalse, rfl, rfl⟩), rfl, rfl⟩

/-- The score change of a match that returns. -/
theorem playGame_change (board : Board) (p1 p2 : NN5)
    (h : (playGame board p1 p2).1 = .ok ()) :
    ScoreChange p1 p2 (playGame board p1 p2).2 := by
  unfold ScoreChange
  rw [playGame_eq] at h ⊢
  exact (playLoop_outcome 361 0
    ⟨board, { p1 with pet := p1.pet.init 'x' }, { p2 with pet := p2.pet.init 'o' }, []⟩
    (by intro e he; cases he) h).1

/-- C4. When `playGame` returns, the scores of the two entries have changed
by `(+3, -5)` and the last placement, by the first agent (mark `'x'`), is the
only one that reported a win; or by `(-5, +3)` and the last placement, by the
second agent (mark `'o'`), is the only one that reported a win; or by
`(0, 0)` and no placement reported a win. -/
theorem playGame_score_change (board : Board) (p1 p2 : NN5)
    (h : (playGame board p1 p2).1 = .ok ()) :
    ScoreChange p1 p2 (playGame board p1 p2).2 :=
  playGame_change board p1 p2 h

/-! ## Validity by flattened index -/

theorem Board.flatten_add_row (x y : Int) : Board.flatten (x + 19) y = Board.flatten x (y + 1) := by
  unfold Board.flatten Board.size
  congr 1
  ring

/-- C20. Without overflow in `19 * y + x`, `Board::at` and `Board::makeMove`
decide validity by the flattened index `p = 19 * y + x` alone: `at(x, y)` is
the stored cell `p` when `0 ≤ p < 361` and `'-'` otherwise; `makeMove(s, x, y)`
succeeds exactly when `0 ≤ p < 361` and cell `p` is Empty, and then the board
is the old one with `s` written to cell `p`; and `at(x + 19, y) = at(x, y + 1)`
whenever `0 ≤ 19 * y + x + 19 < 361`, both being the stored cell
`19 * y + x + 19`. -/
theorem Board.validity_by_flattened_index (b : Board) (s : Char) (x y : Int)
    (hno : -2147483648 ≤ y * 19 + x ∧ y * 19 + x < 2147483648) :
    (b.at' x y = if 0 ≤ y * 19 + x ∧ y * 19 + x < 361 then b.cell (y * 19 + x) else '-') ∧
    ((∃ r, (b.makeMove s x y).1 = .ok r) ↔
      (0 ≤ y * 19 + x ∧ y * 19 + x < 361 ∧ b.cell (y * 19 + x) = '.')) ∧
    ((∃ r, (b.makeMove s x y).1 = .ok r) → (b.makeMove s x y).2 = b.set (y * 19 + x) s) ∧
    (∀ u v : Int, 0 ≤ 19 * v + u + 19 → 19 * v + u + 19 < 361 →
      b.at' (u + 19) v = b.at' u (v + 1) ∧ b.at' (u + 19) v = b.cell (19 * v + u + 19)) := by
  have hf : Board.flatten x y = y * 19 + x := by
    unfold Board.flatten Board.size
    exact wrapInt_id hno.1 hno.2
  have hmk : (∃ r, (b.makeMove s x y).1 = .ok r) ↔
      (0 ≤ y * 19 + x ∧ y * 19 + x < 361 ∧ b.cell (y * 19 + x) = '.') := by
    constructor
    · rintro ⟨r, hr⟩
      by_contra hcon
      rw [Board.makeMove_error b s x y (by
        rw [hf, Board.checkPos_iff]
        intro h
        exact hcon ⟨h.1.1, h.1.2, h.2⟩)] at hr
      cases hr
    · rintro ⟨h1, h2, h3⟩
      rw [Board.makeMove_ok b s x y (by rw [hf]; exact (Board.checkPos_iff _).2 ⟨h1, h2⟩)
        (by rw [hf]; exact h3)]
      exact ⟨_, rfl⟩
  refine ⟨?_, hmk, ?_, ?_⟩
  · unfold Board.at'
    dsimp only
    rw [hf]
    by_cases hp : 0 ≤ y * 19 + x ∧ y * 19 + x < 361
    · rw [if_pos hp, (Board.checkPos_iff _).2 hp]
      rfl
    · rw [if_neg hp]
      have : Board.checkPos (y * 19 + x) = false := by
        rw [← Bool.not_eq_true, Board.checkPos_iff]
        exact hp
      rw [this]
      rfl
  · intro h
    obtain ⟨h1, h2, h3⟩ := hmk.1 h
    rw [Board.makeMove_ok b s x y (by rw [hf]; exact (Board.checkPos_iff _).2 ⟨h1, h2⟩)
      (by rw [hf]; exact h3), hf]
  · intro u v h1 h2
    have hfu : Board.flatten (u + 19) v = 19 * v + u + 19 := by
      unfold Board.flatten Board.size
      rw [wrapInt_id (by omega) (by omega)]
      ring
    constructor
    · unfold Board.at'
      rw [Board.flatten_add_row]
    · unfold Board.at'
      dsimp only
      rw [hfu, (Board.checkPos_iff _).2 ⟨h1, h2⟩]
      rfl

theorem Board.validity_by_flattened_index_witness :
    (-2147483648 ≤ (0 : Int) * 19 + 19 ∧ (0 : Int) * 19 + 19 < 2147483648) ∧
    emptyBoard.at' 19 0 = emptyBoard.at' 0 (0 + 1) :=
  ⟨by decide,
    ((Board.validity_by_flattened_index emptyBoard 'x' 19 0 (by decide)).2.2.2 0 0
      (by decide) (by decide)).1⟩

/-! ## Symmetries of win detection -/

theorem Board.cell_xy (b : Board) (x y : Nat) (hx : x < 19) (hy : y < 19) :
    b.cell ((y : Int) * 19 + (x : Int)) = b.storage ⟨y * 19 + x, by omega⟩ := by
  rw [← Board.cell_eq_storage]
  congr 1

/-- Transport of `holds` along a map of the grid onto itself: `b'` holds at the
image `(fx x y, fy x y)` of an in-grid cell what `b` holds at `(x, y)`. -/
theorem Board.holds_transport (b b' : Board) (fx fy : Int → Int → Int)
    (hin : ∀ x y : Int, ((0 ≤ fx x y ∧ fx x y < 19) ∧ 0 ≤ fy x y ∧ fy x y < 19) ↔
      ((0 ≤ x ∧ x < 19) ∧ 0 ≤ y ∧ y < 19))
    (hcell : ∀ x y : Nat, x < 19 → y < 19 →
      b'.cell (fy x y * 19 + fx x y) = b.cell ((y : Int) * 19 + (x : Int)))
    (x y : Int) (s : Char) :
    b'.holds (fx x y) (fy x y) s ↔ b.holds x y s := by
  unfold Board.holds
  by_cases h : (0 ≤ x ∧ x < 19) ∧ 0 ≤ y ∧ y < 19
  · obtain ⟨⟨h1, h2⟩, h3, h4⟩ := h
    have h' := (hin x y).2 ⟨⟨h1, h2⟩, h3, h4⟩
    lift x to ℕ using h1
    lift y to ℕ using h3
    rw [hcell x y (by omega) (by omega)]
    constructor
    · intro hh
      exact ⟨by omega, by omega, by omega, by omega, hh.2.2.2.2⟩
    · intro hh
      exact ⟨h'.1.1, h'.1.2, h'.2.1, h'.2.2, hh.2.2.2.2⟩
  · have h' : ¬ ((0 ≤ fx x y ∧ fx x y < 19) ∧ 0 ≤ fy x y ∧ fy x y < 19) :=
      fun hh => h ((hin x y).1 hh)
    constructor
    · intro hh
      exact absurd ⟨⟨hh.1, hh.2.1⟩, hh.2.2.1, hh.2.2.2.1⟩ h'
    · intro hh
      exact absurd ⟨⟨hh.1, hh.2.1⟩, hh.2.2.1, hh.2.2.2.1⟩ h

theorem Board.holds_rot90 (b : Board) (x y : Int) (s : Char) :
    b.rot90.holds (18 - y) x s ↔ b.holds x y s := by
  apply Board.holds_transport b b.rot90 (fun _ y => 18 - y) (fun x _ => x)
  · intro x y
    constructor <;> intro h <;> omega
  · intro x y hx hy
    have e : (x : Int) * 19 + (18 - (y : Int)) = (x : Int) * 19 + ((18 - y : ℕ) : Int) := by
      omega
    rw [e, Board.cell_xy _ _ _ (by omega) hx, Board.cell_xy _ _ _ hx hy]
    unfold Board.rot90
    dsimp only
    congr 1
    apply Fin.ext
    simp only
    omega

theorem Board.holds_rot180 (b : Board) (x y : Int) (s : Char) :
    b.rot180.holds (18 - x) (18 - y) s ↔ b.holds x y s := by
  apply Board.holds_transport b b.rot180 (fun x _ => 18 - x) (fun _ y => 18 - y)
  · intro x y
    constructor <;> intro h <;> omega
  · intro x y hx hy
    have e : (18 - (y : Int)) * 19 + (18 - (x : Int)) =
        ((18 - y : ℕ) : Int) * 19 + ((18 - x : ℕ) : Int) := by
      omega
    rw [e, Board.cell_xy _ _ _ (by omega) (by omega), Board.cell_xy _ _ _ hx hy]
    unfold Board.rot180
    dsimp only
    congr 1
    apply Fin.ext
    simp only
    omega

theorem Board.holds_mirror (b : Board) (x y : Int) (s : Char) :
    b.mirror.holds y x s ↔ b.holds x y s := by
  apply Board.holds_transport b b.mirror (fun _ y => y) (fun x _ => x)
  · intro x y
    constructor <;> intro h <;> omega
  · intro x y hx hy
    rw [Board.cell_xy _ _ _ hy hx, Board.cell_xy _ _ _ hx hy]
    unfold Board.mirror
    dsimp only
    congr 1
    apply Fin.ext
    simp only
    omega

/-- The four-direction form of `fiveThrough`. -/
theorem Board.fiveThrough_dirs (b : Board) (s : Char) (x y : Int) :
    b.fiveThrough s x y ↔
      (b.runAlong s x y 1 0 ∨ b.runAlong s x y 0 1 ∨
        b.runAlong s x y 1 1 ∨ b.runAlong s x y 1 (-1)) := by
  simp only [Board.fiveThrough, winDirections, List.mem_cons, List.mem_singleton,
    List.not_mem_nil, or_false, exists_eq_or_imp, exists_eq_left]

/-- A run of `b'` through `(x', y')` along the image of a direction is a run
of `b` through `(x, y)` along the direction, when the cells correspond. -/
theorem Board.runAlong_transport (b b' : Board) (s : Char) (x y x' y' dx dy ex ey : Int)
    (h : ∀ i : Int, b'.holds (x' + ex * i) (y' + ey * i) s ↔ b.holds (x + dx * i) (y + dy * i) s) :
    b'.runAlong s x' y' ex ey ↔ b.runAlong s x y dx dy := by
  unfold Board.runAlong
  constructor
  · rintro ⟨a, h1, h2, h3⟩
    exact ⟨a, h1, h2, fun i hi1 hi2 => (h i).1 (h3 i hi1 hi2)⟩
  · rintro ⟨a, h1, h2, h3⟩
    exact ⟨a, h1, h2, fun i hi1 hi2 => (h i).2 (h3 i hi1 hi2)⟩

theorem Board.runAlong_rot90 (b : Board) (s : Char) (x y dx dy : Int) :
    b.rot90.runAlong s (18 - y) x (-dy) dx ↔ b.runAlong s x y dx dy := by
  apply Board.runAlong_transport
  intro i
  have e : 18 - y + -dy * i = 18 - (y + dy * i) := by ring
  rw [e]
  exact Board.holds_rot90 b _ _ s

theorem Board.runAlong_rot180 (b : Board) (s : Char) (x y dx dy : Int) :
    b.rot180.runAlong s (18 - x) (18 - y) (-dx) (-dy) ↔ b.runAlong s x y dx dy := by
  apply Board.runAlong_transport
  intro i
  have e1 : 18 - x + -dx * i = 18 - (x + dx * i) := by ring
  have e2 : 18 - y + -dy * i = 18 - (y + dy * i) := by ring
  rw [e1, e2]
  exact Board.holds_rot180 b _ _ s

theorem Board.runAlong_mirror (b : Board) (s : Char) (x y dx dy : Int) :
    b.mirror.runAlong s y x dy dx ↔ b.runAlong s x y dx dy := by
  apply Board.runAlong_transport
  intro i
  exact Board.holds_mirror b _ _ s

theorem Board.fiveThrough_rot90 (b : Board) (s : Char) (x y : Int) :
    b.rot90.fiveThrough s (18 - y) x ↔ b.fiveThrough s x y := by
  rw [Board.fiveThrough_dirs, Board.fiveThrough_dirs]
  have h1 : b.rot90.runAlong s (18 - y) x 0 1 ↔ b.runAlong s x y 1 0 := by
    have h := Board.runAlong_rot90 b s x y 1 0
    rw [neg_zero] at h
    exact h
  have h2 : b.rot90.runAlong s (18 - y) x 1 0 ↔ b.runAlong s x y 0 1 := by
    have h := Board.runAlong_rot90 b s x y 0 1
    have h' := Board.runAlong_neg b.rot90 s (18 - y) x 1 0
    rw [neg_zero] at h'
    exact h'.symm.trans h
  have h3 : b.rot90.runAlong s (18 - y) x 1 (-1) ↔ b.runAlong s x y 1 1 := by
    have h := Board.runAlong_rot90 b s x y 1 1
    have h' := Board.runAlong_neg b.rot90 s (18 - y) x 1 (-1)
    rw [neg_neg] at h'
    exact h'.symm.trans h
  have h4 : b.rot90.runAlong s (18 - y) x 1 1 ↔ b.runAlong s x y 1 (-1) := by
    have h := Board.runAlong_rot90 b s x y 1 (-1)
    rw [neg_neg] at h
    exact h
  rw [h1, h2, h3, h4]
  constructor <;> rintro (h | h | h | h) <;> simp only [h, true_or, or_true]

theorem Board.fiveThrough_rot180 (b : Board) (s : Char) (x y : Int) :
    b.rot180.fiveThrough s (18 - x) (18 - y) ↔ b.fiveThrough s x y := by
  rw [Board.fiveThrough_dirs, Board.fiveThrough_dirs]
  have h : ∀ dx dy : Int, b.rot180.runAlong s (18 - x) (18 - y) dx dy ↔ b.runAlong s x y dx dy := by
    intro dx dy
    rw [← Board.runAlong_neg]
    exact Board.runAlong_rot180 b s x y dx dy
  rw [h, h, h, h]

theorem Board.fiveThrough_mirror (b : Board) (s : Char) (x y : Int) :
    b.mirror.fiveThrough s y x ↔ b.fiveThrough s x y := by
  rw [Board.fiveThrough_dirs, Board.fiveThrough_dirs]
  have h1 := Board.runAlong_mirror b s x y 1 0
  have h2 := Board.runAlong_mirror b s x y 0 1
  have h3 := Board.runAlong_mirror b s x y 1 1
  have h4 : b.mirror.runAlong s y x 1 (-1) ↔ b.runAlong s x y 1 (-1) := by
    have h := Board.runAlong_mirror b s x y (-1) 1
    have h'' := Board.runAlong_neg b s x y 1 (-1)
    rw [neg_neg] at h''
    exact h.trans h''
  rw [h1, h2, h3, h4]
  constructor <;> rintro (h | h | h | h) <;> simp only [h, true_or, or_true]

/-- On an in-grid cell `checkForWin` answers whether the cell holds a mark
that has five in a row through it. -/
theorem Board.checkForWin_iff (b : Board) (x y : Int) (hx : 0 ≤ x ∧ x < 19)
    (hy : 0 ≤ y ∧ y < 19) :
    b.checkForWin x y = true ↔
      b.cell (y * 19 + x) ≠ '.' ∧ b.fiveThrough (b.cell (y * 19 + x)) x y := by
  have hf : Board.flatten x y = y * 19 + x :=
    Board.flatten_id (by omega) (by omega) (by omega) (by omega)
  by_cases hc : b.cell (y * 19 + x) = '.'
  · have : b.checkForWin x y = false := by
      simp [Board.checkForWin, hf, hc]
    rw [this]
    simp [hc]
  · rw [Board.checkForWin_eq b x y (by rw [hf]; exact hc), hf, Board.fiveThrough_iff]
    simp only [Bool.or_eq_true]
    rw [Board.scanLine_iff b _ x y (-1) (-1) hx hy (by decide) (by decide),
      Board.scanLine_iff b _ x y 0 (-1) hx hy (by decide) (by decide),
      Board.scanLine_iff b _ x y 1 (-1) hx hy (by decide) (by decide),
      Board.scanLine_iff b _ x y 1 0 hx hy (by decide) (by decide)]
    simp [hc]

theorem Board.checkForWin_transport (b b' : Board) (x y x' y' : Int)
    (hx : 0 ≤ x ∧ x < 19) (hy : 0 ≤ y ∧ y < 19) (hx' : 0 ≤ x' ∧ x' < 19) (hy' : 0 ≤ y' ∧ y' < 19)
    (hholds : ∀ s, b'.holds x' y' s ↔ b.holds x y s)
    (hfive : ∀ s, b'.fiveThrough s x' y' ↔ b.fiveThrough s x y) :
    b'.checkForWin x' y' = b.checkForWin x y := by
  have hcell : b'.cell (y' * 19 + x') = b.cell (y * 19 + x) := by
    have := (hholds (b.cell (y * 19 + x))).2 ⟨hx.1, hx.2, hy.1, hy.2, rfl⟩
    exact this.2.2.2.2
  rw [Bool.eq_iff_iff, Board.checkForWin_iff b' x' y' hx' hy', Board.checkForWin_iff b x y hx hy,
    hcell, hfive]

/-- C11. Win detection commutes with the rotation by 90 degrees
`(x, y) ↦ (18 - y, x)`, the rotation by 180 degrees `(x, y) ↦ (18 - x, 18 - y)`
and the diagonal mirror `(x, y) ↦ (y, x)`: for an in-grid cell `(x, y)` the
win check at the image cell on the transformed board gives the result of the
win check at `(x, y)` on the board. -/
theorem Board.checkForWin_symmetric (b : Board) (x y : Int)
    (hx : 0 ≤ x ∧ x < 19) (hy : 0 ≤ y ∧ y < 19) :
    b.rot90.checkForWin (18 - y) x = b.checkForWin x y ∧
    b.rot180.checkForWin (18 - x) (18 - y) = b.checkForWin x y ∧
    b.mirror.checkForWin y x = b.checkForWin x y :=
  ⟨Board.checkForWin_transport b b.rot90 x y (18 - y) x hx hy (by omega) hx
      (Board.holds_rot90 b x y) (fun s => Board.fiveThrough_rot90 b s x y),
    Board.checkForWin_transport b b.rot180 x y (18 - x) (18 - y) hx hy (by omega) (by omega)
      (Board.holds_rot180 b x y) (fun s => Board.fiveThrough_rot180 b s x y),
    Board.checkForWin_transport b b.mirror x y y x hx hy hy hx
      (Board.holds_mirror b x y) (fun s => Board.fiveThrough_mirror b s x y)⟩

theorem Board.checkForWin_symmetric_witness :
    ((0 : Int) ≤ 2 ∧ (2 : Int) < 19) ∧ ((0 : Int) ≤ 3 ∧ (3 : Int) < 19) ∧
    emptyBoard.rot90.checkForWin (18 - 3) 2 = emptyBoard.checkForWin 2 3 ∧
    emptyBoard.rot180.checkForWin (18 - 2) (18 - 3) = emptyBoard.checkForWin 2 3 ∧
    emptyBoard.mirror.checkForWin 3 2 = emptyBoard.checkForWin 2 3 :=
  ⟨by decide, by decide, Board.checkForWin_symmetric emptyBoard 2 3 (by decide) (by decide)⟩

/-! ## Mutation -/

theorem NN5Player.randf_abs_le (M v : Nat) (hM : 0 < M) (hv : v ≤ M) :
    |NN5Player.randf M v| ≤ 1 / 20 := by
  unfold NN5Player.randf
  have hM' : (0 : ℚ) < M := by exact_mod_cast hM
  have h0 : (0 : ℚ) ≤ (v : ℚ) / M := div_nonneg (by exact_mod_cast Nat.zero_le v) hM'.le
  have h1 : (v : ℚ) / M ≤ 1 := by
    rw [div_le_one hM']
    exact_mod_cast hv
  rw [abs_le]
  constructor <;> linarith

theorem NN5Player.perturb_abs_le (M : Nat) (rng : Nat → Nat) (k : Nat) (scale prob : ℚ)
    (hM : 0 < M) (hr : ∀ n, rng n ≤ M) :
    |NN5Player.perturb M rng k scale prob| ≤ 1 / 20 * |scale| := by
  unfold NN5Player.perturb NN5Player.chanceOrZero
  split
  · rw [abs_mul]
    exact mul_le_mul_of_nonneg_right (NN5Player.randf_abs_le M _ hM (hr _)) (abs_nonneg _)
  · rw [abs_zero]
    positivity

theorem NN5Player.perturb_scale_zero (M : Nat) (rng : Nat → Nat) (k : Nat) (prob : ℚ) :
    NN5Player.perturb M rng k 0 prob = 0 := by
  unfold NN5Player.perturb NN5Player.chanceOrZero
  split
  · rw [mul_zero]
  · rfl

theorem NN5Player.perturb_prob_zero (M : Nat) (rng : Nat → Nat) (k : Nat) (scale : ℚ)
    (hM : 0 < M) (hg : 0 < rng (2 * k + 1)) :
    NN5Player.perturb M rng k scale 0 = 0 := by
  unfold NN5Player.perturb NN5Player.chanceOrZero
  have hM' : (0 : ℚ) < M := by exact_mod_cast hM
  have hg' : (0 : ℚ) < (rng (2 * k + 1) : ℚ) := by exact_mod_cast hg
  rw [if_neg (not_le.2 (div_pos hg' hM'))]

theorem NN5Player.mutateFrom_within (self other : NN5Player) (ac wc prob : ℚ) (M : Nat)
    (rng : Nat → Nat) (hM : 0 < M) (hr : ∀ n, rng n ≤ M) :
    (self.mutateFrom other ac wc prob M rng).within other (1 / 20 * |ac|) (1 / 20 * |wc|) := by
  unfold NN5Player.within NN5Player.mutateFrom
  simp only [add_sub_cancel_left]
  exact ⟨NN5Player.perturb_abs_le M rng _ ac prob hM hr,
    fun i => NN5Player.perturb_abs_le M rng _ ac prob hM hr,
    fun i => NN5Player.perturb_abs_le M rng _ wc prob hM hr,
    fun i j => NN5Player.perturb_abs_le M rng _ wc prob hM hr⟩

theorem regenerate_loop (M : Nat) (rngs : Nat → Nat → Nat) (pets : List NN5) :
    ∀ m : Nat, m ≤ pets.length / 2 →
      ((List.range m).foldl (fun ps i =>
        match ps[i + pets.length / 2]?, ps[i]? with
        | some child, some parent =>
          ps.set (i + pets.length / 2)
            { child with pet := child.pet.mutateFrom parent.pet 10 10 (1 / 50) M (rngs i) }
        | _, _ => ps) pets).length = pets.length ∧
      (∀ k : Nat, (k < pets.length / 2 ∨ pets.length / 2 + m ≤ k) →
        ((List.range m).foldl (fun ps i =>
          match ps[i + pets.length / 2]?, ps[i]? with
          | some child, some parent =>
            ps.set (i + pets.length / 2)
              { child with pet := child.pet.mutateFrom parent.pet 10 10 (1 / 50) M (rngs i) }
          | _, _ => ps) pets)[k]? = pets[k]?) ∧
      (∀ i : Nat, i < m → ∃ child parent, pets[i + pets.length / 2]? = some child ∧
        pets[i]? = some parent ∧
        ((List.range m).foldl (fun ps i =>
          match ps[i + pets.length / 2]?, ps[i]? with
          | some child, some parent =>
            ps.set (i + pets.length / 2)
              { child with pet := child.pet.mutateFrom parent.pet 10 10 (1 / 50) M (rngs i) }
          | _, _ => ps) pets)[i + pets.length / 2]? =
          some { child with
            pet := child.pet.mutateFrom parent.pet 10 10 (1 / 50) M (rngs i) }) := by
  intro m
  induction m with
  | zero =>
    intro _
    refine ⟨rfl, fun k _ => rfl, fun i hi => absurd hi (Nat.not_lt_zero i)⟩
  | succ m ih =>
    intro hm
    obtain ⟨hlen, hframe, hdone⟩ := ih (by omega)
    rw [List.range_succ, List.foldl_append, List.foldl_cons, List.foldl_nil]
    have hc : m + pets.length / 2 < pets.length := by omega
    have hp : m < pets.length := by omega
    rw [hframe (m + pets.length / 2) (Or.inr (by omega)), hframe m (Or.inl (by omega)),
      List.getElem?_eq_getElem hc, List.getElem?_eq_getElem hp]
    dsimp only
    refine ⟨by rw [List.length_set, hlen], ?_, ?_⟩
    · intro k hk
      rw [List.getElem?_set_ne (by omega)]
      exact hframe k (by omega)
    · intro i hi
      by_cases him : i = m
      · subst him
        refine ⟨_, _, List.getElem?_eq_getElem hc, List.getElem?_eq_getElem hp, ?_⟩
        rw [List.getElem?_set_self (by rw [hlen]; exact hc)]
      · obtain ⟨child, parent, h1, h2, h3⟩ := hdone i (by omega)
        refine ⟨child, parent, h1, h2, ?_⟩
        rw [List.getElem?_set_ne (by omega)]
        exact h3

/-- C14. The regeneration step on a population of size `N` keeps the size,
leaves the entries at the indices below `N / 2` and from `2 * (N / 2)` on (the
last entry when `N` is odd) as they were, leaves every entry's score as it
was, and makes the agent at index `i + N / 2`, for `i < N / 2`, the result of
`mutateFrom` from the agent at index `i`. -/
theorem regenerate_frame (M : Nat) (rngs : Nat → Nat → Nat) (pets : List NN5) :
    (regenerate M rngs pets).length = pets.length ∧
    (∀ k : Nat, k < pets.length / 2 → (regenerate M rngs pets)[k]? = pets[k]?) ∧
    (∀ k : Nat, 2 * (pets.length / 2) ≤ k → (regenerate M rngs pets)[k]? = pets[k]?) ∧
    (∀ k : Nat, ((regenerate M rngs pets)[k]?).map NN5.score = (pets[k]?).map NN5.score) ∧
    (∀ i : Nat, i < pets.length / 2 → ∃ child parent, pets[i + pets.length / 2]? = some child ∧
      pets[i]? = some parent ∧
      (regenerate M rngs pets)[i + pets.length / 2]? =
        some { child with
          pet := child.pet.mutateFrom parent.pet 10 10 (1 / 50) M (rngs i) }) := by
  obtain ⟨hlen, hframe, hdone⟩ := regenerate_loop M rngs pets (pets.length / 2) (le_refl _)
  refine ⟨hlen, fun k hk => hframe k (Or.inl hk), fun k hk => hframe k (Or.inr (by omega)),
    ?_, hdone⟩
  intro k
  by_cases hk : k < pets.length / 2 ∨ pets.length / 2 + pets.length / 2 ≤ k
  · unfold regenerate
    rw [hframe k hk]
  · obtain ⟨child, parent, h1, _, h3⟩ := hdone (k - pets.length / 2) (by omega)
    have e : k - pets.length / 2 + pets.length / 2 = k := by omega
    rw [e] at h1 h3
    unfold regenerate
    rw [h3, h1]
    rfl

/-- C15. Whatever the draws (each `rand()` value in `[0, RAND_MAX]`),
`mutateFrom` gives a child whose `ar` and `a[c]` are within `0.05 * |ac|` and
whose `wr[c]` and weights are within `0.05 * |wc|` of the parent's, so within
the configured scales; a scale `0` leaves the parameters of its group equal
to the parent's; and after the regeneration step the agent at index
`i + N / 2` is within `0.5` per parameter of the agent at index `i`. -/
theorem NN5Player.mutateFrom_bounded (self other : NN5Player) (ac wc prob : ℚ) (M : Nat)
    (rng : Nat → Nat) (hM : 0 < M) (hr : ∀ n, rng n ≤ M) :
    (self.mutateFrom other ac wc prob M rng).within other (1 / 20 * |ac|) (1 / 20 * |wc|) ∧
    (self.mutateFrom other ac wc prob M rng).within other |ac| |wc| ∧
    (ac = 0 → (self.mutateFrom other ac wc prob M rng).ar = other.ar ∧
      (self.mutateFrom other ac wc prob M rng).a = other.a) ∧
    (wc = 0 → (self.mutateFrom other ac wc prob M rng).wr = other.wr ∧
      (self.mutateFrom other ac wc prob M rng).w = other.w) ∧
    (∀ (rngs : Nat → Nat → Nat) (pets : List NN5), (∀ i n, rngs i n ≤ M) →
      ∀ i : Nat, i < pets.length / 2 → ∃ child parent,
        (regenerate M rngs pets)[i + pets.length / 2]? = some child ∧
        (regenerate M rngs pets)[i]? = some parent ∧
        child.pet.within parent.pet (1 / 2) (1 / 2)) := by
  have hw := NN5Player.mutateFrom_within self other ac wc prob M rng hM hr
  refine ⟨hw, ?_, ?_, ?_, ?_⟩
  · have ha : 1 / 20 * |ac| ≤ |ac| := by nlinarith [abs_nonneg ac]
    have hb : 1 / 20 * |wc| ≤ |wc| := by nlinarith [abs_nonneg wc]
    exact ⟨hw.1.trans ha, fun i => (hw.2.1 i).trans ha, fun i => (hw.2.2.1 i).trans hb,
      fun i j => (hw.2.2.2 i j).trans hb⟩
  · rintro rfl
    unfold NN5Player.mutateFrom
    simp only [NN5Player.perturb_scale_zero, add_zero, and_self]
  · rintro rfl
    unfold NN5Player.mutateFrom
    simp only [NN5Player.perturb_scale_zero, add_zero, and_self]
  · intro rngs pets hrs i hi
    obtain ⟨_, htop, _, _, hdone⟩ := regenerate_frame M rngs pets
    obtain ⟨child, parent, _, h2, h3⟩ := hdone i hi
    refine ⟨_, parent, h3, by rw [htop i hi, h2], ?_⟩
    have := NN5Player.mutateFrom_within child.pet parent.pet 10 10 (1 / 50) M (rngs i) hM (hrs i)
    have e : (1 : ℚ) / 20 * |(10 : ℚ)| = 1 / 2 := by norm_num
    rw [e] at this
    exact this

theorem NN5Player.mutateFrom_bounded_witness :
    (0 < 32767 ∧ ∀ n, zeroGateDraws n ≤ 32767) ∧
    (edgeAgent.mutateFrom edgeAgent 10 10 (1 / 50) 32767 zeroGateDraws).within edgeAgent
      (1 / 20 * |10|) (1 / 20 * |10|) :=
  ⟨⟨by decide, fun n => by unfold zeroGateDraws; split <;> decide⟩,
    (NN5Player.mutateFrom_bounded edgeAgent edgeAgent 10 10 (1 / 50) 32767 zeroGateDraws
      (by decide) (fun n => by unfold zeroGateDraws; split <;> decide)).1⟩

/-- C16 (counterexample). With probability `0`, `RAND_MAX = 32767`, scale
`ac = 10` and the draws `32767` (value) and `0` (gate) for `ar`, the gate test
`r <= prob` is `0 <= 0`, the perturbation `0.05 * 10` is applied and the
child's `ar` is `1/2`, not the parent's `0`. -/
theorem NN5Player.mutateFrom_prob_zero_changes :
    (∀ n, zeroGateDraws n ≤ 32767) ∧ edgeAgent.ar = 0 ∧
    (edgeAgent.mutateFrom edgeAgent 10 10 0 32767 zeroGateDraws).ar = 1 / 2 ∧
    ¬ (edgeAgent.mutateFrom edgeAgent 10 10 0 32767 zeroGateDraws).sameParams edgeAgent := by
  have har : (edgeAgent.mutateFrom edgeAgent 10 10 0 32767 zeroGateDraws).ar = 1 / 2 := by
    simp [NN5Player.mutateFrom, NN5Player.perturb, NN5Player.chanceOrZero, NN5Player.randf,
      zeroGateDraws, edgeAgent]
    norm_num
  refine ⟨fun n => by unfold zeroGateDraws; split <;> decide, rfl, har, ?_⟩
  intro h
  have := h.1
  rw [har] at this
  norm_num [edgeAgent] at this

/-- C16 (amended). Mutation with probability `0` yields a child equal to
the parent in all 82 parameters for every parent, every pair of scales and
every outcome of the draws in which no gate draw is `0`. -/
theorem NN5Player.mutateFrom_prob_zero (self other : NN5Player) (ac wc : ℚ) (M : Nat)
    (rng : Nat → Nat) (hM : 0 < M) (hg : ∀ k, 0 < rng (2 * k + 1)) :
    (self.mutateFrom other ac wc 0 M rng).sameParams other := by
  unfold NN5Player.sameParams NN5Player.mutateFrom
  simp only [NN5Player.perturb_prob_zero M rng _ _ hM (hg _), add_zero, and_self]

theorem NN5Player.mutateFrom_prob_zero_witness :
    (0 < 32767 ∧ ∀ k, 0 < unitDraws (2 * k + 1)) ∧
    (edgeAgent.mutateFrom edgeAgent 10 10 0 32767 unitDraws).sameParams edgeAgent :=
  ⟨⟨by decide, fun _ => Nat.zero_lt_one⟩,
    NN5Player.mutateFrom_prob_zero edgeAgent edgeAgent 10 10 32767 unitDraws (by decide)
      (fun _ => Nat.zero_lt_one)⟩

/-! ## Seed parser and dump -/

theorem readSlots_append (l1 l2 : List Slot) (acc : NN5Player × IStream) :
    readSlots (l1 ++ l2) acc = readSlots l2 (readSlots l1 acc) := by
  unfold readSlots
  rw [List.foldl_append]

theorem readSlots_cons (s : Slot) (l : List Slot) (acc : NN5Player × IStream) :
    readSlots (s :: l) acc =
      readSlots l ((acc.1.put s (acc.2.read (acc.1.get s)).1), (acc.2.read (acc.1.get s)).2) := by
  rfl

theorem readSlots_nil (acc : NN5Player × IStream) : readSlots [] acc = acc := rfl

theorem parse_inner (i : Fin 3) (l : List (Fin 25)) :
    ∀ acc : NN5Player × IStream,
      l.foldl (fun (acc : NN5Player × IStream) j =>
        ({ acc.1 with
            w := Function.update acc.1.w i (Function.update (acc.1.w i) j (acc.2.read (acc.1.w i j)).1) },
          (acc.2.read (acc.1.w i j)).2)) acc =
      readSlots (l.map (Slot.w i)) acc := by
  induction l with
  | nil => intro acc; rfl
  | cons j js ih =>
    intro acc
    rw [List.foldl_cons, ih, List.map_cons, readSlots_cons]
    rfl

theorem NN5Player.parseChannel_eq (acc : NN5Player × IStream) (i : Fin 3) :
    NN5Player.parseChannel acc i = readSlots (slotsOf i) acc := by
  unfold NN5Player.parseChannel NN5Player.parseWeights slotsOf
  dsimp only
  rw [parse_inner, readSlots_append, readSlots_cons, readSlots_cons, readSlots_nil]
  rfl

theorem NN5Player.parse_eq_readSlots (init : NN5Player) (st : IStream) :
    NN5Player.parse init st = readSlots slots (init, st) := by
  unfold NN5Player.parse slots
  rw [finRange_three]
  simp only [List.foldl_cons, List.foldl_nil, NN5Player.parseChannel_eq]
  rw [readSlots_append, readSlots_append, readSlots_append, readSlots_cons, readSlots_nil]
  rfl

theorem foldl_snoc_eq_map {α β : Type} (f : α → β) (l : List α) :
    ∀ out : List β, l.foldl (fun out j => out ++ [f j]) out = out ++ l.map f := by
  induction l with
  | nil => intro out; simp
  | cons x xs ih =>
    intro out
    rw [List.foldl_cons, ih, List.map_cons, List.append_assoc]
    rfl

theorem NN5Player.dump_eq_map (p : NN5Player) : p.dump = slots.map p.get := by
  unfold NN5Player.dump slots slotsOf
  rw [finRange_three]
  simp only [List.foldl_cons, List.foldl_nil, foldl_snoc_eq_map, List.map_append, List.map_cons,
    List.map_nil, List.map_map, List.append_assoc, List.singleton_append, List.cons_append,
    List.nil_append]
  rfl

theorem NN5Player.get_put_self (p : NN5Player) (s : Slot) (v : ℚ) : (p.put s v).get s = v := by
  cases s <;> simp [NN5Player.put, NN5Player.get]

theorem NN5Player.get_put_ne (p : NN5Player) (s t : Slot) (v : ℚ) (h : s ≠ t) :
    (p.put s v).get t = p.get t := by
  cases s with
  | ar =>
    cases t with
    | ar => exact absurd rfl h
    | a i => rfl
    | wr i => rfl
    | w i j => rfl
  | a i =>
    cases t with
    | ar => rfl
    | a k =>
      have hik : k ≠ i := fun e => h (by rw [e])
      simp [NN5Player.put, NN5Player.get, Function.update_noteq hik]
    | wr k => rfl
    | w k j => rfl
  | wr i =>
    cases t with
    | ar => rfl
    | a k => rfl
    | wr k =>
      have hik : k ≠ i := fun e => h (by rw [e])
      simp [NN5Player.put, NN5Player.get, Function.update_noteq hik]
    | w k j => rfl
  | w i j =>
    cases t with
    | ar => rfl
    | a k => rfl
    | wr k => rfl
    | w k m =>
      by_cases hik : k = i
      · subst hik
        have hjm : m ≠ j := fun e => h (by rw [e])
        simp [NN5Player.put, NN5Player.get, Function.update_noteq hjm]
      · simp [NN5Player.put, NN5Player.get, Function.update_noteq hik]

theorem NN5Player.put_get (p : NN5Player) (s : Slot) : p.put s (p.get s) = p := by
  cases s <;> simp [NN5Player.put, NN5Player.get]

theorem readSlots_failed (ss : List Slot) :
    ∀ (p : NN5Player) (l : List Token), readSlots ss (p, ⟨l, true⟩) = (p, ⟨l, true⟩) := by
  induction ss with
  | nil => intro p l; rfl
  | cons s ss ih =>
    intro p l
    rw [readSlots_cons]
    simp only [IStream.read, if_true, NN5Player.put_get]
    exact ih p l

/-- Reading a list of slots from a stream that has not failed: the slots get
the values the extractions store, in order, as far as there are values. -/
theorem readSlots_eq (ss : List Slot) :
    ∀ (p : NN5Player) (l : List Token),
      readSlots ss (p, ⟨l, false⟩) =
        (p.putAll (ss.zip (readValues l)), afterReads ss.length l) := by
  induction ss with
  | nil =>
    intro p l
    simp [readSlots_nil, NN5Player.putAll, afterReads]
  | cons s ss ih =>
    intro p l
    rw [readSlots_cons]
    cases l with
    | nil =>
      simp only [IStream.read, Bool.false_eq_true, if_false, NN5Player.put_get]
      rw [readSlots_failed]
      simp [NN5Player.putAll, readValues, afterReads]
    | cons t ts =>
      cases t with
      | num q =>
        simp only [IStream.read, Bool.false_eq_true, if_false]
        rw [ih]
        simp [NN5Player.putAll, readValues, afterReads]
      | bad v =>
        simp only [IStream.read, Bool.false_eq_true, if_false]
        rw [readSlots_failed]
        cases ss <;> simp [NN5Player.putAll, readValues, afterReads]

theorem NN5Player.get_putAll_not_mem (zs : List (Slot × ℚ)) :
    ∀ (p : NN5Player) (s : Slot), s ∉ zs.map Prod.fst → (p.putAll zs).get s = p.get s := by
  induction zs with
  | nil => intro p s _; rfl
  | cons z zs ih =>
    intro p s hs
    simp only [List.map_cons, List.mem_cons, not_or] at hs
    show ((p.put z.1 z.2).putAll zs).get s = p.get s
    rw [ih _ s hs.2, NN5Player.get_put_ne _ _ _ _ (fun e => hs.1 e.symm)]

theorem zip_fst_subset (ss : List Slot) (l : List ℚ) (s : Slot)
    (h : s ∈ (ss.zip l).map Prod.fst) : s ∈ ss := by
  obtain ⟨z, hz, rfl⟩ := List.mem_map.1 h
  exact (List.of_mem_zip hz).1

/-- The parameters, in slot order, of an agent after the tokens `l` have
been put into the slots `ss`: the tokens as far as they go, then the old
values. -/
theorem NN5Player.map_get_putAll (ss : List Slot) :
    ∀ (p : NN5Player) (l : List ℚ), ss.Nodup →
      ss.map (p.putAll (ss.zip l)).get = l.take ss.length ++ (ss.map p.get).drop l.length := by
  induction ss with
  | nil => intro p l _; simp
  | cons s ss ih =>
    intro p l hnd
    have hs : s ∉ ss := (List.nodup_cons.1 hnd).1
    cases l with
    | nil => simp [NN5Player.putAll]
    | cons t ts =>
      have hhead : ((p.put s t).putAll (ss.zip ts)).get s = t := by
        rw [NN5Player.get_putAll_not_mem _ _ _ (fun h => hs (zip_fst_subset ss ts s h)),
          NN5Player.get_put_self]
      have htail : ss.map (p.put s t).get = ss.map p.get := by
        apply List.map_congr_left
        intro u hu
        exact NN5Player.get_put_ne p s u t (fun e => hs (e ▸ hu))
      show ((p.put s t).putAll (ss.zip ts)).get s ::
          ss.map ((p.put s t).putAll (ss.zip ts)).get = _
      rw [hhead, ih (p.put s t) ts (List.nodup_cons.1 hnd).2, htail]
      simp

theorem slots_length : slots.length = 82 := by
  simp [slots, slotsOf]

theorem slots_nodup : slots.Nodup := by
  decide

theorem mem_slots (s : Slot) : s ∈ slots := by
  cases s with
  | ar => simp [slots]
  | a i => fin_cases i <;> simp [slots, slotsOf]
  | wr i => fin_cases i <;> simp [slots, slotsOf]
  | w i j => fin_cases i <;> simp [slots, slotsOf, List.mem_map]

theorem NN5Player.sameParams_of_get (p q : NN5Player) (h : ∀ s, p.get s = q.get s) :
    p.sameParams q :=
  ⟨h .ar, funext fun i => h (.a i), funext fun i => h (.wr i),
    funext fun i => funext fun j => h (.w i j)⟩

theorem NN5Player.dump_length (p : NN5Player) : p.dump.length = 82 := by
  rw [NN5Player.dump_eq_map, List.length_map, slots_length]

/-- What the constructor does with the tokens `l`. -/
theorem NN5Player.parse_spec (init : NN5Player) (l : List Token) :
    (NN5Player.parse init ⟨l, false⟩).2 = afterReads 82 l ∧
    (NN5Player.parse init ⟨l, false⟩).1.dump =
      (readValues l).take 82 ++ init.dump.drop (readValues l).length := by
  rw [NN5Player.parse_eq_readSlots, readSlots_eq, NN5Player.dump_eq_map, NN5Player.dump_eq_map,
    NN5Player.map_get_putAll slots init (readValues l) slots_nodup, slots_length]
  exact ⟨rfl, rfl⟩

theorem readValues_nums (ns : List ℚ) (rest : List Token) :
    readValues (ns.map Token.num ++ rest) = ns ++ readValues rest := by
  induction ns with
  | nil => rfl
  | cons n ns ih =>
    show n :: readValues (ns.map Token.num ++ rest) = n :: (ns ++ readValues rest)
    rw [ih]

theorem afterReads_nums (ns : List ℚ) (rest : List Token) :
    ∀ n, afterReads (ns.length + n) (ns.map Token.num ++ rest) = afterReads n rest := by
  induction ns with
  | nil =>
    intro n
    rw [List.length_nil, Nat.zero_add]
    rfl
  | cons q ns ih =>
    intro n
    have e : (q :: ns).length + n = (ns.length + n) + 1 := by
      rw [List.length_cons]
      omega
    rw [e]
    exact ih n

/-- The input starts with 82 tokens that convert. -/
theorem NN5Player.parse_ge (init : NN5Player) (ns : List ℚ) (rest : List Token)
    (h : ns.length = 82) :
    (NN5Player.parse init ⟨ns.map Token.num ++ rest, false⟩).2 = ⟨rest, false⟩ ∧
    (NN5Player.parse init ⟨ns.map Token.num ++ rest, false⟩).1.dump = ns := by
  obtain ⟨h1, h2⟩ := NN5Player.parse_spec init (ns.map Token.num ++ rest)
  have ha := afterReads_nums ns rest 0
  rw [Nat.add_zero, h] at ha
  rw [h1, h2, ha, readValues_nums, List.take_append_of_le_length (by omega),
    List.take_of_length_le (by omega),
    List.drop_eq_nil_of_le (by rw [init.dump_length, List.length_append]; omega),
    List.append_nil]
  exact ⟨rfl, rfl⟩

/-- The input ends after fewer than 82 tokens that convert. -/
theorem NN5Player.parse_short (init : NN5Player) (ns : List ℚ) (h : ns.length < 82) :
    (NN5Player.parse init ⟨ns.map Token.num, false⟩).2 = ⟨[], true⟩ ∧
    (NN5Player.parse init ⟨ns.map Token.num, false⟩).1.dump =
      ns ++ init.dump.drop ns.length := by
  obtain ⟨h1, h2⟩ := NN5Player.parse_spec init (ns.map Token.num)
  have hv : readValues (ns.map Token.num) = ns := by
    have := readValues_nums ns []
    rw [List.append_nil] at this
    rw [this]
    exact List.append_nil ns
  have ha : afterReads 82 (ns.map Token.num) = ⟨[], true⟩ := by
    have := afterReads_nums ns [] (82 - ns.length)
    rw [List.append_nil, show ns.length + (82 - ns.length) = 82 by omega] at this
    rw [this, show 82 - ns.length = (82 - ns.length - 1) + 1 by omega]
    rfl
  rw [h1, h2, ha, hv, List.take_of_length_le (by omega)]
  exact ⟨rfl, rfl⟩

/-- A token that does not convert follows fewer than 82 tokens that convert. -/
theorem NN5Player.parse_bad (init : NN5Player) (ns : List ℚ) (v : ℚ) (rest : List Token)
    (h : ns.length < 82) :
    (NN5Player.parse init ⟨ns.map Token.num ++ Token.bad v :: rest, false⟩).2 =
      ⟨Token.bad v :: rest, true⟩ ∧
    (NN5Player.parse init ⟨ns.map Token.num ++ Token.bad v :: rest, false⟩).1.dump =
      ns ++ [v] ++ init.dump.drop (ns.length + 1) := by
  obtain ⟨h1, h2⟩ := NN5Player.parse_spec init (ns.map Token.num ++ Token.bad v :: rest)
  have hv : readValues (ns.map Token.num ++ Token.bad v :: rest) = ns ++ [v] :=
    readValues_nums ns _
  have ha : afterReads 82 (ns.map Token.num ++ Token.bad v :: rest) =
      ⟨Token.bad v :: rest, true⟩ := by
    have := afterReads_nums ns (Token.bad v :: rest) (82 - ns.length)
    rw [show ns.length + (82 - ns.length) = 82 by omega] at this
    rw [this, show 82 - ns.length = (82 - ns.length - 1) + 1 by omega]
    rfl
  rw [h1, h2, ha, hv, List.take_of_length_le (by rw [List.length_append]; simp; omega),
    List.length_append, List.length_singleton]
  exact ⟨rfl, rfl⟩

theorem seedPets_eq (init : NN5Player) (saved : List (List Token)) :
    seedPets init saved =
      saved.map fun toks => ⟨(NN5Player.parse init ⟨toks, false⟩).1, 0⟩ := by
  unfold seedPets
  have := foldl_snoc_eq_map
    (fun toks : List Token => (⟨(NN5Player.parse init ⟨toks, false⟩).1, 0⟩ : NN5)) saved []
  rw [List.nil_append] at this
  exact this

theorem NN5Player.dump_order (p : NN5Player) :
    p.dump = [p.ar] ++
      ([p.a 0, p.wr 0] ++ (List.finRange 25).map (p.w 0)) ++
      ([p.a 1, p.wr 1] ++ (List.finRange 25).map (p.w 1)) ++
      ([p.a 2, p.wr 2] ++ (List.finRange 25).map (p.w 2)) := by
  unfold NN5Player.dump
  rw [finRange_three]
  simp only [List.foldl_cons, List.foldl_nil, foldl_snoc_eq_map, List.append_assoc]
  rfl

theorem map_eq_pointwise (ss : List Slot) (f g : Slot → ℚ) (h : ss.map f = ss.map g)
    (s : Slot) (hs : s ∈ ss) : f s = g s :=
  List.map_inj_left.1 h s hs

/-- C18. The dump writes 82 numbers in the order `ar`, then for each channel
`a[c]`, `wr[c]` and the 25 weights `w[c][0..24]`; the seed parser reads in the
same order: parsing the dumped sequence (whatever follows it) gives an agent
with the same 82 parameters and consumes exactly the dumped numbers, and
dumping the agent parsed from any 82 numbers gives these numbers back. -/
theorem NN5Player.parse_dump_roundtrip (p init : NN5Player) (rest : List Token)
    (l : List ℚ) :
    p.dump = [p.ar] ++
      ([p.a 0, p.wr 0] ++ (List.finRange 25).map (p.w 0)) ++
      ([p.a 1, p.wr 1] ++ (List.finRange 25).map (p.w 1)) ++
      ([p.a 2, p.wr 2] ++ (List.finRange 25).map (p.w 2)) ∧
    p.dump.length = 82 ∧
    (NN5Player.parse init ⟨p.dump.map Token.num ++ rest, false⟩).1.sameParams p ∧
    (NN5Player.parse init ⟨p.dump.map Token.num ++ rest, false⟩).2 = ⟨rest, false⟩ ∧
    (l.length = 82 → (NN5Player.parse init ⟨l.map Token.num, false⟩).1.dump = l) := by
  have hlen := p.dump_length
  obtain ⟨h1, h2⟩ := NN5Player.parse_ge init p.dump rest hlen
  refine ⟨?_, hlen, ?_, h1, ?_⟩
  · exact p.dump_order
  · have h3 : slots.map (NN5Player.parse init ⟨p.dump.map Token.num ++ rest, false⟩).1.get =
        slots.map p.get := by
      rw [← NN5Player.dump_eq_map, ← NN5Player.dump_eq_map, h2]
    exact NN5Player.sameParams_of_get _ _
      (fun s => map_eq_pointwise slots _ _ h3 s (mem_slots s))
  · intro hl
    have := (NN5Player.parse_ge init l [] hl).2
    rw [List.append_nil] at this
    exact this

/-- C19 (the claim fails as worded). On an input with no token the
constructor returns an agent, the object's indeterminate values untouched,
with the stream in fail state, and the seeding loop stores this agent in the
population: no error is raised. On the input `1 2 x` the third extraction
fails and stores `0` in `wr[0]`, which held `1`. -/
theorem NN5Player.parse_empty_returns_agent :
    (NN5Player.parse edgeAgent ⟨[], false⟩).1.dump = edgeAgent.dump ∧
    (NN5Player.parse edgeAgent ⟨[], false⟩).2 = ⟨[], true⟩ ∧
    seedPets edgeAgent [[]] = [⟨(NN5Player.parse edgeAgent ⟨[], false⟩).1, 0⟩] ∧
    edgeAgent.wr 0 = 1 ∧
    (NN5Player.parse edgeAgent ⟨[Token.num 1, Token.num 2, Token.bad 0], false⟩).1.dump =
      [1, 2, 0] ++ edgeAgent.dump.drop 3 ∧
    (NN5Player.parse edgeAgent ⟨[Token.num 1, Token.num 2, Token.bad 0], false⟩).2.failed =
      true := by
  obtain ⟨h1, h2⟩ := NN5Player.parse_short edgeAgent [] (by decide)
  obtain ⟨h3, h4⟩ := NN5Player.parse_bad edgeAgent [1, 2] 0 [] (by decide)
  refine ⟨h2, h1, rfl, by simp [edgeAgent], h4, ?_⟩
  have h3' : (NN5Player.parse edgeAgent
      ⟨[Token.num 1, Token.num 2, Token.bad 0], false⟩).2 = ⟨[Token.bad 0], true⟩ := h3
  rw [h3']

/-- C19 (amended). The constructor consumes exactly 82 tokens when the input
starts with at least 82 tokens that convert, the agent's parameters being
these tokens in order. With fewer it does not fail: at the end of the input
it leaves the stream in fail state and returns an agent whose first
parameters are the tokens read and whose other parameters keep the object's
indeterminate values; at a token that does not convert it leaves the stream
in fail state and returns an agent whose first parameters are the tokens
read, whose next parameter is the value the failed conversion stores and
whose other parameters keep the object's indeterminate values. The seeding
loop of `main` stores the agent the constructor returns, with score `0`, for
every saved input. -/
theorem NN5Player.parse_consumes (init : NN5Player) (ns : List ℚ) (v : ℚ)
    (rest : List Token) (saved : List (List Token)) :
    (ns.length = 82 →
      (NN5Player.parse init ⟨ns.map Token.num ++ rest, false⟩).2 = ⟨rest, false⟩ ∧
      (NN5Player.parse init ⟨ns.map Token.num ++ rest, false⟩).1.dump = ns) ∧
    (ns.length < 82 →
      (NN5Player.parse init ⟨ns.map Token.num, false⟩).2 = ⟨[], true⟩ ∧
      (NN5Player.parse init ⟨ns.map Token.num, false⟩).1.dump =
        ns ++ init.dump.drop ns.length) ∧
    (ns.length < 82 →
      (NN5Player.parse init ⟨ns.map Token.num ++ Token.bad v :: rest, false⟩).2 =
        ⟨Token.bad v :: rest, true⟩ ∧
      (NN5Player.parse init ⟨ns.map Token.num ++ Token.bad v :: rest, false⟩).1.dump =
        ns ++ [v] ++ init.dump.drop (ns.length + 1)) ∧
    seedPets init saved =
      saved.map (fun toks => ⟨(NN5Player.parse init ⟨toks, false⟩).1, 0⟩) ∧
    (seedPets init saved).length = saved.length :=
  ⟨NN5Player.parse_ge init ns rest, NN5Player.parse_short init ns,
    NN5Player.parse_bad init ns v rest, seedPets_eq init saved,
    by rw [seedPets_eq, List.length_map]⟩

theorem NN5Player.parse_consumes_witness :
    edgeAgent.dump.length = 82 ∧
    (NN5Player.parse edgeAgent
      ⟨edgeAgent.dump.map Token.num ++ [Token.num 7], false⟩).2 = ⟨[Token.num 7], false⟩ ∧
    (NN5Player.parse edgeAgent
      ⟨edgeAgent.dump.map Token.num ++ [Token.num 7], false⟩).1.dump = edgeAgent.dump :=
  ⟨edgeAgent.dump_length,
    (NN5Player.parse_consumes edgeAgent edgeAgent.dump 0 [Token.num 7] []).1
      edgeAgent.dump_length⟩

/-! ## Ranking -/

theorem byScore_strictWeakOrder : StrictWeakOrder byScore := by
  refine ⟨?_, ?_, ?_⟩
  · intro a
    simp [byScore]
  · intro a b c h1 h2
    simp only [byScore, decide_eq_true_eq, gt_iff_lt] at *
    omega
  · intro a b c h1 h2 h3 h4
    simp only [byScore, decide_eq_false_iff_not, gt_iff_lt, not_lt] at *
    constructor <;> omega

theorem insertionSort_contract (l : List NN5) (comp : NN5 → NN5 → Bool)
    (h : StrictWeakOrder comp) :
    (l.insertionSort (fun a b => comp b a = false)).Perm l ∧
    (l.insertionSort (fun a b => comp b a = false)).Pairwise (fun a b => comp b a = false) := by
  obtain ⟨hirr, htr, hinc⟩ := h
  have hasym : ∀ a b, comp a b = true → comp b a = false := by
    intro a b hab
    by_contra hba
    have := htr a b a hab (by simpa using hba)
    rw [hirr a] at this
    cases this
  haveI : IsTotal NN5 (fun a b => comp b a = false) := ⟨by
    intro a b
    by_cases hba : comp b a = true
    · exact Or.inr (hasym b a hba)
    · exact Or.inl (by simpa using hba)⟩
  haveI : IsTrans NN5 (fun a b => comp b a = false) := ⟨by
    intro a b c hab hbc
    show comp c a = false
    by_contra hca
    have hca' : comp c a = true := by simpa using hca
    have h1 : comp a b = false := by
      by_contra hab'
      have := htr c a b hca' (by simpa using hab')
      rw [hbc] at this
      cases this
    have h2 : comp b c = false := by
      by_contra hbc'
      have := htr b c a (by simpa using hbc') hca'
      rw [hab] at this
      cases this
    have := (hinc a b c h1 hab h2 hbc).2
    rw [hca'] at this
    cases this⟩
  exact ⟨List.perm_insertionSort _ l, List.sorted_insertionSort _ l⟩

theorem insertionSortBy_contract : StdSortContract insertionSortBy :=
  fun comp h l => insertionSort_contract l comp h

theorem reversingSortBy_contract : StdSortContract reversingSortBy := by
  intro comp h l
  obtain ⟨h1, h2⟩ := insertionSort_contract l.reverse comp h
  exact ⟨h1.trans (List.reverse_perm l), h2⟩

/-- What the contract of `std::sort` gives for the ranking step. -/
theorem rank_spec (sort : (NN5 → NN5 → Bool) → List NN5 → List NN5)
    (hsort : StdSortContract sort) (pets : List NN5) :
    (rank sort pets).Perm pets ∧
    (rank sort pets).Pairwise (fun a b => b.score ≤ a.score) := by
  obtain ⟨h1, h2⟩ := hsort byScore byScore_strictWeakOrder pets
  refine ⟨h1, h2.imp ?_⟩
  intro a b hab
  simpa [byScore] using hab

/-- C12. After the ranking step the population is a permutation of the
population before the step, of the same size, and its scores are in
non-increasing order, for every `std::sort` that keeps the contract of the
C++ standard. -/
theorem rank_sorted_perm (sort : (NN5 → NN5 → Bool) → List NN5 → List NN5)
    (hsort : StdSortContract sort) (pets : List NN5) :
    (rank sort pets).Perm pets ∧ (rank sort pets).length = pets.length ∧
    (rank sort pets).Pairwise (fun a b => a.score ≥ b.score) :=
  ⟨(rank_spec sort hsort pets).1, (rank_spec sort hsort pets).1.length_eq,
    (rank_spec sort hsort pets).2⟩

theorem rank_sorted_perm_witness :
    StdSortContract insertionSortBy ∧
    ((rank insertionSortBy tiedPets).Perm tiedPets ∧
      (rank insertionSortBy tiedPets).length = tiedPets.length ∧
      (rank insertionSortBy tiedPets).Pairwise (fun a b => a.score ≥ b.score)) :=
  ⟨insertionSortBy_contract, rank_sorted_perm insertionSortBy insertionSortBy_contract tiedPets⟩

/-- C13 (counterexample). A `std::sort` within the contract of the C++
standard, insertion sort of the reversed range, ranks the two entries of
`tiedPets`, which have equal scores, in the opposite order. -/
theorem rank_not_stable :
    StdSortContract reversingSortBy ∧
    rank reversingSortBy tiedPets = tiedPets.reverse ∧
    (rank reversingSortBy tiedPets).filter (fun a => decide (a.score = 0)) ≠
      tiedPets.filter (fun a => decide (a.score = 0)) := by
  have hr : rank reversingSortBy tiedPets = tiedPets.reverse := by
    simp [rank, reversingSortBy, tiedPets, List.insertionSort, List.orderedInsert, byScore]
  refine ⟨reversingSortBy_contract, hr, ?_⟩
  rw [hr]
  simp only [tiedPets, List.reverse_cons, List.reverse_nil, List.nil_append, List.singleton_append,
    List.filter_cons, decide_True, if_true, List.filter_nil, ne_eq, List.cons.injEq, and_true]
  intro h
  have := congrArg (fun e : NN5 => e.pet.ar) h.1
  simp [edgeAgent] at this

/-- C13 (amended). The ranking step keeps, for every score, the entries
with this score (as a collection: they are a permutation of the entries that
had this score before), and puts entries of higher score before entries of
lower score; the relative order of entries with equal score is not
determined. -/
theorem rank_groups_perm (sort : (NN5 → NN5 → Bool) → List NN5 → List NN5)
    (hsort : StdSortContract sort) (pets : List NN5) (sc : Int) :
    ((rank sort pets).filter (fun a => decide (a.score = sc))).Perm
      (pets.filter (fun a => decide (a.score = sc))) ∧
    (rank sort pets).Pairwise (fun a b => ¬ a.score < b.score) := by
  obtain ⟨h1, h2⟩ := rank_spec sort hsort pets
  exact ⟨h1.filter _, h2.imp (fun h => not_lt.2 h)⟩

theorem rank_groups_perm_witness :
    StdSortContract reversingSortBy ∧
    ((rank reversingSortBy tiedPets).filter (fun a => decide (a.score = 0))).Perm
      (tiedPets.filter (fun a => decide (a.score = 0))) ∧
    (rank reversingSortBy tiedPets).Pairwise (fun a b => ¬ a.score < b.score) :=
  ⟨reversingSortBy_contract, rank_groups_perm reversingSortBy reversingSortBy_contract tiedPets 0⟩

/-! ## Tournament phase -/

theorem scoreChange_arith (p1 p2 : NN5) (st : GameState) (h : ScoreChange p1 p2 st) :
    st.p1.score = p1.score + 3 * ind (decide (('x', true) ∈ st.placed))
      - 5 * ind (decide (('o', true) ∈ st.placed)) ∧
    st.p2.score = p2.score + 3 * ind (decide (('o', true) ∈ st.placed))
      - 5 * ind (decide (('x', true) ∈ st.placed)) := by
  have hpre : ∀ (pre : List (Char × Bool)) (c : Char), (∀ e ∈ pre, e.2 = false) →
      (c, true) ∉ pre := by
    intro pre c hall hmem
    have := hall _ hmem
    simp at this
  rcases h with ⟨pre, hp, hall, h1, h2⟩ | ⟨pre, hp, hall, h1, h2⟩ | ⟨hall, h1, h2⟩
  · have hx : ('x', true) ∈ st.placed := by rw [hp]; simp
    have ho : ('o', true) ∉ st.placed := by
      rw [hp]
      simp only [List.mem_append, List.mem_singleton, not_or]
      exact ⟨hpre pre 'o' hall, by decide⟩
    simp only [hx, ho, decide_True, decide_False, ind, if_true, Bool.false_eq_true, if_false]
    omega
  · have ho : ('o', true) ∈ st.placed := by rw [hp]; simp
    have hx : ('x', true) ∉ st.placed := by
      rw [hp]
      simp only [List.mem_append, List.mem_singleton, not_or]
      exact ⟨hpre pre 'x' hall, by decide⟩
    simp only [hx, ho, decide_True, decide_False, ind, if_true, Bool.false_eq_true, if_false]
    omega
  · have hx : ('x', true) ∉ st.placed := hpre _ 'x' hall
    have ho : ('o', true) ∉ st.placed := hpre _ 'o' hall
    simp only [hx, ho, decide_False, ind, Bool.false_eq_true, if_false]
    omega

theorem scoreChange_exclusive (p1 p2 : NN5) (st : GameState) (h : ScoreChange p1 p2 st) :
    decide (('x', true) ∈ st.placed) = true → decide (('o', true) ∈ st.placed) ≠ true := by
  have har := scoreChange_arith p1 p2 st h
  intro h1 h2
  rcases h with ⟨pre, hp, hall, e1, e2⟩ | ⟨pre, hp, hall, e1, e2⟩ | ⟨hall, e1, e2⟩ <;>
    · rw [h1, h2] at har
      simp only [ind, if_true] at har
      omega

theorem scoreAt_set_self (l : List NN5) (k : Nat) (p : NN5) (h : k < l.length) :
    scoreAt (l.set k p) k = p.score := by
  unfold scoreAt
  rw [List.getElem?_set_self h]
  rfl

theorem scoreAt_set_ne (l : List NN5) (k k' : Nat) (p : NN5) (h : k ≠ k') :
    scoreAt (l.set k p) k' = scoreAt l k' := by
  unfold scoreAt
  rw [List.getElem?_set_ne h]

theorem wins_snoc (ms : List MatchRecord) (m : MatchRecord) (k : Nat) :
    (wins (ms ++ [m]) k : Int) = wins ms k +
      ind ((decide (m.first = k) && m.firstWon) || (decide (m.second = k) && m.secondWon)) := by
  unfold wins ind
  rw [List.countP_append, List.countP_cons, List.countP_nil]
  split <;> simp

theorem losses_snoc (ms : List MatchRecord) (m : MatchRecord) (k : Nat) :
    (losses (ms ++ [m]) k : Int) = losses ms k +
      ind ((decide (m.first = k) && m.secondWon) || (decide (m.second = k) && m.firstWon)) := by
  unfold losses ind
  rw [List.countP_append, List.countP_cons, List.countP_nil]
  split <;> simp

theorem scoreAt_of_getElem (l : List NN5) (k : Nat) (p : NN5) (h : l[k]? = some p) :
    scoreAt l k = p.score := by
  unfold scoreAt
  rw [h]
  rfl

theorem getElem?_lt_some (l : List NN5) (k : Nat) (h : k < l.length) : ∃ p, l[k]? = some p :=
  ⟨_, List.getElem?_eq_getElem h⟩

theorem Trainer.task_self (t : Trainer) (i : Nat) : t.task i i = (.ok (), t) := by
  unfold Trainer.task
  rw [if_pos rfl]

theorem Trainer.task_other (t : Trainer) (i j : Nat) (hij : i ≠ j) (b : Board) (p1 p2 : NN5)
    (hbj : t.boards[j]? = some b) (hpi : t.pets[i]? = some p1)
    (hpj : t.pets[j]? = some p2) :
    t.task i j =
      ((playGame b p1 p2).1,
        { boards := t.boards.set j (playGame b p1 p2).2.board
          pets := (t.pets.set i (playGame b p1 p2).2.p1).set j (playGame b p1 p2).2.p2
          log := t.log ++ [⟨i, j, (playGame b p1 p2).2.placed, j, b⟩] }) := by
  unfold Trainer.task
  rw [if_neg hij, hbj, hpi, hpj]

theorem BInv.weaken {N m m' : Nat} {t : Trainer} (h : BInv N m t) (hm : m ≤ m') : BInv N m' t :=
  ⟨h.hb, h.hp, fun j h1 h2 => h.hboards j (by omega) h2⟩

theorem roundLog_nil (i m : Nat) : RoundLog i m [] :=
  ⟨fun r hr => (List.not_mem_nil r hr).elim, List.nodup_nil⟩

theorem RoundLog.next {i m : Nat} {L : List MatchRecord} (h : RoundLog i m L) :
    RoundLog i (m + 1) L :=
  ⟨fun r hr => by
    obtain ⟨h1, h2, h3, h4, h5⟩ := h.1 r hr
    exact ⟨h1, h2, by omega, h4, h5⟩, h.2⟩

theorem RoundLog.snoc {i m : Nat} {L : List MatchRecord} (h : RoundLog i m L)
    (pl : List (Char × Bool)) (him : i ≠ m) :
    RoundLog i (m + 1) (L ++ [⟨i, m, pl, m, emptyBoard⟩]) := by
  refine ⟨?_, ?_⟩
  · intro r hr
    rw [List.mem_append, List.mem_singleton] at hr
    rcases hr with hr | rfl
    · obtain ⟨h1, h2, h3, h4, h5⟩ := h.1 r hr
      exact ⟨h1, h2, by omega, h4, h5⟩
    · exact ⟨rfl, fun e => him e.symm, Nat.lt_succ_self m, rfl, rfl⟩
  · rw [List.map_append, List.nodup_append]
    refine ⟨h.2, List.nodup_singleton _, ?_⟩
    intro a ha hb
    rw [List.map_cons, List.map_nil, List.mem_singleton] at hb
    obtain ⟨r, hr, rfl⟩ := List.mem_map.1 ha
    obtain ⟨_, _, h3, h4, _⟩ := h.1 r hr
    have hb' : r.board = m := hb
    omega

theorem NoWin.extend {N : Nat} {L : List MatchRecord} (h : NoWin N L)
    (X : List MatchRecord) : NoWin N (L ++ X) := by
  obtain ⟨m, hm, h'⟩ := h
  exact ⟨m, List.mem_append_left _ hm, h'⟩

/-- A task adds to the log. -/
theorem Trainer.task_log (t : Trainer) (i j : Nat) : ∃ X, (t.task i j).2.log = t.log ++ X := by
  unfold Trainer.task
  split
  · exact ⟨[], (List.append_nil _).symm⟩
  · split
    · exact ⟨_, rfl⟩
    · exact ⟨[], (List.append_nil _).symm⟩

/-- The task `(i, j)` with `i ≠ j` on an all-Empty board `j`, when its match
returns: the match is logged and the scores stay `3 * wins - 5 * losses`. -/
theorem Trainer.task_spec (N : Nat) (t : Trainer) (i j : Nat) (hinv : TInv N t)
    (hij : i ≠ j) (hi : i < N) (hj : j < N) (hbj : t.boards[j]? = some emptyBoard)
    (hok : (t.task i j).1 = .ok ()) :
    TInv N (t.task i j).2 ∧
    (∃ pl, (t.task i j).2.log = t.log ++ [⟨i, j, pl, j, emptyBoard⟩]) ∧
    (∀ k, k ≠ j → (t.task i j).2.boards[k]? = t.boards[k]?) := by
  obtain ⟨hb, hp, hscore, hrec⟩ := hinv
  obtain ⟨p1, hpi⟩ := getElem?_lt_some t.pets i (by omega)
  obtain ⟨p2, hpj⟩ := getElem?_lt_some t.pets j (by omega)
  have htask := Trainer.task_other t i j hij emptyBoard p1 p2 hbj hpi hpj
  rw [htask] at hok
  dsimp only at hok
  have hok' : (playGame emptyBoard p1 p2).1 = .ok () := hok
  have har := scoreChange_arith p1 p2 _ (playGame_change emptyBoard p1 p2 hok')
  have hexcl := scoreChange_exclusive p1 p2 _ (playGame_change emptyBoard p1 p2 hok')
  have hsi := scoreAt_of_getElem t.pets i p1 hpi
  have hsj := scoreAt_of_getElem t.pets j p2 hpj
  generalize playGame emptyBoard p1 p2 = g at htask har hexcl
  rw [htask]
  dsimp only
  refine ⟨⟨?_, ?_, ?_, ?_⟩, ⟨_, rfl⟩, ?_⟩
  · rw [List.length_set]; exact hb
  · rw [List.length_set, List.length_set]; exact hp
  · intro k hk
    rw [wins_snoc, losses_snoc]
    have hold := hscore k hk
    by_cases hkj : k = j
    · subst hkj
      rw [scoreAt_set_self _ _ _ (by rw [List.length_set]; omega), har.2]
      have hne : ¬ i = k := hij
      simp only [MatchRecord.firstWon, MatchRecord.secondWon, hne, decide_False, Bool.false_and,
        Bool.false_or, decide_True, Bool.true_and]
      omega
    · rw [scoreAt_set_ne _ _ _ _ (fun e => hkj e.symm)]
      by_cases hki : k = i
      · subst hki
        rw [scoreAt_set_self _ _ _ (by omega), har.1]
        have hne : ¬ j = k := fun e => hkj e.symm
        simp only [MatchRecord.firstWon, MatchRecord.secondWon, hne, decide_False, Bool.false_and,
          Bool.or_false, decide_True, Bool.true_and]
        omega
      · rw [scoreAt_set_ne _ _ _ _ (fun e => hki e.symm)]
        have hne1 : ¬ i = k := fun e => hki e.symm
        have hne2 : ¬ j = k := fun e => hkj e.symm
        simp only [hne1, hne2, decide_False, Bool.false_and, Bool.or_false, ind,
          Bool.false_eq_true, if_false]
        omega
  · intro m hm
    rw [List.mem_append, List.mem_singleton] at hm
    rcases hm with hm | rfl
    · exact hrec m hm
    · refine ⟨hi, hj, hij, ?_⟩
      rintro ⟨h1, h2⟩
      simp only [MatchRecord.firstWon, MatchRecord.secondWon] at h1 h2
      exact hexcl h1 h2
  · intro k hk
    rw [List.getElem?_set_ne (fun e => hk e.symm)]

/-- A task on an all-Empty board whose match raises an exception logs a
match of two different entries in which no placement reported a win. -/
theorem Trainer.task_nowin (N : Nat) (t : Trainer) (i j : Nat) (h : BInv N j t) (hi : i < N)
    (hj : j < N) (hne : (t.task i j).1 ≠ .ok ()) : NoWin N (t.task i j).2.log := by
  by_cases hij : i = j
  · subst hij
    rw [Trainer.task_self] at hne
    exact absurd rfl hne
  · obtain ⟨p1, hpi⟩ := getElem?_lt_some t.pets i (by rw [h.hp]; exact hi)
    obtain ⟨p2, hpj⟩ := getElem?_lt_some t.pets j (by rw [h.hp]; exact hj)
    have htask := Trainer.task_other t i j hij emptyBoard p1 p2 (h.hboards j (le_refl _) hj)
      hpi hpj
    rw [htask] at hne ⊢
    dsimp only at hne ⊢
    have hnw := playGame_error_nowin p1 p2 hne
    generalize playGame emptyBoard p1 p2 = g at hnw
    refine ⟨⟨i, j, g.2.placed, j, emptyBoard⟩,
      List.mem_append_right _ (List.mem_singleton.2 rfl), hi, hj, hij, ?_, ?_⟩
    · unfold MatchRecord.firstWon
      rw [decide_eq_false_iff_not]
      intro hmem
      have h2 : (('x', true) : Char × Bool).2 = false := hnw ('x', true) hmem
      cases h2
    · unfold MatchRecord.secondWon
      rw [decide_eq_false_iff_not]
      intro hmem
      have h2 : (('o', true) : Char × Bool).2 = false := hnw ('o', true) hmem
      cases h2

theorem pairCount_snoc (ms : List MatchRecord) (m : MatchRecord) (a b : Nat) :
    pairCount (ms ++ [m]) a b =
      pairCount ms a b + (if m.first = a ∧ m.second = b then 1 else 0) := by
  unfold pairCount
  rw [List.countP_append, List.countP_cons, List.countP_nil]
  by_cases h : m.first = a ∧ m.second = b
  · simp [h]
  · rw [if_neg h]
    have : (decide (m.first = a) && decide (m.second = b)) = false := by
      simpa using h
    simp [this]

theorem played_snoc (ms : List MatchRecord) (m : MatchRecord) (k : Nat) :
    played (ms ++ [m]) k = played ms k + (if m.first = k ∨ m.second = k then 1 else 0) := by
  unfold played
  rw [List.countP_append, List.countP_cons, List.countP_nil]
  by_cases h : m.first = k ∨ m.second = k
  · simp [h]
  · rw [if_neg h]
    have : (decide (m.first = k) || decide (m.second = k)) = false := by
      simpa using h
    simp [this]

/-- One task of round `i` whose match returns keeps the invariant of the
round. -/
theorem Trainer.task_step (N i m : Nat) (t : Trainer) (h : RInv N i m t) (hi : i < N)
    (hm : m < N) (hok : (t.task i m).1 = .ok ()) : RInv N i (m + 1) (t.task i m).2 := by
  obtain ⟨inv, hpair, hplayed, hboards⟩ := h
  by_cases him : i = m
  · have htask : t.task i m = (.ok (), t) := by
      unfold Trainer.task
      rw [if_pos him]
    rw [htask]
    refine ⟨inv, ?_, ?_, fun j h1 h2 => hboards j (by omega) h2⟩
    · intro a b
      rw [hpair a b]
      have : procd N i (m + 1) a b ↔ procd N i m a b := by
        unfold procd
        constructor <;> rintro ⟨h1, h2, h3⟩ <;> exact ⟨h1, h2, by omega⟩
      simp only [this]
    · intro k hk
      rw [hplayed k hk]
      unfold playedExp
      split_ifs <;> omega
  · obtain ⟨inv', ⟨pl, hlog⟩, hb'⟩ :=
      Trainer.task_spec N t i m inv him hi hm (hboards m (le_refl _) hm) hok
    refine ⟨inv', ?_, ?_, ?_⟩
    · intro a b
      rw [hlog, pairCount_snoc, hpair a b]
      unfold procd
      dsimp only
      split_ifs <;> omega
    · intro k hk
      rw [hlog, played_snoc, hplayed k hk]
      unfold playedExp
      dsimp only
      split_ifs <;> omega
    · intro j h1 h2
      rw [hb' j (by omega)]
      exact hboards j (by omega) h2

/-- One task of a round on boards that are all-Empty from its index on:
whether its match returns or raises, the boards after its index stay
all-Empty and the match it logs started on an all-Empty board. -/
theorem Trainer.task_clean (N i m : Nat) (t : Trainer) (s L : List MatchRecord)
    (h : BInv N m t) (hi : i < N) (hm : m < N) (hlog : t.log = s ++ L)
    (hL : RoundLog i m L) :
    BInv N (m + 1) (t.task i m).2 ∧
    ∃ L', (t.task i m).2.log = s ++ L' ∧ RoundLog i (m + 1) L' := by
  by_cases him : i = m
  · subst him
    rw [Trainer.task_self]
    exact ⟨h.weaken (Nat.le_succ _), L, hlog, hL.next⟩
  · obtain ⟨p1, hpi⟩ := getElem?_lt_some t.pets i (by rw [h.hp]; exact hi)
    obtain ⟨p2, hpj⟩ := getElem?_lt_some t.pets m (by rw [h.hp]; exact hm)
    rw [Trainer.task_other t i m him emptyBoard p1 p2 (h.hboards m (le_refl _) hm) hpi hpj]
    generalize playGame emptyBoard p1 p2 = g
    dsimp only
    refine ⟨⟨?_, ?_, ?_⟩, L ++ [⟨i, m, g.2.placed, m, emptyBoard⟩], ?_, hL.snoc _ him⟩
    · rw [List.length_set]; exact h.hb
    · rw [List.length_set, List.length_set]; exact h.hp
    · intro j h1 h2
      rw [List.getElem?_set_ne (by omega)]
      exact h.hboards j (by omega) h2
    · rw [hlog, List.append_assoc]

/-- The tasks of round `i` started on all-Empty boards, run up to index `m`:
board `j` is used by the match of the pair `(i, j)` only; a task that raised
has logged a match with no win; and if none raised the invariant of the
round holds. -/
theorem Trainer.spawn_loop (N i : Nat) (t : Trainer) (h : BInv N 0 t) (hi : i < N) :
    ∀ m, m ≤ N →
      ((List.range m).foldl
        (fun (acc : List (Except GameError Unit) × Trainer) j =>
          (acc.1 ++ [(acc.2.task i j).1], (acc.2.task i j).2)) ([], t)).1.length = m ∧
      BInv N m ((List.range m).foldl
        (fun (acc : List (Except GameError Unit) × Trainer) j =>
          (acc.1 ++ [(acc.2.task i j).1], (acc.2.task i j).2)) ([], t)).2 ∧
      (∃ L, ((List.range m).foldl
        (fun (acc : List (Except GameError Unit) × Trainer) j =>
          (acc.1 ++ [(acc.2.task i j).1], (acc.2.task i j).2)) ([], t)).2.log = t.log ++ L ∧ RoundLog i m L) ∧
      ((∃ r ∈ ((List.range m).foldl
        (fun (acc : List (Except GameError Unit) × Trainer) j =>
          (acc.1 ++ [(acc.2.task i j).1], (acc.2.task i j).2)) ([], t)).1, r ≠ .ok ()) → NoWin N ((List.range m).foldl
        (fun (acc : List (Except GameError Unit) × Trainer) j =>
          (acc.1 ++ [(acc.2.task i j).1], (acc.2.task i j).2)) ([], t)).2.log) ∧
      ((∀ r ∈ ((List.range m).foldl
        (fun (acc : List (Except GameError Unit) × Trainer) j =>
          (acc.1 ++ [(acc.2.task i j).1], (acc.2.task i j).2)) ([], t)).1, r = .ok ()) → RInv N i 0 t → RInv N i m ((List.range m).foldl
        (fun (acc : List (Except GameError Unit) × Trainer) j =>
          (acc.1 ++ [(acc.2.task i j).1], (acc.2.task i j).2)) ([], t)).2) := by
  intro m
  induction m with
  | zero =>
    intro _
    refine ⟨rfl, h, ⟨[], (List.append_nil _).symm, roundLog_nil i 0⟩, ?_, fun _ hr => hr⟩
    rintro ⟨r, hr, _⟩
    cases hr
  | succ m ih =>
    intro hm
    obtain ⟨h1, h2, ⟨L, h3, h4⟩, h5, h6⟩ := ih (by omega)
    rw [List.range_succ, List.foldl_append, List.foldl_cons, List.foldl_nil]
    generalize ((List.range m).foldl
        (fun (acc : List (Except GameError Unit) × Trainer) j =>
          (acc.1 ++ [(acc.2.task i j).1], (acc.2.task i j).2)) ([], t)) = acc at h1 h2 h3 h4 h5 h6
    obtain ⟨hinv, L', hlog', hL'⟩ :=
      Trainer.task_clean N i m acc.2 t.log L h2 hi (by omega) h3 h4
    dsimp only
    refine ⟨by rw [List.length_append, h1]; rfl, hinv, ⟨L', hlog', hL'⟩, ?_, ?_⟩
    · rintro ⟨r, hr, hne⟩
      rw [List.mem_append, List.mem_singleton] at hr
      rcases hr with hr | rfl
      · obtain ⟨X, hX⟩ := Trainer.task_log acc.2 i m
        rw [hX]
        exact (h5 ⟨r, hr, hne⟩).extend X
      · exact Trainer.task_nowin N acc.2 i m h2 hi (by omega) hne
    · intro hall hR
      have hR' := h6 (fun r hr => hall r (List.mem_append_left _ hr)) hR
      exact Trainer.task_step N i m acc.2 hR' hi (by omega)
        (hall _ (List.mem_append_right _ (List.mem_singleton.2 rfl)))

theorem Trainer.join_cons_ok (rs : List (Except GameError Unit)) (j : Nat) (t : Trainer) :
    Trainer.join (.ok () :: rs) j t =
      Trainer.join rs (j + 1)
        (match t.boards[j]? with
          | some b => { t with boards := t.boards.set j b.clear }
          | none => t) := rfl

/-- The loop `get(); clear()` over futures that all hold no exception clears
the boards of its index range and touches nothing else. -/
theorem Trainer.join_ok (n : Nat) :
    ∀ (j : Nat) (t : Trainer),
      (Trainer.join (List.replicate n (.ok ())) j t).1 = .ok () ∧
      (Trainer.join (List.replicate n (.ok ())) j t).2.pets = t.pets ∧
      (Trainer.join (List.replicate n (.ok ())) j t).2.log = t.log ∧
      (Trainer.join (List.replicate n (.ok ())) j t).2.boards.length = t.boards.length ∧
      ∀ k, k < t.boards.length →
        (Trainer.join (List.replicate n (.ok ())) j t).2.boards[k]? =
          if j ≤ k ∧ k < j + n then some emptyBoard else t.boards[k]? := by
  induction n with
  | zero =>
    intro j t
    refine ⟨rfl, rfl, rfl, rfl, ?_⟩
    intro k _
    rw [if_neg (by omega)]
    rfl
  | succ n ih =>
    intro j t
    rw [List.replicate_succ, Trainer.join_cons_ok]
    by_cases hj : j < t.boards.length
    · obtain ⟨b, hb⟩ : ∃ b, t.boards[j]? = some b := ⟨_, List.getElem?_eq_getElem hj⟩
      simp only [hb]
      obtain ⟨h1, h2, h3, h4, h5⟩ := ih (j + 1) { t with boards := t.boards.set j b.clear }
      refine ⟨h1, h2, h3, by rw [h4, List.length_set], ?_⟩
      intro k hk
      rw [h5 k (by rw [List.length_set]; exact hk)]
      by_cases hkj : k = j
      · subst hkj
        rw [if_neg (by omega), if_pos (by omega), List.getElem?_set_self hk, Board.clear_eq]
      · rw [List.getElem?_set_ne (fun e => hkj e.symm)]
        by_cases hc : j + 1 ≤ k ∧ k < j + 1 + n
        · rw [if_pos hc, if_pos (by omega)]
        · rw [if_neg hc, if_neg (by omega)]
    · have hb : t.boards[j]? = none := List.getElem?_eq_none (by omega)
      simp only [hb]
      obtain ⟨h1, h2, h3, h4, h5⟩ := ih (j + 1) t
      refine ⟨h1, h2, h3, h4, ?_⟩
      intro k hk
      rw [h5 k hk, if_neg (by omega), if_neg (by omega)]

/-- The loop `get(); clear()` touches neither the population nor the log,
and it returns only if no future holds an exception. -/
theorem Trainer.join_frame (rs : List (Except GameError Unit)) :
    ∀ (j : Nat) (t : Trainer),
      (Trainer.join rs j t).2.pets = t.pets ∧ (Trainer.join rs j t).2.log = t.log ∧
      ((Trainer.join rs j t).1 = .ok () → ∀ r ∈ rs, r = .ok ()) := by
  induction rs with
  | nil =>
    intro j t
    exact ⟨rfl, rfl, fun _ r hr => (List.not_mem_nil r hr).elim⟩
  | cons r rs ih =>
    intro j t
    cases r with
    | error e =>
      refine ⟨rfl, rfl, ?_⟩
      intro h
      cases h
    | ok u =>
      rw [Trainer.join_cons_ok]
      have hpets : (match t.boards[j]? with
          | some b => { t with boards := t.boards.set j b.clear }
          | none => t).pets = t.pets := by
        cases t.boards[j]? <;> rfl
      have hlog : (match t.boards[j]? with
          | some b => { t with boards := t.boards.set j b.clear }
          | none => t).log = t.log := by
        cases t.boards[j]? <;> rfl
      obtain ⟨h1, h2, h3⟩ := ih (j + 1) (match t.boards[j]? with
          | some b => { t with boards := t.boards.set j b.clear }
          | none => t)
      refine ⟨h1.trans hpets, h2.trans hlog, ?_⟩
      intro hok r hr
      rcases List.mem_cons.1 hr with rfl | hr
      · rfl
      · exact h3 hok r hr

/-- Round `i` started on all-Empty boards: every match it logs started on an
all-Empty board that no other match of the round used; if it returns, all
boards are all-Empty again and the invariant passes to the next round; if it
raises, a match with no win has been logged. -/
theorem Trainer.round_spec (N i : Nat) (t : Trainer) (h : BInv N 0 t) (hi : i < N) :
    (∃ L, (t.round i).2.log = t.log ++ L ∧ RoundLog i N L) ∧
    ((t.round i).1 = .ok () →
      BInv N 0 (t.round i).2 ∧ (RInv N i 0 t → RInv N (i + 1) 0 (t.round i).2)) ∧
    ((t.round i).1 ≠ .ok () → NoWin N (t.round i).2.log) := by
  obtain ⟨h1, h2, ⟨L, h3, h4⟩, h5, h6⟩ := Trainer.spawn_loop N i t h hi N (le_refl _)
  have hround : t.round i = Trainer.join ((List.range N).foldl
        (fun (acc : List (Except GameError Unit) × Trainer) j =>
          (acc.1 ++ [(acc.2.task i j).1], (acc.2.task i j).2)) ([], t)).1 0 ((List.range N).foldl
        (fun (acc : List (Except GameError Unit) × Trainer) j =>
          (acc.1 ++ [(acc.2.task i j).1], (acc.2.task i j).2)) ([], t)).2 := by
    unfold Trainer.round Trainer.spawn
    rw [h.hp]
  rw [hround]
  generalize ((List.range N).foldl
        (fun (acc : List (Except GameError Unit) × Trainer) j =>
          (acc.1 ++ [(acc.2.task i j).1], (acc.2.task i j).2)) ([], t)) = acc at h1 h2 h3 h4 h5 h6
  obtain ⟨f1, f2, f3⟩ := Trainer.join_frame acc.1 0 acc.2
  have hrep : (∀ r ∈ acc.1, r = .ok ()) → acc.1 = List.replicate N (.ok ()) := by
    intro hall
    rw [List.eq_replicate_iff]
    exact ⟨h1, hall⟩
  refine ⟨⟨L, by rw [f2]; exact h3, h4⟩, ?_, ?_⟩
  · intro hok
    have hall := f3 hok
    have hR := h6 hall
    rw [hrep hall] at hok ⊢
    obtain ⟨j1, j2, j3, j4, j5⟩ := Trainer.join_ok N 0 acc.2
    refine ⟨⟨by rw [j4]; exact h2.hb, by rw [j2]; exact h2.hp, ?_⟩, ?_⟩
    · intro j _ hj
      rw [j5 j (by rw [h2.hb]; exact hj), if_pos (by omega)]
    · intro hR0
      obtain ⟨inv, hpair, hplayed, _⟩ := hR hR0
      refine ⟨⟨by rw [j4]; exact inv.hb, by rw [j2]; exact inv.hp, ?_, ?_⟩, ?_, ?_, ?_⟩
      · intro k hk
        rw [j2, j3]
        exact inv.hscore k hk
      · rw [j3]
        exact inv.hrec
      · intro a b
        rw [j3, hpair a b]
        have : procd N i N a b ↔ procd N (i + 1) 0 a b := by
          unfold procd
          constructor <;> rintro ⟨e1, e2, e3⟩ <;> exact ⟨e1, e2, by omega⟩
        simp only [this]
      · intro k hk
        rw [j3, hplayed k hk]
        unfold playedExp
        split_ifs <;> omega
      · intro j _ hj
        rw [j5 j (by rw [inv.hb]; exact hj), if_pos (by omega)]
  · intro hne
    rw [f2]
    apply h5
    by_contra hnone
    apply hne
    have hall : ∀ r ∈ acc.1, r = .ok () := by
      intro r hr
      by_contra hr'
      exact hnone ⟨r, hr, hr'⟩
    rw [hrep hall]
    exact (Trainer.join_ok N 0 acc.2).1

theorem Trainer.rounds_cons (t : Trainer) (i : Nat) (is : List Nat) :
    t.rounds (i :: is) =
      match t.round i with
      | (.error e, t') => (.error e, t')
      | (.ok _, t') => Trainer.rounds t' is := rfl

theorem RoundLog.tidy {i m : Nat} {L : List MatchRecord} (h : RoundLog i m L) : Tidy L :=
  fun r hr => ⟨(h.1 r hr).2.2.2.1, (h.1 r hr).2.2.2.2⟩

theorem Tidy.append {L L' : List MatchRecord} (h : Tidy L) (h' : Tidy L') : Tidy (L ++ L') := by
  intro r hr
  rcases List.mem_append.1 hr with hr | hr
  · exact h r hr
  · exact h' r hr

theorem tidy_nil : Tidy [] := fun r hr => (List.not_mem_nil r hr).elim

theorem Trainer.rounds_ok (t : Trainer) (i : Nat) (is : List Nat) (h : (t.round i).1 = .ok ()) :
    t.rounds (i :: is) = (t.round i).2.rounds is := by
  rw [Trainer.rounds_cons]
  rcases hr : t.round i with ⟨r, t'⟩
  rw [hr] at h
  dsimp only at h
  subst h
  rfl

theorem Trainer.rounds_error (t : Trainer) (i : Nat) (is : List Nat)
    (h : (t.round i).1 ≠ .ok ()) : t.rounds (i :: is) = t.round i := by
  rw [Trainer.rounds_cons]
  rcases hr : t.round i with ⟨r, t'⟩
  rw [hr] at h
  cases r with
  | error e => rfl
  | ok u => exact absurd rfl h

/-- The rounds `i, ..., i + n - 1` started on all-Empty boards: every match
they log was played on the board of its second entry and started on an
all-Empty board; if they return, all boards are all-Empty again and the
invariant passes on; if one raises, a match with no win has been logged. -/
theorem Trainer.rounds_spec (N : Nat) :
    ∀ (n i : Nat) (t : Trainer), i + n ≤ N → BInv N 0 t →
      (∃ L, (t.rounds (List.range' i n)).2.log = t.log ++ L ∧ Tidy L) ∧
      ((t.rounds (List.range' i n)).1 = .ok () →
        BInv N 0 (t.rounds (List.range' i n)).2 ∧
        (RInv N i 0 t → RInv N (i + n) 0 (t.rounds (List.range' i n)).2)) ∧
      ((t.rounds (List.range' i n)).1 ≠ .ok () →
        NoWin N (t.rounds (List.range' i n)).2.log) := by
  intro n
  induction n with
  | zero =>
    intro i t _ h
    refine ⟨⟨[], (List.append_nil _).symm, tidy_nil⟩, fun _ => ⟨h, fun hR => hR⟩, ?_⟩
    intro hne
    exact absurd rfl hne
  | succ n ih =>
    intro i t hin h
    obtain ⟨⟨L, h3, h4⟩, hokc, herr⟩ := Trainer.round_spec N i t h (by omega)
    rw [List.range'_succ]
    by_cases hok : (t.round i).1 = .ok ()
    · rw [Trainer.rounds_ok t i _ hok]
      obtain ⟨hB, hR⟩ := hokc hok
      obtain ⟨⟨L', k3, k4⟩, kok, kerr⟩ := ih (i + 1) _ (by omega) hB
      refine ⟨⟨L ++ L', by rw [k3, h3, List.append_assoc], h4.tidy.append k4⟩, ?_, kerr⟩
      intro hok'
      obtain ⟨hB', hR'⟩ := kok hok'
      refine ⟨hB', fun hR0 => ?_⟩
      have := hR' (hR hR0)
      rw [show i + 1 + n = i + (n + 1) by omega] at this
      exact this
    · rw [Trainer.rounds_error t i _ hok]
      exact ⟨⟨L, h3, h4.tidy⟩, fun hok' => absurd hok' hok, herr⟩

theorem resetScores_loop (pets : List NN5) :
    ∀ m, m ≤ pets.length →
      ((List.range m).foldl (fun (ps : List NN5) (i : Nat) =>
        match ps[i]? with
        | some p => ps.set i { p with score := 0 }
        | none => ps) pets).length = pets.length ∧
      ∀ k, k < pets.length →
        scoreAt ((List.range m).foldl (fun (ps : List NN5) (i : Nat) =>
          match ps[i]? with
          | some p => ps.set i { p with score := 0 }
          | none => ps) pets) k = if k < m then 0 else scoreAt pets k := by
  intro m
  induction m with
  | zero =>
    intro _
    exact ⟨rfl, fun k _ => by rw [if_neg (by omega)]; rfl⟩
  | succ m ih =>
    intro hm
    obtain ⟨h1, h2⟩ := ih (by omega)
    rw [List.range_succ, List.foldl_append, List.foldl_cons, List.foldl_nil]
    obtain ⟨p, hp⟩ := getElem?_lt_some _ m (by rw [h1]; omega)
    rw [hp]
    dsimp only
    refine ⟨by rw [List.length_set, h1], ?_⟩
    intro k hk
    by_cases hkm : k = m
    · subst hkm
      rw [scoreAt_set_self _ _ _ (by rw [h1]; exact hk), if_pos (by omega)]
    · rw [scoreAt_set_ne _ _ _ _ (fun e => hkm e.symm), h2 k hk]
      by_cases hlt : k < m
      · rw [if_pos hlt, if_pos (by omega)]
      · rw [if_neg hlt, if_neg (by omega)]

theorem Trainer.resetScores_binv (N : Nat) (t : Trainer) (h : BInv N 0 t) :
    BInv N 0 t.resetScores ∧ t.resetScores.log = t.log := by
  exact ⟨⟨h.hb, (resetScores_loop t.pets t.pets.length (le_refl _)).1.trans h.hp, h.hboards⟩,
    rfl⟩

/-- The tournament phase started with as many boards as entries, all boards
all-Empty, up to round `i`. -/
theorem Trainer.tournament_prefix (N i : Nat) (t : Trainer) (h : BInv N 0 t) (hi : i ≤ N) :
    (∃ L, (t.resetScores.rounds (List.range i)).2.log = t.log ++ L ∧ Tidy L) ∧
    ((t.resetScores.rounds (List.range i)).1 = .ok () →
      BInv N 0 (t.resetScores.rounds (List.range i)).2 ∧
      (RInv N 0 0 t.resetScores → RInv N i 0 (t.resetScores.rounds (List.range i)).2)) ∧
    ((t.resetScores.rounds (List.range i)).1 ≠ .ok () →
      NoWin N (t.resetScores.rounds (List.range i)).2.log) := by
  obtain ⟨r1, r2⟩ := Trainer.resetScores_binv N t h
  have := Trainer.rounds_spec N i 0 t.resetScores (by omega) r1
  rw [← List.range_eq_range', r2, Nat.zero_add] at this
  exact this

/-- The scores after the reset loop, and the invariant the first round
starts from. -/
theorem Trainer.resetScores_spec (t : Trainer) (hlen : t.boards.length = t.pets.length)
    (hempty : ∀ j, j < t.boards.length → t.boards[j]? = some emptyBoard) (hlog : t.log = []) :
    (∀ k, scoreAt t.resetScores.pets k = 0) ∧ RInv t.pets.length 0 0 t.resetScores := by
  obtain ⟨r1, r2⟩ := resetScores_loop t.pets t.pets.length (le_refl _)
  have hreset : ∀ k, scoreAt t.resetScores.pets k = 0 := by
    intro k
    by_cases hk : k < t.pets.length
    · exact (r2 k hk).trans (if_pos hk)
    · have hl : t.resetScores.pets.length = t.pets.length := r1
      unfold scoreAt
      rw [List.getElem?_eq_none (by omega)]
      rfl
  refine ⟨hreset, ⟨hlen, r1, ?_, ?_⟩, ?_, ?_, ?_⟩
  · intro k _
    rw [hreset k]
    show (0 : Int) = 3 * (wins t.log k : Int) - 5 * (losses t.log k : Int)
    rw [hlog]
    rfl
  · intro m hm
    have : m ∈ t.log := hm
    rw [hlog] at this
    cases this
  · intro a b
    show pairCount t.log a b = _
    rw [hlog, if_neg (by unfold procd; omega)]
    rfl
  · intro k hk
    show played t.log k = _
    rw [hlog]
    unfold playedExp
    split_ifs <;> first | omega | rfl
  · intro j _ hj
    exact hempty j (by rw [hlen]; exact hj)

theorem boards_all_empty (boards : List Board) (h : ∀ b ∈ boards, b = emptyBoard) (j : Nat)
    (hj : j < boards.length) : boards[j]? = some emptyBoard := by
  rw [List.getElem?_eq_getElem hj]
  congr 1
  exact h _ (List.getElem_mem hj)


/-- The tournament phase: what is logged and, when the phase returns, what
the scores are. -/
theorem Trainer.tournament_result (t : Trainer) (hlen : t.boards.length = t.pets.length)
    (hempty : ∀ b ∈ t.boards, b = emptyBoard) (hlog : t.log = []) :
    (∀ k, scoreAt t.resetScores.pets k = 0) ∧
    (∀ m ∈ t.tournament.2.log, m.board = m.second ∧ m.start = emptyBoard) ∧
    (t.tournament.1 = .ok () → RInv t.pets.length t.pets.length 0 t.tournament.2) ∧
    (t.tournament.1 ≠ .ok () → NoWin t.pets.length t.tournament.2.log) := by
  have hB : BInv t.pets.length 0 t :=
    ⟨hlen, rfl, fun j _ hj => boards_all_empty t.boards hempty j (by rw [hlen]; exact hj)⟩
  obtain ⟨h0, hR0⟩ := Trainer.resetScores_spec t hlen (boards_all_empty t.boards hempty) hlog
  obtain ⟨⟨L, hL, hT⟩, hok, herr⟩ :=
    Trainer.tournament_prefix t.pets.length t.pets.length t hB (le_refl _)
  refine ⟨h0, ?_, fun h => (hok h).2 hR0, herr⟩
  intro m hm
  have hm' : m ∈ (t.resetScores.rounds (List.range t.pets.length)).2.log := hm
  rw [hL, hlog, List.nil_append] at hm'
  exact hT m hm'

/-- C6 (amended). In the tournament phase of one generation over `N` entries,
started with `N` all-Empty boards and the task groups run one task after the
other: the scores are first reset to `0`, and every match the phase logs was
played on the board of its second entry and started on an all-Empty board.
If the phase returns, that is if no match raised IllegalMove, exactly one
match is logged for every ordered pair `(i, j)` with `i ≠ j` (entry `i`
first, entry `j` second) and none for `i = j`, every entry has played
`2 * (N - 1)` matches, and every score is `3` times the matches the entry won
minus `5` times the matches it lost. If the phase does not return, some
logged match of two different entries has no placement that reported a
win. -/
theorem Trainer.tournament_round_robin (t : Trainer)
    (hlen : t.boards.length = t.pets.length)
    (hempty : ∀ b ∈ t.boards, b = emptyBoard) (hlog : t.log = []) :
    (∀ k, scoreAt t.resetScores.pets k = 0) ∧
    (∀ m ∈ t.tournament.2.log, m.board = m.second ∧ m.start = emptyBoard) ∧
    (t.tournament.1 = .ok () →
      (∀ a b, pairCount t.tournament.2.log a b =
        if a ≠ b ∧ a < t.pets.length ∧ b < t.pets.length then 1 else 0) ∧
      (∀ k, k < t.pets.length → played t.tournament.2.log k = 2 * (t.pets.length - 1)) ∧
      (∀ k, k < t.pets.length → scoreAt t.tournament.2.pets k =
        3 * (wins t.tournament.2.log k : Int) - 5 * (losses t.tournament.2.log k : Int))) ∧
    (t.tournament.1 ≠ .ok () →
      ∃ m ∈ t.tournament.2.log, m.first < t.pets.length ∧ m.second < t.pets.length ∧
        m.first ≠ m.second ∧ m.firstWon = false ∧ m.secondWon = false) := by
  obtain ⟨h0, htidy, hok, herr⟩ := Trainer.tournament_result t hlen hempty hlog
  refine ⟨h0, htidy, ?_, herr⟩
  intro h
  obtain ⟨inv, hpair, hplayed, _⟩ := hok h
  refine ⟨?_, ?_, inv.hscore⟩
  · intro a b
    rw [hpair a b]
    have : procd t.pets.length t.pets.length 0 a b ↔
        (a ≠ b ∧ a < t.pets.length ∧ b < t.pets.length) := by
      unfold procd
      constructor
      · rintro ⟨e1, e2, e3⟩
        exact ⟨e1, by omega, e2⟩
      · rintro ⟨e1, e2, e3⟩
        exact ⟨e1, e3, Or.inl e2⟩
    simp only [this]
  · intro k hk
    rw [hplayed k hk]
    unfold playedExp
    split_ifs <;> omega

/-! ## Training run: the boards at the start of every match -/

theorem regenerate_length (M : Nat) (rngs : Nat → Nat → Nat) (pets : List NN5) :
    (regenerate M rngs pets).length = pets.length :=
  (regenerate_loop M rngs pets (pets.length / 2) (le_refl _)).1

theorem Trainer.breed_binv (sort : (NN5 → NN5 → Bool) → List NN5 → List NN5)
    (hsort : StdSortContract sort) (M : Nat) (rngs : Nat → Nat → Nat) (N : Nat) (t : Trainer)
    (h : BInv N 0 t) : BInv N 0 (t.breed sort M rngs) := by
  refine ⟨h.hb, ?_, h.hboards⟩
  unfold Trainer.breed
  dsimp only
  rw [regenerate_length, (rank_spec sort hsort t.pets).1.length_eq]
  exact h.hp

/-- One generation started on all-Empty boards: every match it logs was
played on the board of its second entry and started on an all-Empty board,
and if the generation returns all boards are all-Empty again. -/
theorem Trainer.generation_clean (sort : (NN5 → NN5 → Bool) → List NN5 → List NN5)
    (hsort : StdSortContract sort) (M : Nat) (rngs : Nat → Nat → Nat) (N : Nat) (t : Trainer)
    (h : BInv N 0 t) :
    (∃ L, (t.generation sort M rngs).2.log = t.log ++ L ∧ Tidy L) ∧
    ((t.generation sort M rngs).1 = .ok () → BInv N 0 (t.generation sort M rngs).2) := by
  obtain ⟨⟨L, h3, h4⟩, hok, _⟩ := Trainer.tournament_prefix N N t h (le_refl _)
  have hN : t.pets.length = N := h.hp
  have htour : t.tournament = t.resetScores.rounds (List.range N) := by
    unfold Trainer.tournament
    rw [hN]
  rw [← htour] at h3 hok
  unfold Trainer.generation
  rcases hr : t.tournament with ⟨r, t'⟩
  rw [hr] at h3 hok
  cases r with
  | error e =>
    refine ⟨⟨L, h3, h4⟩, ?_⟩
    intro hc
    cases hc
  | ok u =>
    exact ⟨⟨L, h3, h4⟩, fun _ => Trainer.breed_binv sort hsort M rngs N _ (hok rfl).1⟩

theorem Trainer.train_cons (sort : (NN5 → NN5 → Bool) → List NN5 → List NN5) (M : Nat)
    (rngs : Nat → Nat → Nat → Nat) (t : Trainer) (e : Nat) (es : List Nat) :
    t.train sort M rngs (e :: es) =
      match t.generation sort M (rngs e) with
      | (.error err, t') => (.error err, t')
      | (.ok _, t') => Trainer.train sort M rngs t' es := rfl

/-- Any number of generations started on all-Empty boards. -/
theorem Trainer.train_clean (sort : (NN5 → NN5 → Bool) → List NN5 → List NN5)
    (hsort : StdSortContract sort) (M : Nat) (rngs : Nat → Nat → Nat → Nat) (N : Nat) :
    ∀ (es : List Nat) (t : Trainer), BInv N 0 t →
      (∃ L, (t.train sort M rngs es).2.log = t.log ++ L ∧ Tidy L) ∧
      ((t.train sort M rngs es).1 = .ok () → BInv N 0 (t.train sort M rngs es).2) := by
  intro es
  induction es with
  | nil =>
    intro t h
    exact ⟨⟨[], (List.append_nil _).symm, tidy_nil⟩, fun _ => h⟩
  | cons e es ih =>
    intro t h
    obtain ⟨⟨L, h3, h4⟩, hok⟩ := Trainer.generation_clean sort hsort M (rngs e) N t h
    rw [Trainer.train_cons]
    rcases hr : t.generation sort M (rngs e) with ⟨r, t'⟩
    rw [hr] at h3 hok
    cases r with
    | error err =>
      refine ⟨⟨L, h3, h4⟩, ?_⟩
      intro hc
      cases hc
    | ok u =>
      obtain ⟨⟨L', k3, k4⟩, kok⟩ := ih t' (hok rfl)
      have k3' : t'.log = t.log ++ L := h3
      exact ⟨⟨L ++ L', by rw [k3, k3', List.append_assoc], h4.append k4⟩, kok⟩

/-- The exhibition match on all-Empty boards. -/
theorem Trainer.exhibition_clean (N : Nat) (t : Trainer) (h : BInv N 0 t) (hN : 2 ≤ N) :
    ∃ pl, t.exhibition.2.log = t.log ++ [⟨0, 1, pl, 0, emptyBoard⟩] := by
  obtain ⟨p1, hp0⟩ := getElem?_lt_some t.pets 0 (by rw [h.hp]; omega)
  obtain ⟨p2, hp1⟩ := getElem?_lt_some t.pets 1 (by rw [h.hp]; omega)
  have hb0 := h.hboards 0 (le_refl _) (by omega)
  unfold Trainer.exhibition
  rw [hb0, hp0, hp1]
  dsimp only
  generalize playGame emptyBoard p1 p2 = g
  exact ⟨g.2.placed, rfl⟩

theorem boards_new_binv (t : Trainer)
    (hboards : t.boards = List.replicate t.pets.length Board.new) : BInv t.pets.length 0 t := by
  refine ⟨by rw [hboards, List.length_replicate], rfl, ?_⟩
  intro j _ hj
  rw [hboards, List.getElem?_replicate, if_pos hj]
  unfold Board.new
  rw [Board.clear_eq]

theorem binv_all_empty (N : Nat) (t : Trainer) (h : BInv N 0 t) :
    ∀ b ∈ t.boards, b = emptyBoard := by
  intro b hb
  obtain ⟨j, hj, rfl⟩ := List.getElem_of_mem hb
  have := h.hboards j (Nat.zero_le _) (by rw [← h.hb]; exact hj)
  rw [List.getElem?_eq_getElem hj] at this
  exact Option.some.inj this

/-- The state when round `i` of generation `g` is about to start, the
round it runs next, and the matches of the whole run. -/
theorem Trainer.main_clean (sort : (NN5 → NN5 → Bool) → List NN5 → List NN5)
    (hsort : StdSortContract sort) (M : Nat) (rngs : Nat → Nat → Nat → Nat) (t : Trainer)
    (hN : 2 ≤ t.pets.length)
    (hboards : t.boards = List.replicate t.pets.length Board.new) (hlog : t.log = []) :
    (∀ g i, i < t.pets.length → (t.roundStart sort M rngs g i).1 = .ok () →
      (∀ b ∈ (t.roundStart sort M rngs g i).2.boards, b = emptyBoard) ∧
      ∃ L, ((t.roundStart sort M rngs g i).2.round i).2.log =
          (t.roundStart sort M rngs g i).2.log ++ L ∧
        (∀ r ∈ L, r.first = i ∧ r.second ≠ i ∧ r.board = r.second ∧ r.start = emptyBoard) ∧
        (L.map MatchRecord.board).Nodup) ∧
    ((t.train sort M rngs (List.range 700)).1 = .ok () →
      ∃ L pl, (t.main sort M rngs).2.log = L ++ [⟨0, 1, pl, 0, emptyBoard⟩] ∧
        ∀ r ∈ L, r.board = r.second ∧ r.start = emptyBoard) ∧
    ∀ r ∈ (t.main sort M rngs).2.log, r.start = emptyBoard := by
  have h0 := boards_new_binv t hboards
  obtain ⟨⟨L, h3, h4⟩, hok⟩ :=
    Trainer.train_clean sort hsort M rngs t.pets.length (List.range 700) t h0
  rw [hlog, List.nil_append] at h3
  refine ⟨?_, ?_, ?_⟩
  · intro g i hi hstart
    obtain ⟨_, gok⟩ := Trainer.train_clean sort hsort M rngs t.pets.length (List.range g) t h0
    unfold Trainer.roundStart at hstart ⊢
    rcases hr : t.train sort M rngs (List.range g) with ⟨r, t'⟩
    rw [hr] at hstart gok
    cases r with
    | error e => cases hstart
    | ok u =>
      have hB : BInv t.pets.length 0 t' := gok rfl
      have hstart' : (t'.resetScores.rounds (List.range i)).1 = .ok () := hstart
      obtain ⟨_, pok, _⟩ := Trainer.tournament_prefix t.pets.length i t' hB (le_of_lt hi)
      have k2 := (pok hstart').1
      show (∀ b ∈ (t'.resetScores.rounds (List.range i)).2.boards, b = emptyBoard) ∧
        ∃ L, ((t'.resetScores.rounds (List.range i)).2.round i).2.log =
            (t'.resetScores.rounds (List.range i)).2.log ++ L ∧
          (∀ r ∈ L, r.first = i ∧ r.second ≠ i ∧ r.board = r.second ∧ r.start = emptyBoard) ∧
          (L.map MatchRecord.board).Nodup
      obtain ⟨⟨L', m3, m4⟩, _, _⟩ := Trainer.round_spec t.pets.length i _ k2 hi
      refine ⟨binv_all_empty _ _ k2, L', m3, ?_, m4.2⟩
      intro r hr'
      obtain ⟨a1, a2, _, a4, a5⟩ := m4.1 r hr'
      exact ⟨a1, a2, a4, a5⟩
  · intro htrain
    obtain ⟨pl, e2⟩ := Trainer.exhibition_clean _ _ (hok htrain) hN
    refine ⟨L, pl, ?_, h4⟩
    unfold Trainer.main
    rcases hr : t.train sort M rngs (List.range 700) with ⟨r, t'⟩
    rw [hr] at htrain h3 e2
    cases r with
    | error e => cases htrain
    | ok u =>
      have h3' : t'.log = L := h3
      rw [← h3']
      exact e2
  · intro r hr
    unfold Trainer.main at hr
    rcases hrt : t.train sort M rngs (List.range 700) with ⟨res, t'⟩
    rw [hrt] at hr h3 hok
    cases res with
    | error e =>
      have hr' : r ∈ t'.log := hr
      have h3' : t'.log = L := h3
      rw [h3'] at hr'
      exact (h4 r hr').2
    | ok u =>
      obtain ⟨pl, e2⟩ := Trainer.exhibition_clean _ _ (hok rfl) hN
      have hr' : r ∈ t'.exhibition.2.log := hr
      have h3' : t'.log = L := h3
      rw [e2, h3', List.mem_append, List.mem_singleton] at hr'
      rcases hr' with hr' | rfl
      · exact (h4 r hr').2
      · rfl

/-- C21. Training from the boards `main` constructs (one freshly constructed
board per entry, at least two entries), the task groups run one task after
the other, with any `std::sort` that keeps its contract and any `rand()`
results. For every generation `g` and round `i` whose start the run reaches
(no earlier match having raised an exception), every board is all-Empty at
the start of the round, and the matches the round then logs, whether they
return or raise, each have entry `i` first and another entry `j` second, are
played on board `j`, start on an all-Empty board, and no two of them use the
same board. If the 700 generations return, the last match of the run is the
exhibition match of entries `0` and `1` on board `0`, started on an all-Empty
board. Every match of the run, however the run ends, started on an all-Empty
board. -/
theorem Trainer.boards_empty_at_match_start
    (sort : (NN5 → NN5 → Bool) → List NN5 → List NN5)
    (hsort : StdSortContract sort) (M : Nat) (rngs : Nat → Nat → Nat → Nat) (t : Trainer)
    (hN : 2 ≤ t.pets.length)
    (hboards : t.boards = List.replicate t.pets.length Board.new) (hlog : t.log = []) :
    (∀ g i, i < t.pets.length → (t.roundStart sort M rngs g i).1 = .ok () →
      (∀ b ∈ (t.roundStart sort M rngs g i).2.boards, b = emptyBoard) ∧
      ∃ L, ((t.roundStart sort M rngs g i).2.round i).2.log =
          (t.roundStart sort M rngs g i).2.log ++ L ∧
        (∀ r ∈ L, r.first = i ∧ r.second ≠ i ∧ r.board = r.second ∧ r.start = emptyBoard) ∧
        (L.map MatchRecord.board).Nodup) ∧
    ((t.train sort M rngs (List.range 700)).1 = .ok () →
      ∃ L pl, (t.main sort M rngs).2.log = L ++ [⟨0, 1, pl, 0, emptyBoard⟩] ∧
        ∀ r ∈ L, r.board = r.second ∧ r.start = emptyBoard) ∧
    ∀ r ∈ (t.main sort M rngs).2.log, r.start = emptyBoard :=
  Trainer.main_clean sort hsort M rngs t hN hboards hlog

/-! ## Populations of two -/

/-- An agent with the parameters of `zeroAgent` scores `0`. -/
theorem NN5Player.score_of_zero (p : NN5Player) (h : p.sameParams zeroAgent) (b : Board)
    (x y : Int) : p.score b x y = Flt.fin 0 := by
  obtain ⟨har, ha, hwr, hw⟩ := h
  have hc : ∀ i : Fin 3, p.channel b x y i = Flt.fin 0 := by
    intro i
    rw [NN5Player.channel_flat p b x y i 0 (fun k => by rw [hw]; rfl) (by rw [ha]; rfl)
      Flt.round_zero, Flt.lt_fin_fin_false (lt_irrefl 0)]
    rfl
  have hwr' : ∀ i : Fin 3, p.wr i = 0 := fun i => by rw [hwr]; rfl
  have har' : p.ar = 0 := by rw [har]; rfl
  rw [NN5Player.score_eq, hc, hc, hc, hwr', hwr', hwr', har', Flt.round_zero, Flt.mul_fin_fin,
    mul_zero, Flt.round_zero, Flt.add_fin_fin, add_zero, Flt.round_zero, Flt.add_fin_fin,
    add_zero, Flt.round_zero, Flt.add_fin_fin, add_zero, Flt.round_zero]

/-- An agent with the parameters of `rowAgent` scores `1` where `Board::at`
reads its mark to the left of the candidate and `0` elsewhere. -/
theorem NN5Player.score_of_row (p : NN5Player) (h : p.sameParams rowAgent) (b : Board)
    (x y : Int) :
    p.score b x y = if b.at' (x - 1) y = p.s then Flt.fin 1 else Flt.fin 0 := by
  obtain ⟨har, ha, hwr, hw⟩ := h
  have hx : x + 1 - 2 = x - 1 := by ring
  have h10 : ¬ (1 : ℚ) < 0 := by norm_num
  have hc : ∀ i : Fin 3, i ≠ 1 → p.channel b x y i = Flt.fin 0 := by
    intro i hi
    rw [NN5Player.channel_flat p b x y i 0
      (fun k => by rw [hw]; show (if i = 1 ∧ k = 11 then (1 : ℚ) else 0) = 0; simp [hi])
      (by rw [ha]; rfl) Flt.round_zero, Flt.lt_fin_fin_false (lt_irrefl 0)]
    rfl
  have hc1 : p.channel b x y 1 = if b.at' (x - 1) y = p.s then Flt.fin 1 else Flt.fin 0 := by
    by_cases h : b.at' (x - 1) y = p.s
    · simp [NN5Player.channel, List.finRange, hw, ha, rowAgent, NN5Player.widx,
        NN5Player.map, hx, h, Flt.mul_fin_ite, Flt.add_fin_fin, Flt.mul_fin_fin,
        Flt.round_zero, Flt.round_one, Flt.lt, h10]
    · simp [NN5Player.channel, List.finRange, hw, ha, rowAgent, NN5Player.widx,
        NN5Player.map, hx, h, Flt.mul_fin_ite, Flt.add_fin_fin, Flt.mul_fin_fin,
        Flt.round_zero, Flt.round_one, Flt.lt, h10]
  have hwr0 : p.wr 0 = 0 := by rw [hwr]; rfl
  have hwr1 : p.wr 1 = 1 := by rw [hwr]; rfl
  have hwr2 : p.wr 2 = 0 := by rw [hwr]; rfl
  have har' : p.ar = 0 := by rw [har]; rfl
  rw [NN5Player.score_eq, hc 0 (by decide), hc 2 (by decide), hc1, hwr0, hwr1, hwr2, har',
    Flt.round_zero, Flt.round_one, Flt.mul_fin_fin, mul_zero, Flt.round_zero, Flt.add_fin_fin,
    add_zero, Flt.round_zero, Flt.mul_fin_ite, Flt.round_one]
  by_cases h : b.at' (x - 1) y = p.s
  · rw [if_pos h, Flt.add_fin_fin, zero_add, Flt.round_one, Flt.add_fin_fin, add_zero,
      Flt.round_one]
  · rw [if_neg h, Flt.add_fin_fin, add_zero, Flt.round_zero, Flt.add_fin_fin, add_zero,
      Flt.round_zero]

/-- The comparison of two scores that are `1` or `0`. -/
theorem Flt.lt_bit (c d : Bool) :
    Flt.lt (if c = true then Flt.fin 1 else Flt.fin 0)
      (if d = true then Flt.fin 1 else Flt.fin 0) = (!c && d) := by
  cases c <;> cases d <;> simp [Flt.lt]

theorem Flt.bit_above (c : Bool) :
    Flt.lt Flt.ninf (if c = true then Flt.fin 1 else Flt.fin 0) = true := by
  cases c <;> rfl

theorem Flt.bit_ne_nan (c : Bool) : (if c = true then Flt.fin 1 else Flt.fin 0) ≠ Flt.nan := by
  cases c <;> simp

theorem Board.eq_of_storage (b1 b2 : Board) (h : b1.storage = b2.storage) : b1 = b2 := by
  cases b1
  cases b2
  cases h
  rfl

theorem Board.ofMarks_nil : Board.ofMarks [] = emptyBoard := rfl

theorem Board.ofMarks_put (l : List (Nat × Char)) (s : Char) (x y : Nat) :
    (Board.ofMarks l).put s x y = Board.ofMarks ((y * 19 + x, s) :: l) := by
  have hst : ∀ q : Fin 361, ((Board.ofMarks l).put s x y).storage q =
      (Board.ofMarks ((y * 19 + x, s) :: l)).storage q := by
    intro q
    unfold Board.put
    rw [Board.storage_set]
    show _ = if q.val = y * 19 + x then s else look l q.val
    by_cases h : q.val = y * 19 + x
    · rw [if_pos h, if_pos (by rw [h]; push_cast; rfl)]
    · rw [if_neg h, if_neg (by intro e; apply h; exact_mod_cast e)]
      rfl
  exact Board.eq_of_storage _ _ (funext hst)

theorem Board.at_ofMarks (l : List (Nat × Char)) (x y : Nat) (hx : x < 19) (hy : y < 19) :
    (Board.ofMarks l).at' x y = look l (y * 19 + x) := by
  rw [Board.storage_of_at _ x y hx hy]
  rfl

theorem Board.left_ofMarks (l : List (Nat × Char)) (x y : Nat) (hx : x < 19) (hy : y < 19) :
    (Board.ofMarks l).at' ((x : Int) - 1) y =
      if y * 19 + x = 0 then '-' else look l (y * 19 + x - 1) := by
  have hf : Board.flatten ((x : Int) - 1) y = (y : Int) * 19 + ((x : Int) - 1) :=
    Board.flatten_id (by omega) (by omega) (by omega) (by omega)
  unfold Board.at'
  dsimp only
  rw [hf]
  by_cases h0 : y * 19 + x = 0
  · rw [if_pos h0]
    have hp : Board.checkPos ((y : Int) * 19 + ((x : Int) - 1)) = false := by
      rw [Bool.eq_false_iff, Ne, Board.checkPos_iff]
      omega
    rw [hp]
    rfl
  · rw [if_neg h0]
    have hp : Board.checkPos ((y : Int) * 19 + ((x : Int) - 1)) = true := by
      rw [Board.checkPos_iff]
      omega
    rw [hp]
    have hq : (y : Int) * 19 + ((x : Int) - 1) = ((⟨y * 19 + x - 1, by omega⟩ : Fin 361).val : Int) := by
      show _ = ((y * 19 + x - 1 : Nat) : Int)
      omega
    rw [hq, Board.cell_eq_storage]
    rfl

theorem firstBest_sound (l : List (Nat × Char)) (f : Nat → Nat → Bool) (xr yr : Nat)
    (h : firstBest l f xr yr = true) (x y : Nat) (hx : x < 19) (hy : y < 19)
    (he : look l (y * 19 + x) = '.') :
    (f x y = true → f xr yr = true) ∧
    ((x < xr ∨ (x = xr ∧ y < yr)) → f x y = false ∧ f xr yr = true) := by
  unfold firstBest at h
  rw [List.all_eq_true] at h
  have h1 := h x (List.mem_range.2 hx)
  rw [List.all_eq_true] at h1
  have h2 := h1 y (List.mem_range.2 hy)
  rw [he] at h2
  simp only [bne_self_eq_false, Bool.false_or, Bool.and_eq_true, Bool.or_eq_true,
    Bool.not_eq_true', decide_eq_false_iff_not, decide_eq_true_eq] at h2
  obtain ⟨a1, a2⟩ := h2
  constructor
  · intro hf
    rcases a1 with a1 | a1
    · rw [hf] at a1; cases a1
    · exact a1
  · intro hlt
    rcases a2 with a2 | a2
    · exact absurd hlt a2
    · exact a2

/-- The move of an agent whose scores are `1` on the candidates `f` marks
and `0` on the others, on the board of the marks `l`. -/
theorem NN5Player.makeMove_on (p : NN5Player) (l : List (Nat × Char)) (f : Nat → Nat → Bool)
    (hs : ∀ x y : Nat, x < 19 → y < 19 →
      p.score (Board.ofMarks l) x y = if f x y = true then Flt.fin 1 else Flt.fin 0)
    (xr yr : Nat) (hx : xr < 19) (hy : yr < 19) (he : look l (yr * 19 + xr) = '.')
    (hbest : firstBest l f xr yr = true) :
    p.makeMove (Board.ofMarks l) =
      (.ok ((Board.ofMarks ((yr * 19 + xr, p.s) :: l)).checkForWin xr yr),
        Board.ofMarks ((yr * 19 + xr, p.s) :: l)) := by
  have he' : (Board.ofMarks l).at' xr yr = '.' := by
    rw [Board.at_ofMarks l xr yr hx hy]; exact he
  obtain ⟨xs, ys, hxs, hys, hes, _, hst, hmax⟩ := p.scan_found (Board.ofMarks l)
    ⟨xr, yr, hx, hy, he', by rw [hs xr yr hx hy]; exact Flt.bit_above _⟩
  have hes' : look l (ys * 19 + xs) = '.' := by
    rw [← Board.at_ofMarks l xs ys hxs hys]; exact hes
  have hsame : xs = xr ∧ ys = yr := by
    have c1 := firstBest_sound l f xr yr hbest xs ys hxs hys hes'
    have c2 := hmax xr yr ⟨hx, hy⟩ he'
    rw [hs xr yr hx hy, hs xs ys hxs hys, Flt.lt_bit, Flt.lt_bit] at c2
    by_contra hne
    have hlex : (xs < xr ∨ (xs = xr ∧ ys < yr)) ∨ (xr < xs ∨ (xr = xs ∧ yr < ys)) := by omega
    rcases hlex with hlt | hlt
    · obtain ⟨e1, e2⟩ := c1.2 hlt
      have c3 := c2.1
      rw [e1, e2] at c3
      cases c3
    · have c3 := c2.2 hlt (Flt.bit_ne_nan _)
      cases hfs : f xs ys with
      | false =>
        rw [hfs] at c3
        simp at c3
      | true =>
        rw [hfs, c1.1 hfs] at c3
        cases c3
  have hmk := p.makeMove_found (Board.ofMarks l) xr yr hx hy he'
    (by rw [hst]; exact ⟨by rw [hsame.1], by rw [hsame.2]⟩)
  rw [hmk]
  have hput := Board.ofMarks_put l p.s xr yr
  unfold Board.put at hput
  rw [hput]

/-- The move `makeMove_on` describes, with the position, the mark and the
result of the win test given as values. -/
theorem NN5Player.makeMove_eval (p : NN5Player) (l : List (Nat × Char)) (f : Nat → Nat → Bool)
    (hs : ∀ x y : Nat, x < 19 → y < 19 →
      p.score (Board.ofMarks l) x y = if f x y = true then Flt.fin 1 else Flt.fin 0)
    (xr yr q : Nat) (s : Char) (r : Bool) (hq : yr * 19 + xr = q) (hps : p.s = s)
    (hx : xr < 19) (hy : yr < 19) (he : look l q = '.')
    (hbest : firstBest l f xr yr = true)
    (hr : (Board.ofMarks ((q, s) :: l)).checkForWin xr yr = r) :
    p.makeMove (Board.ofMarks l) = (.ok r, Board.ofMarks ((q, s) :: l)) := by
  subst hq
  subst hps
  rw [NN5Player.makeMove_on p l f hs xr yr hx hy he hbest, hr]

theorem NN5Player.score_row_on (p : NN5Player) (h : p.sameParams rowAgent) (s : Char)
    (hps : p.s = s) (hs : s ≠ '-') (l : List (Nat × Char)) (x y : Nat) (hx : x < 19)
    (hy : y < 19) :
    p.score (Board.ofMarks l) x y =
      if leftMark l s x y = true then Flt.fin 1 else Flt.fin 0 := by
  rw [NN5Player.score_of_row p h, Board.left_ofMarks l x y hx hy, hps]
  unfold leftMark
  by_cases h0 : y * 19 + x = 0
  · rw [if_pos h0, if_neg (fun e => hs e.symm)]
    simp [h0]
  · rw [if_neg h0]
    by_cases hl : look l (y * 19 + x - 1) = s
    · simp [h0, hl]
    · simp [h0, hl]

theorem NN5Player.score_zero_on (p : NN5Player) (h : p.sameParams zeroAgent)
    (l : List (Nat × Char)) (x y : Nat) :
    p.score (Board.ofMarks l) x y = if noCell x y = true then Flt.fin 1 else Flt.fin 0 := by
  rw [NN5Player.score_of_zero p h]
  rfl

theorem playLoop_two (fuel : Nat) (i : Int) (b b1 b2 : Board) (p1 p2 : NN5)
    (pl : List (Char × Bool)) (hi : i + 1 < 361)
    (h1 : p1.pet.makeMove b = (.ok false, b1)) (h2 : p2.pet.makeMove b1 = (.ok false, b2)) :
    playLoop (fuel + 1) i ⟨b, p1, p2, pl⟩ =
      playLoop fuel (i + 2) ⟨b2, p1, p2, pl ++ [(p1.pet.s, false), (p2.pet.s, false)]⟩ := by
  rw [playLoop_next fuel i ⟨b, p1, p2, pl⟩ (by omega) b1 h1 (by omega) b2 h2]
  have e : i + 1 + 1 = i + 2 := by omega
  rw [e]
  dsimp only
  rw [List.append_assoc]
  rfl

theorem playLoop_first_wins (fuel : Nat) (i : Int) (b b1 : Board) (p1 p2 : NN5)
    (pl : List (Char × Bool)) (hi : i < 361)
    (h1 : p1.pet.makeMove b = (.ok true, b1)) :
    playLoop (fuel + 1) i ⟨b, p1, p2, pl⟩ =
      (.ok (), ⟨b1, ⟨p1.pet, p1.score + 3⟩, ⟨p2.pet, p2.score - 5⟩,
        pl ++ [(p1.pet.s, true)]⟩) :=
  playLoop_win1 fuel i ⟨b, p1, p2, pl⟩ hi b1 h1

theorem playLoop_second_wins (fuel : Nat) (i : Int) (b b1 b2 : Board) (p1 p2 : NN5)
    (pl : List (Char × Bool)) (hi : i + 1 < 361)
    (h1 : p1.pet.makeMove b = (.ok false, b1)) (h2 : p2.pet.makeMove b1 = (.ok true, b2)) :
    playLoop (fuel + 1) i ⟨b, p1, p2, pl⟩ =
      (.ok (), ⟨b2, ⟨p1.pet, p1.score - 5⟩, ⟨p2.pet, p2.score + 3⟩,
        pl ++ [(p1.pet.s, false), (p2.pet.s, true)]⟩) := by
  rw [playLoop_win2 fuel i ⟨b, p1, p2, pl⟩ (by omega) b1 h1 (by omega) b2 h2]
  dsimp only
  rw [List.append_assoc]
  rfl

/-- The match of an agent with the parameters of `rowAgent` moving first
against an agent with the parameters of `zeroAgent`: the first agent
completes the row `(0, 0) .. (4, 0)` with its fifth placement. -/
theorem playLoop_row_first (a1 a2 : NN5Player) (n1 n2 : Int) (h1 : a1.sameParams rowAgent)
    (h2 : a2.sameParams zeroAgent) (hs1 : a1.s = 'x') (hs2 : a2.s = 'o') (fuel : Nat) :
    playLoop (fuel + 1 + 1 + 1 + 1 + 1) 0 ⟨Board.ofMarks [], ⟨a1, n1⟩, ⟨a2, n2⟩, []⟩ =
      (.ok (), ⟨Board.ofMarks [(4, 'x'), (76, 'o'), (3, 'x'), (57, 'o'), (2, 'x'), (38, 'o'),
          (1, 'x'), (19, 'o'), (0, 'x')],
        ⟨a1, n1 + 3⟩, ⟨a2, n2 - 5⟩,
        [('x', false), ('o', false), ('x', false), ('o', false), ('x', false), ('o', false),
          ('x', false), ('o', false), ('x', true)]⟩) := by
  have s1 := fun l => NN5Player.score_row_on a1 h1 'x' hs1 (by decide) l
  have s2 := fun l (x y : Nat) (_ : x < 19) (_ : y < 19) => NN5Player.score_zero_on a2 h2 l x y
  have m1 := NN5Player.makeMove_eval a1 [] (leftMark [] 'x') (s1 _) 0 0 0 'x' false rfl hs1
    (by decide) (by decide) (by decide) (by decide) (by decide)
  have m2 := NN5Player.makeMove_eval a2 [(0, 'x')] noCell (s2 _) 0 1 19 'o' false rfl hs2
    (by decide) (by decide) (by decide) (by decide) (by decide)
  have m3 := NN5Player.makeMove_eval a1 [(19, 'o'), (0, 'x')]
    (leftMark [(19, 'o'), (0, 'x')] 'x') (s1 _) 1 0 1 'x' false rfl hs1
    (by decide) (by decide) (by decide) (by decide) (by decide)
  have m4 := NN5Player.makeMove_eval a2 [(1, 'x'), (19, 'o'), (0, 'x')] noCell (s2 _)
    0 2 38 'o' false rfl hs2 (by decide) (by decide) (by decide) (by decide) (by decide)
  have m5 := NN5Player.makeMove_eval a1 [(38, 'o'), (1, 'x'), (19, 'o'), (0, 'x')]
    (leftMark [(38, 'o'), (1, 'x'), (19, 'o'), (0, 'x')] 'x') (s1 _) 2 0 2 'x' false rfl hs1
    (by decide) (by decide) (by decide) (by decide) (by decide)
  have m6 := NN5Player.makeMove_eval a2 [(2, 'x'), (38, 'o'), (1, 'x'), (19, 'o'), (0, 'x')]
    noCell (s2 _) 0 3 57 'o' false rfl hs2
    (by decide) (by decide) (by decide) (by decide) (by decide)
  have m7 := NN5Player.makeMove_eval a1
    [(57, 'o'), (2, 'x'), (38, 'o'), (1, 'x'), (19, 'o'), (0, 'x')]
    (leftMark [(57, 'o'), (2, 'x'), (38, 'o'), (1, 'x'), (19, 'o'), (0, 'x')] 'x') (s1 _)
    3 0 3 'x' false rfl hs1 (by decide) (by decide) (by decide) (by decide) (by decide)
  have m8 := NN5Player.makeMove_eval a2
    [(3, 'x'), (57, 'o'), (2, 'x'), (38, 'o'), (1, 'x'), (19, 'o'), (0, 'x')]
    noCell (s2 _) 0 4 76 'o' false rfl hs2
    (by decide) (by decide) (by decide) (by decide) (by decide)
  have m9 := NN5Player.makeMove_eval a1
    [(76, 'o'), (3, 'x'), (57, 'o'), (2, 'x'), (38, 'o'), (1, 'x'), (19, 'o'), (0, 'x')]
    (leftMark [(76, 'o'), (3, 'x'), (57, 'o'), (2, 'x'), (38, 'o'), (1, 'x'), (19, 'o'),
      (0, 'x')] 'x') (s1 _)
    4 0 4 'x' true rfl hs1 (by decide) (by decide) (by decide) (by decide) (by decide)
  rw [playLoop_two _ 0 _ _ _ ⟨a1, n1⟩ ⟨a2, n2⟩ [] (by norm_num) m1 m2,
    playLoop_two _ _ _ _ _ ⟨a1, n1⟩ ⟨a2, n2⟩ _ (by norm_num) m3 m4,
    playLoop_two _ _ _ _ _ ⟨a1, n1⟩ ⟨a2, n2⟩ _ (by norm_num) m5 m6,
    playLoop_two _ _ _ _ _ ⟨a1, n1⟩ ⟨a2, n2⟩ _ (by norm_num) m7 m8,
    playLoop_first_wins _ _ _ _ ⟨a1, n1⟩ ⟨a2, n2⟩ _ (by norm_num) m9]
  simp only [hs1, hs2, List.nil_append, List.cons_append]

/-- The match of an agent with the parameters of `zeroAgent` moving first
against an agent with the parameters of `rowAgent`: the second agent
completes the row `(0, 1) .. (4, 1)` with its fifth placement. -/
theorem playLoop_row_second (a1 a2 : NN5Player) (n1 n2 : Int) (h1 : a1.sameParams zeroAgent)
    (h2 : a2.sameParams rowAgent) (hs1 : a1.s = 'x') (hs2 : a2.s = 'o') (fuel : Nat) :
    playLoop (fuel + 1 + 1 + 1 + 1 + 1) 0 ⟨Board.ofMarks [], ⟨a1, n1⟩, ⟨a2, n2⟩, []⟩ =
      (.ok (), ⟨Board.ofMarks [(23, 'o'), (95, 'x'), (22, 'o'), (76, 'x'), (21, 'o'), (57, 'x'),
          (20, 'o'), (38, 'x'), (19, 'o'), (0, 'x')],
        ⟨a1, n1 - 5⟩, ⟨a2, n2 + 3⟩,
        [('x', false), ('o', false), ('x', false), ('o', false), ('x', false), ('o', false),
          ('x', false), ('o', false), ('x', false), ('o', true)]⟩) := by
  have s1 := fun l (x y : Nat) (_ : x < 19) (_ : y < 19) => NN5Player.score_zero_on a1 h1 l x y
  have s2 := fun l => NN5Player.score_row_on a2 h2 'o' hs2 (by decide) l
  have m1 := NN5Player.makeMove_eval a1 [] noCell (s1 _) 0 0 0 'x' false rfl hs1
    (by decide) (by decide) (by decide) (by decide) (by decide)
  have m2 := NN5Player.makeMove_eval a2 [(0, 'x')] (leftMark [(0, 'x')] 'o') (s2 _)
    0 1 19 'o' false rfl hs2 (by decide) (by decide) (by decide) (by decide) (by decide)
  have m3 := NN5Player.makeMove_eval a1 [(19, 'o'), (0, 'x')] noCell (s1 _)
    0 2 38 'x' false rfl hs1 (by decide) (by decide) (by decide) (by decide) (by decide)
  have m4 := NN5Player.makeMove_eval a2 [(38, 'x'), (19, 'o'), (0, 'x')]
    (leftMark [(38, 'x'), (19, 'o'), (0, 'x')] 'o') (s2 _)
    1 1 20 'o' false rfl hs2 (by decide) (by decide) (by decide) (by decide) (by decide)
  have m5 := NN5Player.makeMove_eval a1 [(20, 'o'), (38, 'x'), (19, 'o'), (0, 'x')] noCell
    (s1 _) 0 3 57 'x' false rfl hs1
    (by decide) (by decide) (by decide) (by decide) (by decide)
  have m6 := NN5Player.makeMove_eval a2 [(57, 'x'), (20, 'o'), (38, 'x'), (19, 'o'), (0, 'x')]
    (leftMark [(57, 'x'), (20, 'o'), (38, 'x'), (19, 'o'), (0, 'x')] 'o') (s2 _)
    2 1 21 'o' false rfl hs2 (by decide) (by decide) (by decide) (by decide) (by decide)
  have m7 := NN5Player.makeMove_eval a1
    [(21, 'o'), (57, 'x'), (20, 'o'), (38, 'x'), (19, 'o'), (0, 'x')] noCell (s1 _)
    0 4 76 'x' false rfl hs1 (by decide) (by decide) (by decide) (by decide) (by decide)
  have m8 := NN5Player.makeMove_eval a2
    [(76, 'x'), (21, 'o'), (57, 'x'), (20, 'o'), (38, 'x'), (19, 'o'), (0, 'x')]
    (leftMark [(76, 'x'), (21, 'o'), (57, 'x'), (20, 'o'), (38, 'x'), (19, 'o'), (0, 'x')] 'o')
    (s2 _) 3 1 22 'o' false rfl hs2
    (by decide) (by decide) (by decide) (by decide) (by decide)
  have m9 := NN5Player.makeMove_eval a1
    [(22, 'o'), (76, 'x'), (21, 'o'), (57, 'x'), (20, 'o'), (38, 'x'), (19, 'o'), (0, 'x')]
    noCell (s1 _) 0 5 95 'x' false rfl hs1
    (by decide) (by decide) (by decide) (by decide) (by decide)
  have m10 := NN5Player.makeMove_eval a2
    [(95, 'x'), (22, 'o'), (76, 'x'), (21, 'o'), (57, 'x'), (20, 'o'), (38, 'x'), (19, 'o'),
      (0, 'x')]
    (leftMark [(95, 'x'), (22, 'o'), (76, 'x'), (21, 'o'), (57, 'x'), (20, 'o'), (38, 'x'),
      (19, 'o'), (0, 'x')] 'o')
    (s2 _) 4 1 23 'o' true rfl hs2
    (by decide) (by decide) (by decide) (by decide) (by decide)
  rw [playLoop_two _ 0 _ _ _ ⟨a1, n1⟩ ⟨a2, n2⟩ [] (by norm_num) m1 m2,
    playLoop_two _ _ _ _ _ ⟨a1, n1⟩ ⟨a2, n2⟩ _ (by norm_num) m3 m4,
    playLoop_two _ _ _ _ _ ⟨a1, n1⟩ ⟨a2, n2⟩ _ (by norm_num) m5 m6,
    playLoop_two _ _ _ _ _ ⟨a1, n1⟩ ⟨a2, n2⟩ _ (by norm_num) m7 m8,
    playLoop_second_wins _ _ _ _ _ ⟨a1, n1⟩ ⟨a2, n2⟩ _ (by norm_num) m9 m10]
  simp only [hs1, hs2, List.nil_append, List.cons_append]

theorem NN5Player.sameParams_init (p q : NN5Player) (s : Char) (h : p.sameParams q) :
    (p.init s).sameParams q := h

/-- The match with the row agent first, as `playGame` runs it. -/
theorem playGame_row_first (p1 p2 : NN5) (h1 : p1.pet.sameParams rowAgent)
    (h2 : p2.pet.sameParams zeroAgent) :
    playGame emptyBoard p1 p2 =
      (.ok (), ⟨Board.ofMarks [(4, 'x'), (76, 'o'), (3, 'x'), (57, 'o'), (2, 'x'), (38, 'o'),
          (1, 'x'), (19, 'o'), (0, 'x')],
        ⟨p1.pet.init 'x', p1.score + 3⟩, ⟨p2.pet.init 'o', p2.score - 5⟩,
        [('x', false), ('o', false), ('x', false), ('o', false), ('x', false), ('o', false),
          ('x', false), ('o', false), ('x', true)]⟩) := by
  rw [playGame_eq]
  exact playLoop_row_first (p1.pet.init 'x') (p2.pet.init 'o') p1.score p2.score
    (NN5Player.sameParams_init _ _ _ h1) (NN5Player.sameParams_init _ _ _ h2) rfl rfl 356

/-- The match with the row agent second, as `playGame` runs it. -/
theorem playGame_row_second (p1 p2 : NN5) (h1 : p1.pet.sameParams zeroAgent)
    (h2 : p2.pet.sameParams rowAgent) :
    playGame emptyBoard p1 p2 =
      (.ok (), ⟨Board.ofMarks [(23, 'o'), (95, 'x'), (22, 'o'), (76, 'x'), (21, 'o'), (57, 'x'),
          (20, 'o'), (38, 'x'), (19, 'o'), (0, 'x')],
        ⟨p1.pet.init 'x', p1.score - 5⟩, ⟨p2.pet.init 'o', p2.score + 3⟩,
        [('x', false), ('o', false), ('x', false), ('o', false), ('x', false), ('o', false),
          ('x', false), ('o', false), ('x', false), ('o', true)]⟩) := by
  rw [playGame_eq]
  exact playLoop_row_second (p1.pet.init 'x') (p2.pet.init 'o') p1.score p2.score
    (NN5Player.sameParams_init _ _ _ h1) (NN5Player.sameParams_init _ _ _ h2) rfl rfl 356

theorem Trainer.spawn_two (t : Trainer) (i : Nat) (h : t.pets.length = 2) :
    t.spawn i =
      ([(t.task i 0).1, ((t.task i 0).2.task i 1).1], ((t.task i 0).2.task i 1).2) := by
  unfold Trainer.spawn
  rw [h]
  rfl

theorem Trainer.join_two (b0 b1 : Board) (pets : List NN5) (L : List MatchRecord) :
    Trainer.join [.ok (), .ok ()] 0 ⟨[b0, b1], pets, L⟩ =
      (.ok (), ⟨[emptyBoard, emptyBoard], pets, L⟩) := by
  have h : Trainer.join [.ok (), .ok ()] 0 ⟨[b0, b1], pets, L⟩ =
      (.ok (), ⟨[b0.clear, b1.clear], pets, L⟩) := rfl
  rw [h, Board.clear_eq, Board.clear_eq]

/-- Round `0` of a population of two: the match of the pair `(0, 1)`. -/
theorem Trainer.round_zero_two (b0 b1 : Board) (p q : NN5) (L : List MatchRecord)
    (g : Except GameError Unit × GameState) (hg : playGame b1 p q = g) (hok : g.1 = .ok ()) :
    Trainer.round ⟨[b0, b1], [p, q], L⟩ 0 =
      (.ok (), ⟨[emptyBoard, emptyBoard], [g.2.p1, g.2.p2],
        L ++ [⟨0, 1, g.2.placed, 1, b1⟩]⟩) := by
  have hspawn : Trainer.spawn ⟨[b0, b1], [p, q], L⟩ 0 =
      ([.ok (), g.1], ⟨[b0, g.2.board], [g.2.p1, g.2.p2],
        L ++ [⟨0, 1, g.2.placed, 1, b1⟩]⟩) := by
    rw [Trainer.spawn_two ⟨[b0, b1], [p, q], L⟩ 0 rfl, Trainer.task_self]
    dsimp only
    rw [Trainer.task_other ⟨[b0, b1], [p, q], L⟩ 0 1 (by decide) b1 p q rfl rfl rfl, hg]
    rfl
  unfold Trainer.round
  rw [hspawn]
  dsimp only
  rw [hok]
  exact Trainer.join_two _ _ _ _

/-- Round `1` of a population of two: the match of the pair `(1, 0)`. -/
theorem Trainer.round_one_two (b0 b1 : Board) (p q : NN5) (L : List MatchRecord)
    (g : Except GameError Unit × GameState) (hg : playGame b0 q p = g) (hok : g.1 = .ok ()) :
    Trainer.round ⟨[b0, b1], [p, q], L⟩ 1 =
      (.ok (), ⟨[emptyBoard, emptyBoard], [g.2.p2, g.2.p1],
        L ++ [⟨1, 0, g.2.placed, 0, b0⟩]⟩) := by
  have hspawn : Trainer.spawn ⟨[b0, b1], [p, q], L⟩ 1 =
      ([g.1, .ok ()], ⟨[g.2.board, b1], [g.2.p2, g.2.p1],
        L ++ [⟨1, 0, g.2.placed, 0, b0⟩]⟩) := by
    rw [Trainer.spawn_two ⟨[b0, b1], [p, q], L⟩ 1 rfl,
      Trainer.task_other ⟨[b0, b1], [p, q], L⟩ 1 0 (by decide) b0 q p rfl rfl rfl, hg]
    dsimp only
    rw [Trainer.task_self]
    rfl
  unfold Trainer.round
  rw [hspawn]
  dsimp only
  rw [hok]
  exact Trainer.join_two _ _ _ _

/-- Round `0` of a population of two when the match of the pair `(0, 1)`
raises: `get()` rethrows after board `0` has been cleared. -/
theorem Trainer.round_zero_two_error (b0 b1 : Board) (p q : NN5) (L : List MatchRecord)
    (g : Except GameError Unit × GameState) (hg : playGame b1 p q = g) (e : GameError)
    (herr : g.1 = .error e) :
    Trainer.round ⟨[b0, b1], [p, q], L⟩ 0 =
      (.error e, ⟨[emptyBoard, g.2.board], [g.2.p1, g.2.p2],
        L ++ [⟨0, 1, g.2.placed, 1, b1⟩]⟩) := by
  have hspawn : Trainer.spawn ⟨[b0, b1], [p, q], L⟩ 0 =
      ([.ok (), g.1], ⟨[b0, g.2.board], [g.2.p1, g.2.p2],
        L ++ [⟨0, 1, g.2.placed, 1, b1⟩]⟩) := by
    rw [Trainer.spawn_two ⟨[b0, b1], [p, q], L⟩ 0 rfl, Trainer.task_self]
    dsimp only
    rw [Trainer.task_other ⟨[b0, b1], [p, q], L⟩ 0 1 (by decide) b1 p q rfl rfl rfl, hg]
    rfl
  unfold Trainer.round
  rw [hspawn]
  dsimp only
  rw [herr]
  have h : Trainer.join [.ok (), .error e] 0
      ⟨[b0, g.2.board], [g.2.p1, g.2.p2], L ++ [⟨0, 1, g.2.placed, 1, b1⟩]⟩ =
      (.error e, ⟨[b0.clear, g.2.board], [g.2.p1, g.2.p2],
        L ++ [⟨0, 1, g.2.placed, 1, b1⟩]⟩) := rfl
  rw [h, Board.clear_eq]

/-- Round `0` of `duelTrainer`: the row agent wins the match of the pair
`(0, 1)`. -/
theorem duelTrainer_round_zero :
    duelTrainer.round 0 =
      (.ok (), ⟨[emptyBoard, emptyBoard],
        [⟨rowAgent.init 'x', 3⟩, ⟨zeroAgent.init 'o', -5⟩],
        [⟨0, 1, [('x', false), ('o', false), ('x', false), ('o', false), ('x', false),
            ('o', false), ('x', false), ('o', false), ('x', true)], 1, emptyBoard⟩]⟩) :=
  Trainer.round_zero_two emptyBoard emptyBoard ⟨rowAgent, 0⟩ ⟨zeroAgent, 0⟩ [] _
    (playGame_row_first ⟨rowAgent, 0⟩ ⟨zeroAgent, 0⟩ ⟨rfl, rfl, rfl, rfl⟩
      ⟨rfl, rfl, rfl, rfl⟩) rfl

/-- The tournament phase of `duelTrainer`: the row agent wins both matches. -/
theorem duelTrainer_tournament :
    duelTrainer.tournament =
      (.ok (), ⟨[emptyBoard, emptyBoard],
        [⟨(rowAgent.init 'x').init 'o', 6⟩, ⟨(zeroAgent.init 'o').init 'x', -10⟩],
        [⟨0, 1, [('x', false), ('o', false), ('x', false), ('o', false), ('x', false),
            ('o', false), ('x', false), ('o', false), ('x', true)], 1, emptyBoard⟩,
          ⟨1, 0, [('x', false), ('o', false), ('x', false), ('o', false), ('x', false),
            ('o', false), ('x', false), ('o', false), ('x', false), ('o', true)], 0,
            emptyBoard⟩]⟩) := by
  have hT : duelTrainer.tournament = duelTrainer.rounds [0, 1] := rfl
  have h0 := duelTrainer_round_zero
  have h1 : Trainer.round ⟨[emptyBoard, emptyBoard],
        [⟨rowAgent.init 'x', 3⟩, ⟨zeroAgent.init 'o', -5⟩],
        [⟨0, 1, [('x', false), ('o', false), ('x', false), ('o', false), ('x', false),
            ('o', false), ('x', false), ('o', false), ('x', true)], 1, emptyBoard⟩]⟩ 1 =
      (.ok (), ⟨[emptyBoard, emptyBoard],
        [⟨(rowAgent.init 'x').init 'o', 6⟩, ⟨(zeroAgent.init 'o').init 'x', -10⟩],
        [⟨0, 1, [('x', false), ('o', false), ('x', false), ('o', false), ('x', false),
            ('o', false), ('x', false), ('o', false), ('x', true)], 1, emptyBoard⟩,
          ⟨1, 0, [('x', false), ('o', false), ('x', false), ('o', false), ('x', false),
            ('o', false), ('x', false), ('o', false), ('x', false), ('o', true)], 0,
            emptyBoard⟩]⟩) :=
    Trainer.round_one_two emptyBoard emptyBoard ⟨rowAgent.init 'x', 3⟩
      ⟨zeroAgent.init 'o', -5⟩ _ _
      (playGame_row_second ⟨zeroAgent.init 'o', -5⟩ ⟨rowAgent.init 'x', 3⟩
        ⟨rfl, rfl, rfl, rfl⟩ ⟨rfl, rfl, rfl, rfl⟩) rfl
  rw [hT, Trainer.rounds_ok duelTrainer 0 [1] (by rw [h0]), h0]
  dsimp only
  rw [Trainer.rounds_ok _ 1 [] (by rw [h1]), h1]
  rfl

/-- The tournament phase of `sinkTrainer`: the match of the pair `(0, 1)`
raises, round `0` rethrows, and round `1` is never run. -/
theorem sinkTrainer_tournament :
    sinkTrainer.tournament =
      (.error (.illegalMove 9 9), ⟨[emptyBoard, centreBoard],
        [⟨sinkAgent.init 'x', 0⟩, ⟨sinkAgent.init 'o', 0⟩],
        [⟨0, 1, [('x', false)], 1, emptyBoard⟩]⟩) := by
  have hT : sinkTrainer.tournament = sinkTrainer.rounds [0, 1] := rfl
  have h0 : sinkTrainer.round 0 =
      (.error (.illegalMove 9 9), ⟨[emptyBoard, centreBoard],
        [⟨sinkAgent.init 'x', 0⟩, ⟨sinkAgent.init 'o', 0⟩],
        [⟨0, 1, [('x', false)], 1, emptyBoard⟩]⟩) :=
    Trainer.round_zero_two_error emptyBoard emptyBoard ⟨sinkAgent, 0⟩ ⟨sinkAgent, 0⟩ [] _
      (playGame_sink ⟨sinkAgent, 0⟩ ⟨sinkAgent, 0⟩ ⟨rfl, rfl, rfl, rfl⟩ ⟨rfl, rfl, rfl, rfl⟩)
      _ rfl
  have hne : (sinkTrainer.round 0).1 ≠ .ok () := by
    rw [h0]
    intro hc
    cases hc
  rw [hT, Trainer.rounds_error sinkTrainer 0 [1] hne, h0]

theorem duelTrainer_boards : ∀ b ∈ duelTrainer.boards, b = emptyBoard := by
  intro b hb
  simp [duelTrainer] at hb
  exact hb

theorem sinkTrainer_boards : ∀ b ∈ sinkTrainer.boards, b = emptyBoard := by
  intro b hb
  simp [sinkTrainer] at hb
  exact hb

/-- In a population of two whose entry `0` won every match of the
tournament phase, no match raised, entry `0` won its two matches and entry
`1` lost its two. -/
theorem Trainer.duel_counts (t : Trainer) (hp : t.pets.length = 2) (hb : t.boards.length = 2)
    (hempty : ∀ b ∈ t.boards, b = emptyBoard) (hlog : t.log = [])
    (hwin : ∀ m ∈ t.tournament.2.log,
      (m.first = 0 → m.firstWon = true) ∧ (m.second = 0 → m.secondWon = true)) :
    t.tournament.1 = .ok () ∧
    scoreAt t.tournament.2.pets 0 = 6 ∧ scoreAt t.tournament.2.pets 1 = -10 := by
  obtain ⟨_, _, hokc, herr⟩ := Trainer.tournament_result t (by rw [hb, hp]) hempty hlog
  have hok : t.tournament.1 = .ok () := by
    by_contra hne
    obtain ⟨m, hm, m1, m2, m3, m4, m5⟩ := herr hne
    obtain ⟨w1, w2⟩ := hwin m hm
    rw [hp] at m1 m2
    by_cases h0 : m.first = 0
    · rw [w1 h0] at m4
      cases m4
    · have h2 : m.second = 0 := by omega
      rw [w2 h2] at m5
      cases m5
  obtain ⟨inv, _, hplayed, _⟩ := hokc hok
  rw [hp] at inv hplayed
  have hp0 : played t.tournament.2.log 0 = 2 := by
    rw [hplayed 0 (by norm_num)]; rfl
  have hp1 : played t.tournament.2.log 1 = 2 := by
    rw [hplayed 1 (by norm_num)]; rfl
  have hrec := inv.hrec
  have hw0 : wins t.tournament.2.log 0 = played t.tournament.2.log 0 := by
    unfold wins played
    apply List.countP_congr
    intro m hm
    obtain ⟨w1, w2⟩ := hwin m hm
    by_cases h1 : m.first = 0
    · simp [h1, w1 h1]
    · by_cases h2 : m.second = 0
      · simp [h2, w2 h2]
      · simp [h1, h2]
  have hl0 : losses t.tournament.2.log 0 = 0 := by
    unfold losses
    rw [List.countP_eq_zero]
    intro m hm
    obtain ⟨w1, w2⟩ := hwin m hm
    obtain ⟨_, _, r3, r4⟩ := hrec m hm
    by_cases h1 : m.first = 0
    · have hs : m.secondWon = false := by
        by_contra hc
        exact r4 ⟨w1 h1, by simpa using hc⟩
      have h2 : ¬ m.second = 0 := fun e => r3 (h1.trans e.symm)
      simp [h1, h2, hs]
    · by_cases h2 : m.second = 0
      · have hf : m.firstWon = false := by
          by_contra hc
          exact r4 ⟨by simpa using hc, w2 h2⟩
        simp [h1, h2, hf]
      · simp [h1, h2]
  have hw1 : wins t.tournament.2.log 1 = 0 := by
    unfold wins
    rw [List.countP_eq_zero]
    intro m hm
    obtain ⟨w1, w2⟩ := hwin m hm
    obtain ⟨r1, r2, r3, r4⟩ := hrec m hm
    by_cases h1 : m.first = 1
    · have h2 : m.second = 0 := by omega
      have hf : m.firstWon = false := by
        by_contra hc
        exact r4 ⟨by simpa using hc, w2 h2⟩
      simp [h1, h2, hf]
    · have h0 : m.first = 0 := by omega
      have h2 : m.second = 1 := by omega
      have hs : m.secondWon = false := by
        by_contra hc
        exact r4 ⟨w1 h0, by simpa using hc⟩
      simp [h0, h2, hs]
  have hl1 : losses t.tournament.2.log 1 = played t.tournament.2.log 1 := by
    unfold losses played
    apply List.countP_congr
    intro m hm
    obtain ⟨w1, w2⟩ := hwin m hm
    obtain ⟨r1, r2, r3, r4⟩ := hrec m hm
    by_cases h1 : m.first = 1
    · have h2 : m.second = 0 := by omega
      simp [h1, h2, w2 h2]
    · have h0 : m.first = 0 := by omega
      have h2 : m.second = 1 := by omega
      simp [h0, h2, w1 h0]
  refine ⟨hok, ?_, ?_⟩
  · rw [inv.hscore 0 (by norm_num), hw0, hl0, hp0]
    rfl
  · rw [inv.hscore 1 (by norm_num), hw1, hl1, hp1]
    rfl

/-- Entry `0` of `duelTrainer` wins both matches of the tournament phase. -/
theorem duelTrainer_wins :
    ∀ m ∈ duelTrainer.tournament.2.log,
      (m.first = 0 → m.firstWon = true) ∧ (m.second = 0 → m.secondWon = true) := by
  rw [duelTrainer_tournament]
  intro m hm
  simp only [List.mem_cons, List.mem_singleton, List.not_mem_nil, or_false] at hm
  rcases hm with rfl | rfl
  · exact ⟨fun _ => by decide, fun h => absurd h (by decide)⟩
  · exact ⟨fun h => absurd h (by decide), fun _ => by decide⟩

/-- C17 (the claim fails as worded). The population `duelTrainer` has two
entries and entry `0` wins both matches of the tournament phase, the one it
moves first in and the one it moves second in; the phase leaves the scores
`6` and `-10`, not `3` and `-5`. -/
theorem duelTrainer_scores_6_10 :
    duelTrainer.pets.length = 2 ∧
    (∀ m ∈ duelTrainer.tournament.2.log,
      (m.first = 0 → m.firstWon = true) ∧ (m.second = 0 → m.secondWon = true)) ∧
    duelTrainer.tournament.2.log.length = 2 ∧
    scoreAt duelTrainer.tournament.2.pets 0 = 6 ∧
    scoreAt duelTrainer.tournament.2.pets 1 = -10 ∧
    ¬ (scoreAt duelTrainer.tournament.2.pets 0 = 3 ∧
      scoreAt duelTrainer.tournament.2.pets 1 = -5) := by
  refine ⟨rfl, duelTrainer_wins, ?_⟩
  rw [duelTrainer_tournament]
  refine ⟨rfl, rfl, rfl, ?_⟩
  rintro ⟨h, _⟩
  exact absurd h (by decide)

/-- C17 (amended). For a population of two entries on two all-Empty boards:
if entry `0` won every match of the tournament phase, the phase returns
without an exception and leaves the scores `6` and `-10`: entry `0` wins one
match as the first mover and one as the second mover. -/
theorem Trainer.duel_scores (t : Trainer) (hp : t.pets.length = 2) (hb : t.boards.length = 2)
    (hempty : ∀ b ∈ t.boards, b = emptyBoard) (hlog : t.log = [])
    (hwin : ∀ m ∈ t.tournament.2.log,
      (m.first = 0 → m.firstWon = true) ∧ (m.second = 0 → m.secondWon = true)) :
    t.tournament.1 = .ok () ∧
    scoreAt t.tournament.2.pets 0 = 6 ∧ scoreAt t.tournament.2.pets 1 = -10 :=
  Trainer.duel_counts t hp hb hempty hlog hwin

theorem Trainer.duel_scores_witness :
    (duelTrainer.pets.length = 2 ∧ duelTrainer.boards.length = 2 ∧
      (∀ b ∈ duelTrainer.boards, b = emptyBoard) ∧ duelTrainer.log = [] ∧
      ∀ m ∈ duelTrainer.tournament.2.log,
        (m.first = 0 → m.firstWon = true) ∧ (m.second = 0 → m.secondWon = true)) ∧
    (duelTrainer.tournament.1 = .ok () ∧
      scoreAt duelTrainer.tournament.2.pets 0 = 6 ∧
      scoreAt duelTrainer.tournament.2.pets 1 = -10) :=
  ⟨⟨rfl, rfl, duelTrainer_boards, rfl, duelTrainer_wins⟩,
    Trainer.duel_scores duelTrainer rfl rfl duelTrainer_boards rfl duelTrainer_wins⟩

/-- C6 (the claim fails as worded). The population `sinkTrainer` has two
entries of finite parameters, two all-Empty boards and an empty log. In the
match of the pair `(0, 1)` the second agent raises the IllegalMove of
`(9, 9)`; the `get()` of round `0` rethrows it, so the tournament phase does
not return: no match is played for the pair `(1, 0)`, and entry `0` has
played one match, not `2 * (2 - 1) = 2`. -/
theorem sinkTrainer_tournament_raises :
    sinkTrainer.boards.length = sinkTrainer.pets.length ∧
    (∀ b ∈ sinkTrainer.boards, b = emptyBoard) ∧ sinkTrainer.log = [] ∧
    sinkTrainer.pets.length = 2 ∧
    sinkTrainer.tournament.1 = .error (.illegalMove 9 9) ∧
    sinkTrainer.tournament.2.log = [⟨0, 1, [('x', false)], 1, emptyBoard⟩] ∧
    pairCount sinkTrainer.tournament.2.log 1 0 = 0 ∧
    played sinkTrainer.tournament.2.log 0 = 1 ∧
    played sinkTrainer.tournament.2.log 1 = 1 := by
  refine ⟨rfl, sinkTrainer_boards, rfl, rfl, ?_⟩
  rw [sinkTrainer_tournament]
  exact ⟨rfl, rfl, by decide, by decide, by decide⟩

theorem Trainer.tournament_round_robin_witness :
    (duelTrainer.boards.length = duelTrainer.pets.length ∧
      (∀ b ∈ duelTrainer.boards, b = emptyBoard) ∧ duelTrainer.log = [] ∧
      duelTrainer.tournament.1 = .ok ()) ∧
    (∀ a b, pairCount duelTrainer.tournament.2.log a b =
      if a ≠ b ∧ a < duelTrainer.pets.length ∧ b < duelTrainer.pets.length then 1 else 0) ∧
    (∀ k, k < duelTrainer.pets.length →
      played duelTrainer.tournament.2.log k = 2 * (duelTrainer.pets.length - 1)) ∧
    (∀ k, k < duelTrainer.pets.length → scoreAt duelTrainer.tournament.2.pets k =
      3 * (wins duelTrainer.tournament.2.log k : Int) -
        5 * (losses duelTrainer.tournament.2.log k : Int)) :=
  ⟨⟨rfl, duelTrainer_boards, rfl, by rw [duelTrainer_tournament]⟩,
    (Trainer.tournament_round_robin duelTrainer rfl duelTrainer_boards rfl).2.2.1
      (by rw [duelTrainer_tournament])⟩

theorem Board.new_eq : Board.new = emptyBoard := by
  unfold Board.new
  rw [Board.clear_eq]

theorem duelTrainer_new : duelTrainer.boards = List.replicate duelTrainer.pets.length Board.new := by
  rw [Board.new_eq]
  rfl

/-- Generation `0` of the training of `duelTrainer` reaches the start of
round `1`: the match of round `0` returns. -/
theorem duelTrainer_roundStart (sort : (NN5 → NN5 → Bool) → List NN5 → List NN5) (M : Nat)
    (rngs : Nat → Nat → Nat → Nat) :
    (duelTrainer.roundStart sort M rngs 0 1).1 = .ok () := by
  have h : duelTrainer.roundStart sort M rngs 0 1 = duelTrainer.rounds [0] := rfl
  rw [h, Trainer.rounds_ok duelTrainer 0 [] (by rw [duelTrainer_round_zero])]
  rfl

theorem Trainer.boards_empty_at_match_start_witness :
    (StdSortContract insertionSortBy ∧ 2 ≤ duelTrainer.pets.length ∧
      duelTrainer.boards = List.replicate duelTrainer.pets.length Board.new ∧
      duelTrainer.log = [] ∧
      (duelTrainer.roundStart insertionSortBy 32767 unitStreams 0 1).1 = .ok ()) ∧
    (∀ b ∈ (duelTrainer.roundStart insertionSortBy 32767 unitStreams 0 1).2.boards,
      b = emptyBoard) ∧
    ∀ r ∈ (duelTrainer.main insertionSortBy 32767 unitStreams).2.log, r.start = emptyBoard :=
  ⟨⟨insertionSortBy_contract, Nat.le_refl 2, duelTrainer_new, rfl,
      duelTrainer_roundStart insertionSortBy 32767 unitStreams⟩,
    ((Trainer.boards_empty_at_match_start insertionSortBy insertionSortBy_contract 32767
      unitStreams duelTrainer (Nat.le_refl 2) duelTrainer_new rfl).1 0 1 (by decide)
      (duelTrainer_roundStart insertionSortBy 32767 unitStreams)).1,
    (Trainer.boards_empty_at_match_start insertionSortBy insertionSortBy_contract 32767
      unitStreams duelTrainer (Nat.le_refl 2) duelTrainer_new rfl).2.2⟩

theorem playGame_score_change_witness :
    (playGame emptyBoard ⟨rowAgent, 0⟩ ⟨zeroAgent, 0⟩).1 = .ok () ∧
    ScoreChange ⟨rowAgent, 0⟩ ⟨zeroAgent, 0⟩
      (playGame emptyBoard ⟨rowAgent, 0⟩ ⟨zeroAgent, 0⟩).2 :=
  ⟨by rw [playGame_row_first ⟨rowAgent, 0⟩ ⟨zeroAgent, 0⟩ ⟨rfl, rfl, rfl, rfl⟩
      ⟨rfl, rfl, rfl, rfl⟩],
    playGame_score_change emptyBoard _ _
      (by rw [playGame_row_first ⟨rowAgent, 0⟩ ⟨zeroAgent, 0⟩ ⟨rfl, rfl, rfl, rfl⟩
        ⟨rfl, rfl, rfl, rfl⟩])⟩

end Gomoku
